import Mathlib

/-!
AI Panel of Experts: the timer and animation state machine of `js/app.js`.

A shallow embedding of the client-side logic of `src/js/app.js`.

* JavaScript strings are lists of characters (`JSString`), so that `charAt`, `+=`
  and `split` are list operations.
* A JavaScript `Map` is an association list in insertion order (`JSMap`), a `Set` a list
  without repetition in insertion order.
* The browser is explicit state: the live `setInterval` registrations, the pending
  `setTimeout` registrations, the next handle the browser will hand out, the clock read
  by `Date.now()`, the part of the document the program reads or that carries the status
  of an agent, and a trace of the externally visible calls (`alert`, `fetch`) and of the
  calls of `updateTimer` and `simulateTyping`.
* An `async` function is split at its `await`: the part before it, and the part that
  runs, in whatever state the page then is, once the awaited call has settled.
* `NaN` (the result of arithmetic on `undefined`) is `none` in `JSNumber`.
* Clock readings and durations are integers. The two computations of the source that
  leave the integers, the token estimate and the demo delays, are carried out in doubles:
  exact rational arithmetic followed by `Double.round`.
* The numeric readouts `#time-…`, `#tokens-…`, `#tps-…`, the send button and the API
  status banner are write-only and are left out of the document model.
-/

set_option maxRecDepth 100000

namespace AIPanel

/-! Configuration -/

/-- The entries of `CONFIG.AI_AGENTS`. -/
inductive Agent
  | openAi | anthropic | gemini | xAiGrok | perplexity | diffy | deepSeek | groq | response
  deriving DecidableEq

/-- The array `CONFIG.AI_AGENTS`, in source order. -/
def CONFIG.AI_AGENTS : List Agent :=
  [.openAi, .anthropic, .gemini, .xAiGrok, .perplexity, .diffy, .deepSeek, .groq, .response]

/-- A JavaScript string, as its sequence of code units. -/
abbrev JSString := List Char

/-- The table `CONFIG.DEMO_RESPONSES`. -/
def CONFIG.DEMO_RESPONSES : Agent → JSString
  | .openAi => "For text analysis, I recommend GPT-4 Turbo for comprehensive understanding, with excellent context retention and nuanced interpretation capabilities.".toList
  | .anthropic => "Claude 3.5 Sonnet excels at text analysis with strong reasoning abilities, particularly for complex document analysis and content evaluation.".toList
  | .gemini => "Gemini Pro offers excellent text analysis with multimodal capabilities, great for processing documents with mixed content types.".toList
  | .xAiGrok => "Grok provides real-time analysis with web access, making it ideal for analyzing current events and trending topics in text.".toList
  | .perplexity => "For text analysis, combine multiple approaches: sentiment analysis, entity extraction, and semantic search for comprehensive insights.".toList
  | .diffy => "Consider using ensemble methods with multiple models - GPT-4 for reasoning, BERT for classification, and T5 for summarization.".toList
  | .deepSeek => "DeepSeek Coder V2 offers excellent text analysis for technical documents and code-related content with strong reasoning.".toList
  | .groq => "Groq provides ultra-fast inference for text analysis, ideal for real-time applications requiring immediate response.".toList
  | .response => "Best text analysis models: GPT-4 Turbo (general), Claude 3.5 (reasoning), Gemini Pro (multimodal), specialized BERT variants (classification).".toList

/-- The constant `CONFIG.DEMO_DELAYS.MIN`. -/
def CONFIG.DEMO_DELAYS.MIN : ℚ := 1000

/-- The constant `CONFIG.DEMO_DELAYS.MAX`. -/
def CONFIG.DEMO_DELAYS.MAX : ℚ := 4000

/-- The constant `CONFIG.DEMO_DELAYS.STAGGER`. -/
def CONFIG.DEMO_DELAYS.STAGGER : ℚ := 200

/-- A JavaScript number that is an integer or `NaN` (`none`). -/
abbrev JSNumber := Option Int

/-! Doubles -/

/-- The integer nearest to `x`, the even one of the two when `x` lies halfway. -/
def roundHalfEven (x : ℚ) : ℤ :=
  if x - ⌊x⌋ < 1 / 2 then ⌊x⌋
  else if 1 / 2 < x - ⌊x⌋ then ⌊x⌋ + 1
  else if ⌊x⌋ % 2 = 0 then ⌊x⌋ else ⌊x⌋ + 1

/-- The binary exponent under which a double holds the non-negative number `x`: the
integer part of its logarithm to base 2, and the least exponent -1022 for the numbers
below the normal range. -/
def Double.exponent (x : ℚ) : ℤ :=
  max (Int.log 2 x) (-1022)

/-- The IEEE 754 double nearest to a non-negative rational `x` below `2 ^ 1024`: `x` is
rounded to 53 significant bits (to a multiple of `2 ^ -1074` below the normal range), a tie
going to the even significand. Every arithmetic operation of the source on numbers that
are not known to be integers is the exact operation followed by this rounding. -/
def Double.round (x : ℚ) : ℚ :=
  (roundHalfEven (x * (2 : ℚ) ^ (52 - Double.exponent x)) : ℚ)
    * (2 : ℚ) ^ (Double.exponent x - 52)

/-- The sum `a + b` of two doubles. -/
def Double.add (a b : ℚ) : ℚ :=
  Double.round (a + b)

/-- The difference `a - b` of two doubles, `b` at most `a`. -/
def Double.sub (a b : ℚ) : ℚ :=
  Double.round (a - b)

/-- The product `a * b` of two doubles. -/
def Double.mul (a b : ℚ) : ℚ :=
  Double.round (a * b)

/-- The second argument of `TimerManager.updateTimer`. -/
inductive Status
  | responding | completed | error
  deriving DecidableEq

/-! `Map` and `Set` -/

/-- A JavaScript `Map` keyed by agents: its entries in insertion order. -/
abbrev JSMap (V : Type) := List (Agent × V)

namespace JSMap

variable {V : Type}

/-- JavaScript `Map.prototype.get`: the value of the entry for the key, `none` for `undefined`. -/
def get (m : JSMap V) (k : Agent) : Option V :=
  match m with
  | [] => none
  | (k', v) :: rest => if k' = k then some v else get rest k

/-- JavaScript `Map.prototype.has`. -/
def has (m : JSMap V) (k : Agent) : Bool :=
  (get m k).isSome

/-- JavaScript `Map.prototype.set`: an existing entry keeps its place, a new one goes last. -/
def set (m : JSMap V) (k : Agent) (v : V) : JSMap V :=
  match m with
  | [] => [(k, v)]
  | (k', v') :: rest => if k' = k then (k, v) :: rest else (k', v') :: set rest k v

/-- JavaScript `Map.prototype.delete`: the entry for the key is removed (keys are unique
in a map the operations below build, so the filter drops at most one entry). -/
def delete (m : JSMap V) (k : Agent) : JSMap V :=
  m.filter (fun e => decide (e.1 ≠ k))

/-- The keys in insertion order. -/
def keys (m : JSMap V) : List Agent :=
  m.map Prod.fst

/-- The values in insertion order, as `forEach` visits them. -/
def values (m : JSMap V) : List V :=
  m.map Prod.snd

end JSMap

/-- JavaScript `Set.prototype.add` on a set kept in insertion order. -/
def JSSet.add (s : List Agent) (a : Agent) : List Agent :=
  if a ∈ s then s else s ++ [a]

/-- JavaScript `Set.prototype.delete`. -/
def JSSet.delete (s : List Agent) (a : Agent) : List Agent :=
  s.filter (fun b => decide (b ≠ a))

/-! Application state -/

/-- The object `appState.sessionStats`. -/
structure Stats where
  totalRequests : Nat
  totalResponseTime : JSNumber
  agentTimes : JSMap (List JSNumber)
  fastestAgent : Option Agent
  slowestAgent : Option Agent
  deriving DecidableEq

/-- The fields of class `AppState`. -/
structure AppState where
  currentSessionId : Option JSString
  requestStartTime : Option Nat
  isDemo : Bool
  activeModels : List Agent
  agentTimers : JSMap Nat
  agentStartTimes : JSMap Nat
  agentTokenCounters : JSMap Nat
  agentTokenTimers : JSMap Nat
  sessionStats : Stats
  deriving DecidableEq

/-- The state `new AppState()` builds. -/
def AppState.new : AppState where
  currentSessionId := none
  requestStartTime := none
  isDemo := false
  activeModels := CONFIG.AI_AGENTS
  agentTimers := []
  agentStartTimes := []
  agentTokenCounters := []
  agentTokenTimers := []
  sessionStats :=
    { totalRequests := 0, totalResponseTime := some 0, agentTimes := [],
      fastestAgent := none, slowestAgent := none }

/-! The browser -/

/-- The callback of a `setInterval` registration together with the variables its closure
owns: the refresh task of `startResponding`, the demo token task of `startResponding`,
and the reveal task of `simulateTyping` with its text and its counter `i`. -/
inductive Callback
  | refresh (agent : Agent)
  | token (agent : Agent)
  | typing (agent : Agent) (text : JSString) (i : Nat)
  deriving DecidableEq

/-- A live interval: the handle `setInterval` returned and what it runs. -/
structure Interval where
  id : Nat
  cb : Callback
  deriving DecidableEq

/-- The elements of the page that belong to one agent; `none` is an element that is not
in the document (`DOMUtils.$` returns `null`). Class names are kept as the list that is
joined with spaces. -/
structure AgentView where
  timerCard : Option (List String)
  chatWindow : Option (List String)
  statusText : Option String
  typingIndicator : Option String
  responseDiv : Option JSString
  deriving DecidableEq

/-- The per-agent part of the document. -/
abbrev Dom := Agent → AgentView

/-- What the program asks of the outside world, and the calls the claims speak about. -/
inductive Event
  | alert (message : String)
  | fetch (sessionId instructions prompt : Option JSString)
  | updateTimer (agent : Agent) (status : Status)
  | simulateTyping (agent : Agent) (text : JSString)
  deriving DecidableEq

/-- What a `setTimeout` registration of `runDemo` runs: the staggered callback of an
agent with its index, the callback it schedules in turn, and the end of demo mode. -/
inductive TimeoutAction
  | demoRespond (agent : Agent) (index : Nat)
  | demoType (agent : Agent)
  | demoEnd
  deriving DecidableEq

/-- A pending timeout: its handle, the delay in milliseconds it was scheduled with, and
what it runs. -/
structure Timeout where
  id : Nat
  delay : ℚ
  action : TimeoutAction
  deriving DecidableEq

/-- The program state together with the browser state it runs against. Intervals and
timeouts draw their handles from the one counter `nextHandle`. -/
structure World where
  app : AppState
  dom : Dom
  live : List Interval
  timeouts : List Timeout
  nextHandle : Nat
  now : Nat
  trace : List Event

/-- JavaScript `setTimeout(action, delay)`: registers the one-shot callback under a fresh handle. -/
def setTimeout (w : World) (action : TimeoutAction) (delay : ℚ) : World :=
  { w with timeouts := w.timeouts ++ [⟨w.nextHandle, delay, action⟩],
           nextHandle := w.nextHandle + 1 }

/-- JavaScript `setInterval(cb, …)`: registers the callback under a fresh handle and returns it. -/
def setInterval (w : World) (cb : Callback) : World × Nat :=
  ({ w with live := w.live ++ [⟨w.nextHandle, cb⟩], nextHandle := w.nextHandle + 1 },
    w.nextHandle)

/-- JavaScript `clearInterval(h)`: the registration with that handle, if any, is dropped. -/
def clearInterval (w : World) (h : Nat) : World :=
  { w with live := w.live.filter (fun iv => decide (iv.id ≠ h)) }

/-- Replaces the view of one agent. -/
def Dom.put (d : Dom) (a : Agent) (v : AgentView) : Dom :=
  fun b => if b = a then v else d b

/-- Sets `textContent` of `#status-agent`, if the element exists (`DOMUtils.updateText`). -/
def setStatusText (w : World) (a : Agent) (s : String) : World :=
  let v : AgentView := { (w.dom a) with statusText := (w.dom a).statusText.map (fun _ => s) }
  { w with dom := w.dom.put a v }

/-- Sets `textContent` of `#response-agent`, if the element exists. -/
def setResponseText (w : World) (a : Agent) (s : JSString) : World :=
  let v : AgentView := { (w.dom a) with responseDiv := (w.dom a).responseDiv.map (fun _ => s) }
  { w with dom := w.dom.put a v }

/-- Sets `className` of `#typing-agent`, if the element exists. -/
def setTypingClass (w : World) (a : Agent) (s : String) : World :=
  let v : AgentView := { (w.dom a) with typingIndicator := (w.dom a).typingIndicator.map (fun _ => s) }
  { w with dom := w.dom.put a v }

/-- Sets `className` of `#timer-agent` and `#chat-agent`, for those that exist. -/
def setCardClasses (w : World) (a : Agent) (timerClasses chatClasses : List String) : World :=
  let v : AgentView :=
    { (w.dom a) with
      timerCard := (w.dom a).timerCard.map (fun _ => timerClasses)
      chatWindow := (w.dom a).chatWindow.map (fun _ => chatClasses) }
  { w with dom := w.dom.put a v }

/-- Appends an event to the trace. -/
def emit (w : World) (e : Event) : World :=
  { w with trace := w.trace ++ [e] }

/-! `AppState` methods -/

/-- The method `AppState.clearAllTimers`. -/
def AppState.clearAllTimers (w : World) : World :=
  let w1 := w.app.agentTimers.values.foldl clearInterval w
  let w2 := w1.app.agentTokenTimers.values.foldl clearInterval w1
  { w2 with app := { w2.app with agentTimers := [], agentTokenTimers := [] } }

/-- The method `AppState.getActiveAgents`. -/
def AppState.getActiveAgents (w : World) : List Agent :=
  w.app.activeModels

/-- The method `AppState.reset`. -/
def AppState.reset (w : World) : World :=
  let w1 := AppState.clearAllTimers w
  let w2 : World := { w1 with app := { w1.app with agentStartTimes := [], agentTokenCounters := [] } }
  (AppState.getActiveAgents w2).foldl
    (fun (s : World) agent =>
      { s with app := { s.app with
          agentStartTimes := s.app.agentStartTimes.set agent s.now
          agentTokenCounters := s.app.agentTokenCounters.set agent 0 } })
    w2

/-! Session statistics -/

/-- Addition of JavaScript numbers: `NaN` absorbs. -/
def JSNumber.add (a b : JSNumber) : JSNumber :=
  match a, b with
  | some x, some y => some (x + y)
  | _, _ => none

/-- The value `times.reduce((a, b) => a + b, 0) / times.length` of the scan in
`updateStats`, in exact arithmetic; `none` is `NaN` (a `NaN` summand, or `0 / 0` for an
empty array). The durations are differences of `Date.now()` readings, so the sums are
integers far below `2 ^ 53` and exact in the source as well. -/
def SessionStats.avgTime (times : List JSNumber) : Option ℚ :=
  match times.foldl JSNumber.add (some 0) with
  | none => none
  | some total => if times.length = 0 then none else some ((total : ℚ) / (times.length : ℚ))

/-- The four local variables of the scan in `updateStats`; `fastestTime = none` is the
initial `Infinity`. -/
structure Scan where
  fastestTime : Option ℚ
  slowestTime : ℚ
  fastestAgent : Option Agent
  slowestAgent : Option Agent

/-- The variables before the scan: `Infinity`, `0`, `null`, `null`. -/
def Scan.start : Scan :=
  { fastestTime := none, slowestTime := 0, fastestAgent := none, slowestAgent := none }

/-- The test `avgTime < fastestTime`. -/
def Scan.belowFastest (avg : ℚ) (fastestTime : Option ℚ) : Bool :=
  match fastestTime with
  | none => true
  | some f => decide (avg < f)

/-- The body of the `forEach` over `agentTimes` in `updateStats`. Every comparison with a
`NaN` average is false, so such an entry changes nothing. -/
def Scan.step (s : Scan) (entry : Agent × List JSNumber) : Scan :=
  match SessionStats.avgTime entry.2 with
  | none => s
  | some avg =>
    let s1 : Scan :=
      if Scan.belowFastest avg s.fastestTime then
        { s with fastestTime := some avg, fastestAgent := some entry.1 }
      else s
    if avg > s1.slowestTime then
      { s1 with slowestTime := avg, slowestAgent := some entry.1 }
    else s1

/-- The whole scan over the entries of `agentTimes` in insertion order. -/
def Scan.run (agentTimes : JSMap (List JSNumber)) : Scan :=
  agentTimes.foldl Scan.step Scan.start

/-- The map `agentTimes` once `updateStats` has created the agent's array if it was
missing and pushed the new duration onto it. -/
def SessionStats.record (agentTimes : JSMap (List JSNumber)) (agent : Agent)
    (responseTime : JSNumber) : JSMap (List JSNumber) :=
  let created := if agentTimes.has agent then agentTimes else agentTimes.set agent []
  created.set agent ((created.get agent).getD [] ++ [responseTime])

/-- The method `SessionStats.updateStats` (the call of `updateStatsUI` only writes readouts). -/
def SessionStats.updateStats (w : World) (agent : Agent) (responseTime : JSNumber) : World :=
  let stats := w.app.sessionStats
  let agentTimes := SessionStats.record stats.agentTimes agent responseTime
  let scan := Scan.run agentTimes
  { w with app := { w.app with sessionStats :=
      { stats with
        agentTimes := agentTimes
        totalResponseTime := JSNumber.add stats.totalResponseTime responseTime
        fastestAgent := scan.fastestAgent
        slowestAgent := scan.slowestAgent } } }

/-! Timer manager -/

/-- The method `TimerManager.stopTimers`. -/
def TimerManager.stopTimers (w : World) (agent : Agent) : World :=
  let w1 : World :=
    match w.app.agentTimers.get agent with
    | some h =>
      let c := clearInterval w h
      { c with app := { c.app with agentTimers := c.app.agentTimers.delete agent } }
    | none => w
  match w1.app.agentTokenTimers.get agent with
  | some h =>
    let c := clearInterval w1 h
    { c with app := { c.app with agentTokenTimers := c.app.agentTokenTimers.delete agent } }
  | none => w1

/-- The method `TimerManager.startResponding`, without the two `push` calls on the class arrays,
which `updateTimer` below accounts for. -/
def TimerManager.startResponding (w : World) (agent : Agent) : World :=
  let w1 := setStatusText w agent (if w.app.isDemo then "Simulating..." else "Responding...")
  let w2 : World :=
    if !w1.app.agentTimers.has agent then
      let r := setInterval w1 (.refresh agent)
      { r.1 with app := { r.1.app with agentTimers := r.1.app.agentTimers.set agent r.2 } }
    else w1
  if w2.app.isDemo && !w2.app.agentTokenTimers.has agent then
    let r := setInterval w2 (.token agent)
    { r.1 with app := { r.1.app with agentTokenTimers := r.1.app.agentTokenTimers.set agent r.2 } }
  else w2

/-- The method `TimerManager.completeResponse`, without the `push` calls; the elapsed time is
`Date.now() - agentStartTimes.get(agent)`, `NaN` when the agent has no start time. -/
def TimerManager.completeResponse (w : World) (agent : Agent) : World :=
  let w1 := setStatusText w agent (if w.app.isDemo then "Demo Complete ✨" else "Completed ✅")
  let w2 := TimerManager.stopTimers w1 agent
  let elapsed : JSNumber := (w2.app.agentStartTimes.get agent).map (fun start => (w2.now : Int) - start)
  SessionStats.updateStats w2 agent elapsed

/-- The method `TimerManager.handleError`, without the `push` calls. -/
def TimerManager.handleError (w : World) (agent : Agent) : World :=
  TimerManager.stopTimers (setStatusText w agent "Error ❌") agent

/-- The class each branch of `updateTimer` pushes onto `timerClasses` and `chatClasses`. -/
def TimerManager.statusClasses : Status → String × String
  | .responding => ("responding", "active")
  | .completed => ("completed", "completed")
  | .error => ("error", "error")

/-- The method `TimerManager.updateTimer`. -/
def TimerManager.updateTimer (w : World) (agent : Agent) (status : Status) : World :=
  let w0 := emit w (.updateTimer agent status)
  let demo : List String := if w0.app.isDemo then ["demo"] else []
  let w1 :=
    match status with
    | .responding => TimerManager.startResponding w0 agent
    | .completed => TimerManager.completeResponse w0 agent
    | .error => TimerManager.handleError w0 agent
  setCardClasses w1 agent
    (["timer-card"] ++ demo ++ [(TimerManager.statusClasses status).1])
    (["chat-window"] ++ demo ++ [(TimerManager.statusClasses status).2])

/-! Typing simulator -/

/-- JavaScript `String.prototype.charAt`: the empty string outside the string. -/
def charAt (s : JSString) (i : Nat) : JSString :=
  (s.get? i).toList

/-- The pieces of `s.split(SPACE)`; the empty string gives one empty piece. -/
def splitSpace : JSString → List JSString
  | [] => [[]]
  | c :: cs =>
    if c = Char.ofNat 32 then [] :: splitSpace cs
    else
      match splitSpace cs with
      | [] => [[c]]
      | piece :: pieces => (c :: piece) :: pieces

/-- The estimate as the specification words it, `ceil(13 * wordCount / 10)` in exact
arithmetic: the least integer that is at least `13 * wordCount / 10`. -/
def tokenEstimate (wordCount : Nat) : Nat :=
  ⌈(13 * (wordCount : ℚ)) / 10⌉₊

/-- The value `Math.ceil(wordCount * 1.3)` of the source: the literal is the double
nearest to 13/10, the product is rounded to a double, and the ceiling is taken of that. -/
def TypingSimulator.tokenCount (wordCount : Nat) : Nat :=
  ⌈Double.mul (wordCount : ℚ) (Double.round (13 / 10))⌉₊

/-- The method `TypingSimulator.simulateTyping`; the interval period `typingSpeed` is not state. -/
def TypingSimulator.simulateTyping (w : World) (agent : Agent) (text : JSString) : World :=
  let w0 := emit w (.simulateTyping agent text)
  if (w0.dom agent).responseDiv.isNone || (w0.dom agent).typingIndicator.isNone then w0
  else
    let w1 := setTypingClass w0 agent "typing-indicator active"
    let w2 := setResponseText w1 agent []
    (setInterval w2 (.typing agent text 0)).1

/-- The callback of `simulateTyping`, run for the registration `h` whose closure holds
`text` and the counter `i`. -/
def TypingSimulator.typeInterval (w : World) (h : Nat) (agent : Agent) (text : JSString)
    (i : Nat) : World :=
  if i < text.length then
    let view := w.dom agent
    let shown : AgentView :=
      { view with responseDiv := view.responseDiv.map (fun content => content ++ charAt text i) }
    let w1 : World :=
      { w with
        dom := w.dom.put agent shown
        live := w.live.map (fun iv => if iv.id = h then ⟨h, .typing agent text (i + 1)⟩ else iv) }
    let wordCount := (splitSpace (shown.responseDiv.getD [])).length
    let tokens := TypingSimulator.tokenCount wordCount
    { w1 with app := { w1.app with
        agentTokenCounters := w1.app.agentTokenCounters.set agent tokens } }
  else
    let w1 := clearInterval w h
    let w2 := setTypingClass w1 agent "typing-indicator"
    TimerManager.updateTimer w2 agent .completed

/-- The browser runs the callback registered under handle `h` once; a handle that is not
live runs nothing. `rnd` is `Math.floor(Math.random() * 3)`. The refresh callback only
writes readouts. -/
def fire (w : World) (h : Nat) (rnd : Fin 3) : World :=
  match w.live.find? (fun iv => decide (iv.id = h)) with
  | none => w
  | some iv =>
    match iv.cb with
    | .refresh _ => w
    | .token agent =>
      let currentTokens := (w.app.agentTokenCounters.get agent).getD 0
      let newTokens := currentTokens + rnd.val + 1
      { w with app := { w.app with
          agentTokenCounters := w.app.agentTokenCounters.set agent newTokens } }
    | .typing agent text i => TypingSimulator.typeInterval w h agent text i

/-- The callback of handle `h` runs once per entry of `waits`, the clock advancing by
that entry before the run. -/
def fireTimes (h : Nat) (waits : List Nat) (w : World) : World :=
  waits.foldl (fun s dt => fire { s with now := s.now + dt } h 0) w

/-! Request handler -/

/-- The method `UIManager.resetInterface`: the reset of the cards of the active agents. -/
def UIManager.resetInterface (w : World) : World :=
  (AppState.getActiveAgents w).foldl
    (fun (s : World) agent =>
      let cls : List String := if s.app.isDemo then ["demo"] else []
      let view := s.dom agent
      let cleared : AgentView :=
        { timerCard := view.timerCard.map (fun _ => ["timer-card"] ++ cls)
          chatWindow := view.chatWindow.map (fun _ => ["chat-window"] ++ cls)
          statusText := view.statusText.map (fun _ => "Waiting...")
          typingIndicator := view.typingIndicator.map (fun _ => "typing-indicator")
          responseDiv := view.responseDiv.map (fun _ => []) }
      { s with dom := s.dom.put agent cleared })
    w

/-- The method `RequestHandler.prepareForRequest`. -/
def RequestHandler.prepareForRequest (w : World) : World :=
  let w1 := AppState.reset w
  let w2 := UIManager.resetInterface w1
  let w3 : World := { w2 with app := { w2.app with requestStartTime := some w2.now } }
  (AppState.getActiveAgents w3).foldl
    (fun s agent => TimerManager.updateTimer s agent .responding) w3

/-- The code points `String.prototype.trim` strips: white space and line terminators. -/
def isTrimmable (c : Char) : Bool :=
  decide (c.toNat ∈ [9, 10, 11, 12, 13, 32, 160, 5760, 8232, 8233, 8239, 8287, 12288, 65279])
    || (decide (8192 ≤ c.toNat) && decide (c.toNat ≤ 8202))

/-- JavaScript `String.prototype.trim`. -/
def trim (s : JSString) : JSString :=
  ((s.dropWhile isTrimmable).reverse.dropWhile isTrimmable).reverse

/-- The values of the three inputs `#sessionId`, `#instructions`, `#prompt`; `none` is an
input that is not in the document. -/
structure Form where
  sessionId : Option JSString
  instructions : Option JSString
  prompt : Option JSString

/-- Truthiness of a string or `undefined`: a non-empty string. -/
def truthy (v : Option JSString) : Bool :=
  match v with
  | some (_ :: _) => true
  | _ => false

/-- A property of the request payload after `if (!data[key]) delete data[key]`. -/
def keepTruthy (v : Option JSString) : Option JSString :=
  if truthy v then v else none

/-- What `sendRequest` holds on to while it awaits the network call. -/
structure Pending where
  activeAgents : List Agent
  deriving DecidableEq

/-- The object the server answers with: the text under each agent key, if any. -/
abbrev Response := Agent → Option JSString

/-- How `fetch` settled: rejected, or resolved with a status that is `ok` or not and a
body that parses as such an object or not at all. -/
inductive FetchOutcome
  | rejected
  | responded (ok : Bool) (json : Option Response)

/-- The method `APIHandler.sendRequest` from its `fetch` on: the result, or `none` when it throws. -/
def APIHandler.sendRequest (outcome : FetchOutcome) : Option Response :=
  match outcome with
  | .rejected => none
  | .responded false _ => none
  | .responded true none => none
  | .responded true (some result) => some result

/-- The method `RequestHandler.sendRequest` up to its `await`: the validation, the session set-up,
`prepareForRequest` and the `fetch` of the payload. `none` is the early `return`. -/
def RequestHandler.sendRequest (w : World) (form : Form) : World × Option Pending :=
  let w0 : World := { w with app := { w.app with isDemo := false } }
  let sessionId := form.sessionId.map trim
  let instructions := form.instructions.map trim
  let prompt := form.prompt.map trim
  if !truthy prompt then
    (emit w0 (.alert "Please enter a prompt!"), none)
  else
    let activeAgents := AppState.getActiveAgents w0
    if activeAgents.length = 0 then
      (emit w0 (.alert "Please select at least one AI model!"), none)
    else
      let session : JSString :=
        if truthy sessionId then sessionId.getD [] else "session_".toList ++ Nat.toDigits 10 w0.now
      let w1 : World := { w0 with app := { w0.app with currentSessionId := some session } }
      let w2 : World := { w1 with app := { w1.app with sessionStats :=
        { w1.app.sessionStats with totalRequests := w1.app.sessionStats.totalRequests + 1 } } }
      let w3 := RequestHandler.prepareForRequest w2
      let w4 := emit w3
        (.fetch (keepTruthy w3.app.currentSessionId) (keepTruthy instructions) (keepTruthy prompt))
      (w4, some { activeAgents := activeAgents })

/-- The callback of the `forEach` of the `try` block, for one agent. -/
def RequestHandler.processResponse (result : Response) (w : World) (agent : Agent) : World :=
  if truthy (result agent) then
    TypingSimulator.simulateTyping w agent ((result agent).getD [])
  else
    TimerManager.updateTimer
      (setResponseText w agent "No response from this agent".toList) agent .completed

/-- The `forEach` of the `try` block: one step per agent that was active at the start. -/
def RequestHandler.processResponses (w : World) (activeAgents : List Agent)
    (result : Response) : World :=
  activeAgents.foldl (RequestHandler.processResponse result) w

/-- The `forEach` of the `catch` block. -/
def RequestHandler.handleFailure (w : World) (activeAgents : List Agent) : World :=
  activeAgents.foldl
    (fun s agent =>
      TimerManager.updateTimer
        (setResponseText s agent "CORS blocked - try demo mode or deploy to Netlify".toList)
        agent .error)
    w

/-- The method `RequestHandler.sendRequest` from the moment the awaited call settles, in whatever
state the page then is. -/
def RequestHandler.sendRequestSettled (w : World) (pending : Pending)
    (outcome : FetchOutcome) : World :=
  match APIHandler.sendRequest outcome with
  | some result => RequestHandler.processResponses w pending.activeAgents result
  | none => RequestHandler.handleFailure w pending.activeAgents

/-- The value `CONFIG.DEMO_DELAYS.MIN + Math.random() * (CONFIG.DEMO_DELAYS.MAX -
CONFIG.DEMO_DELAYS.MIN) + (index * CONFIG.DEMO_DELAYS.STAGGER)` that the staggered callback
of `runDemo` computes, for the draw `rnd` of `Math.random()`. -/
def RequestHandler.responseDelay (rnd : ℚ) (index : Nat) : ℚ :=
  Double.add
    (Double.add CONFIG.DEMO_DELAYS.MIN
      (Double.mul rnd (Double.sub CONFIG.DEMO_DELAYS.MAX CONFIG.DEMO_DELAYS.MIN)))
    (Double.mul (index : ℚ) CONFIG.DEMO_DELAYS.STAGGER)

/-- The method `RequestHandler.runDemo`: the mode flag, the validation, the session set-up,
`prepareForRequest`, one staggered timeout per active agent and the timeout that ends
demo mode. Only the emptiness of the prompt input is read, for a readout. -/
def RequestHandler.runDemo (w : World) : World :=
  let w0 : World := { w with app := { w.app with isDemo := true } }
  let activeAgents := AppState.getActiveAgents w0
  if activeAgents.length = 0 then
    emit w0 (.alert "Please select at least one AI model!")
  else
    let w1 : World := { w0 with app := { w0.app with
      currentSessionId := some ("demo_".toList ++ Nat.toDigits 10 w0.now) } }
    let w2 : World := { w1 with app := { w1.app with sessionStats :=
      { w1.app.sessionStats with totalRequests := w1.app.sessionStats.totalRequests + 1 } } }
    let w3 := RequestHandler.prepareForRequest w2
    let w4 := (activeAgents.enum).foldl
      (fun s (entry : Nat × Agent) =>
        setTimeout s (.demoRespond entry.2 entry.1) (Double.mul (entry.1 : ℚ) 100))
      w3
    setTimeout w4 .demoEnd 8000

/-- The browser runs the pending timeout with handle `h`, which is then spent; `rnd` is
the value of `Math.random()` the callback draws, a number in `[0, 1)`. -/
def fireTimeout (w : World) (h : Nat) (rnd : ℚ) : World :=
  match w.timeouts.find? (fun t => decide (t.id = h)) with
  | none => w
  | some t =>
    let w0 : World := { w with timeouts := w.timeouts.filter (fun u => decide (u.id ≠ h)) }
    match t.action with
    | .demoRespond agent index =>
      let w1 := TimerManager.updateTimer w0 agent .responding
      let responseDelay := RequestHandler.responseDelay rnd index
      setTimeout w1 (.demoType agent) responseDelay
    | .demoType agent =>
      TypingSimulator.simulateTyping w0 agent (CONFIG.DEMO_RESPONSES agent)
    | .demoEnd => { w0 with app := { w0.app with isDemo := false } }

/-- The method `ModelManager.handleToggle` for a checkbox that exists: the agent joins or leaves
`activeModels` according to the new state of its checkbox. -/
def ModelManager.handleToggle (w : World) (agent : Agent) (checked : Bool) : World :=
  let models :=
    if checked then JSSet.add w.app.activeModels agent
    else JSSet.delete w.app.activeModels agent
  { w with app := { w.app with activeModels := models } }

/-- The method `ModelManager.selectAll`. -/
def ModelManager.selectAll (w : World) : World :=
  CONFIG.AI_AGENTS.foldl (fun s agent => ModelManager.handleToggle s agent true) w

/-- The method `ModelManager.deselectAll`. -/
def ModelManager.deselectAll (w : World) : World :=
  CONFIG.AI_AGENTS.foldl (fun s agent => ModelManager.handleToggle s agent false) w

/-! Pages and runs -/

/-- The view `createTimerCards` and `createChatWindows` build for an agent, given whether
`#timerGrid` and `#chatGrid` are in the page. -/
def UIManager.initialView (timerGrid chatGrid : Bool) : AgentView where
  timerCard := if timerGrid then some ["timer-card"] else none
  statusText := if timerGrid then some "Ready" else none
  chatWindow := if chatGrid then some ["chat-window"] else none
  typingIndicator := if chatGrid then some "typing-indicator" else none
  responseDiv := if chatGrid then some "Ready for your question...".toList else none

/-- The world when the script has run `new AppState()` on a document `dom` at time `now`. -/
def World.initial (dom : Dom) (now : Nat) : World where
  app := AppState.new
  dom := dom
  live := []
  timeouts := []
  nextHandle := 1
  now := now
  trace := []

/-- The calls of the timer interface, with the two ways its environment changes between
them: the mode flag and the clock. -/
inductive TimerOp
  | reset
  | clearAllTimers
  | updateTimer (agent : Agent) (status : Status)
  | setDemo (isDemo : Bool)
  | setClock (now : Nat)

/-- One call. -/
def TimerOp.apply (w : World) : TimerOp → World
  | .reset => AppState.reset w
  | .clearAllTimers => AppState.clearAllTimers w
  | .updateTimer agent status => TimerManager.updateTimer w agent status
  | .setDemo isDemo => { w with app := { w.app with isDemo := isDemo } }
  | .setClock now => { w with now := now }

/-- A sequence of calls, first to last. -/
def runOps (ops : List TimerOp) (w : World) : World :=
  ops.foldl TimerOp.apply w

/-- The live intervals of agent `a` that run the display refresh. -/
def liveRefresh (w : World) (a : Agent) : List Interval :=
  w.live.filter (fun iv => decide (iv.cb = .refresh a))

/-- The live intervals of agent `a` that run the demo token increment. -/
def liveToken (w : World) (a : Agent) : List Interval :=
  w.live.filter (fun iv => decide (iv.cb = .token a))

/-- The live intervals that reveal text for agent `a`. -/
def liveTyping (w : World) (a : Agent) : List Interval :=
  w.live.filter (fun iv =>
    match iv.cb with
    | .typing b _ _ => decide (b = a)
    | _ => false)

/-- The timer bookkeeping is consistent with the browser: handles are fresh and pairwise
distinct, and the live refresh and token intervals are exactly the recorded ones. -/
structure TimersConsistent (w : World) : Prop where
  fresh : ∀ iv ∈ w.live, iv.id < w.nextHandle
  distinct : (w.live.map Interval.id).Nodup
  refresh : ∀ a h, (⟨h, .refresh a⟩ : Interval) ∈ w.live ↔ w.app.agentTimers.get a = some h
  token : ∀ a h, (⟨h, .token a⟩ : Interval) ∈ w.live ↔ w.app.agentTokenTimers.get a = some h

/-- The part of the world the timer bookkeeping is about. -/
def World.timerPart (w : World) : List Interval × Nat × JSMap Nat × JSMap Nat :=
  (w.live, w.nextHandle, w.app.agentTimers, w.app.agentTokenTimers)

/-- A page with every card and chat window, as `UIManager.init` builds it when both
grids are in the document. -/
def fullPage : Dom :=
  fun _ => UIManager.initialView true true

/-- A first live request on the full page, sent at time 1000 and answered at time 1500
with text for `openAi` only: the state right after the answer was fanned out, in which
the reveal of that text has been started and none of it has been revealed yet. -/
def typingInFlight : World :=
  let started := RequestHandler.sendRequest (World.initial fullPage 1000)
    { sessionId := none, instructions := none, prompt := some "hi".toList }
  RequestHandler.sendRequestSettled { started.1 with now := 1500 } (started.2.getD ⟨[]⟩)
    (.responded true (some (fun a => if a = .openAi then some "ok".toList else none)))

/-- Agent `a` holds the first entry of least average in `m`: its entry has average `q`,
every entry inserted before it has a strictly greater average and every entry inserted
after it an average at least `q`. -/
def FirstFastest (m : JSMap (List JSNumber)) (a : Agent) : Prop :=
  ∃ pre ts post q, m = pre ++ (a, ts) :: post
    ∧ SessionStats.avgTime ts = some q
    ∧ (∀ e ∈ pre, ∃ q', SessionStats.avgTime e.2 = some q' ∧ q < q')
    ∧ (∀ e ∈ post, ∃ q', SessionStats.avgTime e.2 = some q' ∧ q ≤ q')

/-- Three completions in a row on a fresh session: 100 ms for `openAi`, 50 ms for
`anthropic`, 200 ms for `gemini`. -/
def threeCompletions : World :=
  SessionStats.updateStats
    (SessionStats.updateStats
      (SessionStats.updateStats (World.initial fullPage 0) .openAi (some 100))
      .anthropic (some 50))
    .gemini (some 200)

/-- The page after the user deselected every model and then pressed the demo button:
`runDemo` has set the mode flag and returned from its validation. -/
def demoWithoutModels : World :=
  RequestHandler.runDemo (ModelManager.deselectAll (World.initial fullPage 0))

/-- A complete live request with `openAi` as the only selected model: sent from the full
page at time 0 with the prompt `hi`, and answered at time 400 by an object that holds the
empty text under the key `openAi`. -/
def emptyAnswerRun : World :=
  let selected :=
    ModelManager.handleToggle (ModelManager.deselectAll (World.initial fullPage 0)) .openAi true
  let started := RequestHandler.sendRequest selected
    { sessionId := none, instructions := none, prompt := some "hi".toList }
  RequestHandler.sendRequestSettled { started.1 with now := 400 } (started.2.getD ⟨[]⟩)
    (.responded true (some (fun a => if a = .openAi then some [] else none)))

/-- A complete live request with `openAi` as the only selected model whose answer, an
object without a key for `openAi`, is handled at the clock reading at which the request
was prepared. -/
def sameInstantRun : World :=
  let selected :=
    ModelManager.handleToggle (ModelManager.deselectAll (World.initial fullPage 0)) .openAi true
  let started := RequestHandler.sendRequest selected
    { sessionId := none, instructions := none, prompt := some "hi".toList }
  RequestHandler.sendRequestSettled started.1 (started.2.getD ⟨[]⟩)
    (.responded true (some (fun _ => none)))

/-- The part of the world that starting the timers of an agent leaves alone. -/
def World.sessionPart (w : World) :
    Option JSString × Bool × List Agent × JSMap Nat × JSMap Nat × Stats × Option Nat
      × List Timeout × Nat :=
  (w.app.currentSessionId, w.app.isDemo, w.app.activeModels, w.app.agentStartTimes,
    w.app.agentTokenCounters, w.app.sessionStats, w.app.requestStartTime, w.timeouts, w.now)

/-- The JavaScript sum of a list of numbers, added up from 0. -/
def JSNumber.sum (ds : List JSNumber) : JSNumber :=
  ds.foldl JSNumber.add (some 0)

/-- Every duration stored in `agentTimes`, list after list in insertion order. -/
def Stats.allDurations (s : Stats) : List JSNumber :=
  (s.agentTimes.map Prod.snd).flatten

/-- The calls that touch the session statistics: those of the timer interface, and
`SessionStats.updateStats` with a numeric duration. -/
inductive SessionOp
  | timer (op : TimerOp)
  | updateStats (agent : Agent) (duration : Int)

/-- One call. -/
def SessionOp.apply (w : World) : SessionOp → World
  | .timer op => op.apply w
  | .updateStats agent duration => SessionStats.updateStats w agent (some duration)

/-- A sequence of calls, first to last. -/
def runSession (ops : List SessionOp) (w : World) : World :=
  ops.foldl SessionOp.apply w

/-- A demo is started at time 0 with every model selected; at time 40 the user deselects
`anthropic`; at time 50 the user sends a live request; at time 100 the staggered timeout
that the demo had scheduled for `anthropic` (handle 20) fires. -/
def staleDemoCallback : World :=
  let demo := RequestHandler.runDemo (World.initial fullPage 0)
  let toggled := ModelManager.handleToggle { demo with now := 40 } .anthropic false
  let sent := RequestHandler.sendRequest { toggled with now := 50 }
    { sessionId := none, instructions := none, prompt := some "hi".toList }
  fireTimeout { sent.1 with now := 100 } 20 (1 / 2)

/-- A live request is sent at time 0 with every model selected and answered at time 300
with text for `anthropic` only, which starts its reveal (handle 10); at time 310 the user
deselects `anthropic` and at time 320 sends a second request; the reveal of the first
answer then runs its three remaining ticks. -/
def staleReveal : World :=
  let first := RequestHandler.sendRequest (World.initial fullPage 0)
    { sessionId := none, instructions := none, prompt := some "hi".toList }
  let answered := RequestHandler.sendRequestSettled { first.1 with now := 300 }
    (first.2.getD ⟨[]⟩)
    (.responded true (some (fun a => if a = .anthropic then some "ok".toList else none)))
  let toggled := ModelManager.handleToggle { answered with now := 310 } .anthropic false
  let second := RequestHandler.sendRequest { toggled with now := 320 }
    { sessionId := none, instructions := none, prompt := some "again".toList }
  fireTimes 10 [10, 30, 30] second.1

/-! Facts about `Map` -/

theorem JSMap.get_set_self {V : Type} (m : JSMap V) (k : Agent) (v : V) :
    (m.set k v).get k = some v := by
  induction m with
  | nil => simp [JSMap.set, JSMap.get]
  | cons e rest ih =>
    obtain ⟨k', v'⟩ := e
    by_cases hk : k' = k
    · simp [JSMap.set, JSMap.get, hk]
    · simp [JSMap.set, JSMap.get, hk, ih]

theorem JSMap.get_set_ne {V : Type} (m : JSMap V) (k j : Agent) (v : V) (hne : j ≠ k) :
    (m.set k v).get j = m.get j := by
  induction m with
  | nil => simp [JSMap.set, JSMap.get, Ne.symm hne]
  | cons e rest ih =>
    obtain ⟨k', v'⟩ := e
    by_cases hk : k' = k
    · subst hk
      simp [JSMap.set, JSMap.get, Ne.symm hne]
    · by_cases hj : k' = j
      · subst hj
        simp [JSMap.set, JSMap.get, hne]
      · simp [JSMap.set, JSMap.get, hk, hj, ih]

theorem JSMap.get_delete_self {V : Type} (m : JSMap V) (k : Agent) :
    (m.delete k).get k = none := by
  induction m with
  | nil => simp [JSMap.delete, JSMap.get]
  | cons e rest ih =>
    obtain ⟨k', v'⟩ := e
    by_cases hk : k' = k
    · simpa [JSMap.delete, List.filter_cons, hk] using ih
    · simpa [JSMap.delete, List.filter_cons, hk, JSMap.get] using ih

theorem JSMap.get_delete_ne {V : Type} (m : JSMap V) (k j : Agent) (hne : j ≠ k) :
    (m.delete k).get j = m.get j := by
  induction m with
  | nil => simp [JSMap.delete, JSMap.get]
  | cons e rest ih =>
    obtain ⟨k', v'⟩ := e
    by_cases hk : k' = k
    · subst hk
      simpa [JSMap.delete, List.filter_cons, JSMap.get, Ne.symm hne] using ih
    · by_cases hj : k' = j
      · subst hj
        simp [JSMap.delete, List.filter_cons, JSMap.get, hne]
      · simpa [JSMap.delete, List.filter_cons, hk, JSMap.get, hj] using ih

theorem JSMap.mem_values_of_get {V : Type} (m : JSMap V) (k : Agent) (v : V)
    (h : m.get k = some v) : v ∈ m.values := by
  induction m with
  | nil => simp [JSMap.get] at h
  | cons e rest ih =>
    obtain ⟨k', v'⟩ := e
    by_cases hk : k' = k
    · simp [JSMap.get, hk] at h
      simp [JSMap.values, h]
    · simp [JSMap.get, hk] at h
      have := ih h
      simp [JSMap.values] at this ⊢
      exact Or.inr this

theorem JSMap.has_eq_false_iff {V : Type} (m : JSMap V) (k : Agent) :
    m.has k = false ↔ m.get k = none := by
  simp [JSMap.has]

/-! Timers: the bookkeeping invariant -/

theorem foldl_clearInterval (hs : List Nat) (w : World) :
    hs.foldl clearInterval w
      = { w with live := w.live.filter (fun iv => decide (iv.id ∉ hs)) } := by
  induction hs generalizing w with
  | nil => simp
  | cons h rest ih =>
    simp only [List.foldl_cons, ih, clearInterval, List.filter_filter]
    congr 1
    apply List.filter_congr
    intro iv _
    simp [not_or, Bool.and_comm]

theorem clearAllTimers_eq (w : World) :
    AppState.clearAllTimers w
      = { w with
          live := w.live.filter (fun iv =>
            decide (iv.id ∉ w.app.agentTimers.values ∧ iv.id ∉ w.app.agentTokenTimers.values))
          app := { w.app with agentTimers := [], agentTokenTimers := [] } } := by
  simp only [AppState.clearAllTimers, foldl_clearInterval, List.filter_filter]
  congr 1
  apply List.filter_congr
  intro iv _
  simp [Bool.and_comm]

theorem TimersConsistent.of_timerPart {w v : World} (h : TimersConsistent w)
    (e : v.timerPart = w.timerPart) : TimersConsistent v := by
  simp only [World.timerPart, Prod.mk.injEq] at e
  obtain ⟨e1, e2, e3, e4⟩ := e
  exact ⟨by rw [e1, e2]; exact h.fresh, by rw [e1]; exact h.distinct,
    by rw [e1, e3]; exact h.refresh, by rw [e1, e4]; exact h.token⟩

theorem TimersConsistent.clearAllTimers {w : World} (h : TimersConsistent w) :
    TimersConsistent (AppState.clearAllTimers w) := by
  rw [clearAllTimers_eq]
  refine ⟨?_, ?_, ?_, ?_⟩
  · intro iv hiv
    exact h.fresh iv (List.mem_of_mem_filter hiv)
  · exact h.distinct.sublist ((List.filter_sublist _).map _)
  · intro a k
    constructor
    · rintro hmem
      have hv := JSMap.mem_values_of_get _ _ _ ((h.refresh a k).1 (List.mem_filter.1 hmem).1)
      have hd := (List.mem_filter.1 hmem).2
      simp [hv] at hd
    · intro hget
      simp [JSMap.get] at hget
  · intro a k
    constructor
    · rintro hmem
      have hv := JSMap.mem_values_of_get _ _ _ ((h.token a k).1 (List.mem_filter.1 hmem).1)
      have hd := (List.mem_filter.1 hmem).2
      simp [hv] at hd
    · intro hget
      simp [JSMap.get] at hget

theorem reset_timerPart (w : World) :
    (AppState.reset w).timerPart = (AppState.clearAllTimers w).timerPart := by
  unfold AppState.reset
  generalize AppState.clearAllTimers w = c
  simp only [AppState.getActiveAgents]
  generalize c.app.activeModels = agents
  have key : ∀ (l : List Agent) (s : World),
      (l.foldl (fun (s : World) agent =>
        ({ s with app := { s.app with
            agentStartTimes := s.app.agentStartTimes.set agent s.now
            agentTokenCounters := s.app.agentTokenCounters.set agent 0 } } : World)) s).timerPart
        = s.timerPart := by
    intro l
    induction l with
    | nil => intro s; rfl
    | cons a rest ih => intro s; rw [List.foldl_cons, ih]; rfl
  rw [key]
  rfl

theorem TimersConsistent.reset {w : World} (h : TimersConsistent w) :
    TimersConsistent (AppState.reset w) :=
  h.clearAllTimers.of_timerPart (reset_timerPart w)

theorem TimersConsistent.same_of_id {w : World} (h : TimersConsistent w) {x y : Interval}
    (hx : x ∈ w.live) (hy : y ∈ w.live) (e : x.id = y.id) : x = y :=
  List.inj_on_of_nodup_map h.distinct hx hy e

theorem TimersConsistent.dropRefresh {w : World} (h : TimersConsistent w) {a : Agent} {k : Nat}
    (hk : w.app.agentTimers.get a = some k) :
    TimersConsistent
      { clearInterval w k with
        app := { (clearInterval w k).app with
          agentTimers := (clearInterval w k).app.agentTimers.delete a } } := by
  have hlive : (⟨k, .refresh a⟩ : Interval) ∈ w.live := (h.refresh a k).2 hk
  refine ⟨?_, ?_, ?_, ?_⟩
  · intro iv hiv
    exact h.fresh iv (List.mem_of_mem_filter hiv)
  · exact h.distinct.sublist ((List.filter_sublist _).map _)
  · intro b j
    simp only [clearInterval, List.mem_filter, decide_eq_true_eq]
    by_cases hb : b = a
    · subst hb
      rw [JSMap.get_delete_self]
      constructor
      · rintro ⟨hm, hne⟩
        have := (h.refresh b j).1 hm
        rw [hk] at this
        exact absurd (Option.some.inj this).symm hne
      · intro hc
        cases hc
    · rw [JSMap.get_delete_ne _ _ _ hb, ← h.refresh b j]
      constructor
      · exact fun hm => hm.1
      · intro hm
        refine ⟨hm, ?_⟩
        intro hjk
        have := h.same_of_id hm hlive hjk
        simp only [Interval.mk.injEq, Callback.refresh.injEq] at this
        exact hb this.2
  · intro b j
    simp only [clearInterval, List.mem_filter, decide_eq_true_eq]
    rw [← h.token b j]
    constructor
    · exact fun hm => hm.1
    · intro hm
      refine ⟨hm, ?_⟩
      intro hjk
      have := h.same_of_id hm hlive hjk
      simp at this

theorem TimersConsistent.dropToken {w : World} (h : TimersConsistent w) {a : Agent} {k : Nat}
    (hk : w.app.agentTokenTimers.get a = some k) :
    TimersConsistent
      { clearInterval w k with
        app := { (clearInterval w k).app with
          agentTokenTimers := (clearInterval w k).app.agentTokenTimers.delete a } } := by
  have hlive : (⟨k, .token a⟩ : Interval) ∈ w.live := (h.token a k).2 hk
  refine ⟨?_, ?_, ?_, ?_⟩
  · intro iv hiv
    exact h.fresh iv (List.mem_of_mem_filter hiv)
  · exact h.distinct.sublist ((List.filter_sublist _).map _)
  · intro b j
    simp only [clearInterval, List.mem_filter, decide_eq_true_eq]
    rw [← h.refresh b j]
    constructor
    · exact fun hm => hm.1
    · intro hm
      refine ⟨hm, ?_⟩
      intro hjk
      have := h.same_of_id hm hlive hjk
      simp at this
  · intro b j
    simp only [clearInterval, List.mem_filter, decide_eq_true_eq]
    by_cases hb : b = a
    · subst hb
      rw [JSMap.get_delete_self]
      constructor
      · rintro ⟨hm, hne⟩
        have := (h.token b j).1 hm
        rw [hk] at this
        exact absurd (Option.some.inj this).symm hne
      · intro hc
        cases hc
    · rw [JSMap.get_delete_ne _ _ _ hb, ← h.token b j]
      constructor
      · exact fun hm => hm.1
      · intro hm
        refine ⟨hm, ?_⟩
        intro hjk
        have := h.same_of_id hm hlive hjk
        simp only [Interval.mk.injEq, Callback.token.injEq] at this
        exact hb this.2

theorem TimersConsistent.stopTimers {w : World} (h : TimersConsistent w) (a : Agent) :
    TimersConsistent (TimerManager.stopTimers w a) := by
  unfold TimerManager.stopTimers
  have h1 : TimersConsistent
      (match w.app.agentTimers.get a with
        | some k =>
          let c := clearInterval w k
          ({ c with app := { c.app with agentTimers := c.app.agentTimers.delete a } } : World)
        | none => w) := by
    cases hk : w.app.agentTimers.get a with
    | none => exact h
    | some k => exact h.dropRefresh hk
  revert h1
  generalize (match w.app.agentTimers.get a with
        | some k =>
          let c := clearInterval w k
          ({ c with app := { c.app with agentTimers := c.app.agentTimers.delete a } } : World)
        | none => w) = w1
  intro h1
  dsimp only
  split
  · next k hk => exact h1.dropToken hk
  · exact h1

theorem TimersConsistent.addRefresh {w : World} (h : TimersConsistent w) {a : Agent}
    (hk : w.app.agentTimers.get a = none) :
    TimersConsistent
      { (setInterval w (.refresh a)).1 with
        app := { (setInterval w (.refresh a)).1.app with
          agentTimers := (setInterval w (.refresh a)).1.app.agentTimers.set a
            (setInterval w (.refresh a)).2 } } := by
  refine ⟨?_, ?_, ?_, ?_⟩
  · intro iv hiv
    simp only [setInterval, List.mem_append, List.mem_singleton] at hiv ⊢
    rcases hiv with hiv | rfl
    · exact Nat.lt_succ_of_lt (h.fresh iv hiv)
    · exact Nat.lt_succ_self _
  · simp only [setInterval, List.map_append, List.map_cons, List.map_nil]
    refine List.Nodup.append h.distinct (List.nodup_singleton _) ?_
    intro x hx hx2
    rw [List.mem_singleton] at hx2
    obtain ⟨iv, hiv, rfl⟩ := List.mem_map.1 hx
    exact absurd hx2 (Nat.ne_of_lt (h.fresh iv hiv))
  · intro b j
    simp only [setInterval, List.mem_append, List.mem_singleton, Interval.mk.injEq,
      Callback.refresh.injEq]
    by_cases hb : b = a
    · subst hb
      rw [JSMap.get_set_self]
      constructor
      · rintro (hm | ⟨rfl, _⟩)
        · have := (h.refresh b j).1 hm
          rw [hk] at this
          cases this
        · rfl
      · intro e
        exact Or.inr ⟨(Option.some.inj e).symm, rfl⟩
    · rw [JSMap.get_set_ne _ _ _ _ hb, ← h.refresh b j]
      constructor
      · rintro (hm | ⟨_, e⟩)
        · exact hm
        · exact absurd e hb
      · exact fun hm => Or.inl hm
  · intro b j
    simp only [setInterval, List.mem_append, List.mem_singleton, Interval.mk.injEq]
    rw [← h.token b j]
    constructor
    · rintro (hm | ⟨_, e⟩)
      · exact hm
      · cases e
    · exact fun hm => Or.inl hm

theorem TimersConsistent.addToken {w : World} (h : TimersConsistent w) {a : Agent}
    (hk : w.app.agentTokenTimers.get a = none) :
    TimersConsistent
      { (setInterval w (.token a)).1 with
        app := { (setInterval w (.token a)).1.app with
          agentTokenTimers := (setInterval w (.token a)).1.app.agentTokenTimers.set a
            (setInterval w (.token a)).2 } } := by
  refine ⟨?_, ?_, ?_, ?_⟩
  · intro iv hiv
    simp only [setInterval, List.mem_append, List.mem_singleton] at hiv ⊢
    rcases hiv with hiv | rfl
    · exact Nat.lt_succ_of_lt (h.fresh iv hiv)
    · exact Nat.lt_succ_self _
  · simp only [setInterval, List.map_append, List.map_cons, List.map_nil]
    refine List.Nodup.append h.distinct (List.nodup_singleton _) ?_
    intro x hx hx2
    rw [List.mem_singleton] at hx2
    obtain ⟨iv, hiv, rfl⟩ := List.mem_map.1 hx
    exact absurd hx2 (Nat.ne_of_lt (h.fresh iv hiv))
  · intro b j
    simp only [setInterval, List.mem_append, List.mem_singleton, Interval.mk.injEq]
    rw [← h.refresh b j]
    constructor
    · rintro (hm | ⟨_, e⟩)
      · exact hm
      · cases e
    · exact fun hm => Or.inl hm
  · intro b j
    simp only [setInterval, List.mem_append, List.mem_singleton, Interval.mk.injEq,
      Callback.token.injEq]
    by_cases hb : b = a
    · subst hb
      rw [JSMap.get_set_self]
      constructor
      · rintro (hm | ⟨rfl, _⟩)
        · have := (h.token b j).1 hm
          rw [hk] at this
          cases this
        · rfl
      · intro e
        exact Or.inr ⟨(Option.some.inj e).symm, rfl⟩
    · rw [JSMap.get_set_ne _ _ _ _ hb, ← h.token b j]
      constructor
      · rintro (hm | ⟨_, e⟩)
        · exact hm
        · exact absurd e hb
      · exact fun hm => Or.inl hm

theorem TimersConsistent.startResponding {w : World} (h : TimersConsistent w) (a : Agent) :
    TimersConsistent (TimerManager.startResponding w a) := by
  unfold TimerManager.startResponding
  have h1 : TimersConsistent
      (setStatusText w a (if w.app.isDemo then "Simulating..." else "Responding...")) :=
    h.of_timerPart rfl
  revert h1
  generalize setStatusText w a (if w.app.isDemo then "Simulating..." else "Responding...") = w1
  intro h1
  dsimp only
  have h2 : TimersConsistent
      (if (!w1.app.agentTimers.has a) = true then
        ({ (setInterval w1 (.refresh a)).1 with
          app := { (setInterval w1 (.refresh a)).1.app with
            agentTimers := (setInterval w1 (.refresh a)).1.app.agentTimers.set a
              (setInterval w1 (.refresh a)).2 } } : World)
      else w1) := by
    split
    · next hc =>
      apply h1.addRefresh
      simpa [JSMap.has] using hc
    · exact h1
  revert h2
  generalize (if (!w1.app.agentTimers.has a) = true then
        ({ (setInterval w1 (.refresh a)).1 with
          app := { (setInterval w1 (.refresh a)).1.app with
            agentTimers := (setInterval w1 (.refresh a)).1.app.agentTimers.set a
              (setInterval w1 (.refresh a)).2 } } : World)
      else w1) = w2
  intro h2
  split
  · next hc =>
    apply h2.addToken
    simp only [Bool.and_eq_true, Bool.not_eq_true', JSMap.has_eq_false_iff] at hc
    exact hc.2
  · exact h2

theorem updateStats_timerPart (w : World) (a : Agent) (t : JSNumber) :
    (SessionStats.updateStats w a t).timerPart = w.timerPart := rfl

theorem TimersConsistent.completeResponse {w : World} (h : TimersConsistent w) (a : Agent) :
    TimersConsistent (TimerManager.completeResponse w a) := by
  unfold TimerManager.completeResponse
  have h1 : TimersConsistent
      (setStatusText w a (if w.app.isDemo then "Demo Complete ✨" else "Completed ✅")) :=
    h.of_timerPart rfl
  exact (h1.stopTimers a).of_timerPart (updateStats_timerPart _ _ _)

theorem TimersConsistent.handleError {w : World} (h : TimersConsistent w) (a : Agent) :
    TimersConsistent (TimerManager.handleError w a) := by
  unfold TimerManager.handleError
  have h1 : TimersConsistent (setStatusText w a "Error ❌") := h.of_timerPart rfl
  exact h1.stopTimers a

theorem TimersConsistent.updateTimer {w : World} (h : TimersConsistent w) (a : Agent)
    (st : Status) : TimersConsistent (TimerManager.updateTimer w a st) := by
  have h0 : TimersConsistent (emit w (.updateTimer a st)) := h.of_timerPart rfl
  cases st with
  | responding => exact (h0.startResponding a).of_timerPart rfl
  | completed => exact (h0.completeResponse a).of_timerPart rfl
  | error => exact (h0.handleError a).of_timerPart rfl

theorem TimersConsistent.initial (dom : Dom) (now : Nat) :
    TimersConsistent (World.initial dom now) :=
  ⟨by simp [World.initial], by simp [World.initial],
    by simp [World.initial, AppState.new, JSMap.get],
    by simp [World.initial, AppState.new, JSMap.get]⟩

theorem TimersConsistent.apply {w : World} (h : TimersConsistent w) (op : TimerOp) :
    TimersConsistent (op.apply w) := by
  cases op with
  | reset => exact h.reset
  | clearAllTimers => exact h.clearAllTimers
  | updateTimer a st => exact h.updateTimer a st
  | setDemo b => exact h.of_timerPart rfl
  | setClock t => exact h.of_timerPart rfl

theorem TimersConsistent.runOps {w : World} (h : TimersConsistent w) (ops : List TimerOp) :
    TimersConsistent (runOps ops w) := by
  induction ops generalizing w with
  | nil => exact h
  | cons op rest ih => exact ih (h.apply op)

theorem TimersConsistent.liveRefresh_le_one {w : World} (h : TimersConsistent w) (a : Agent) :
    (liveRefresh w a).length ≤ 1 := by
  have hnd : (liveRefresh w a).Nodup :=
    (List.Nodup.of_map _ h.distinct).sublist (List.filter_sublist _)
  rw [← List.toFinset_card_of_nodup hnd]
  apply Finset.card_le_one.2
  intro x hx y hy
  simp only [liveRefresh, List.mem_toFinset, List.mem_filter, decide_eq_true_eq] at hx hy
  obtain ⟨i, cx⟩ := x
  obtain ⟨j, cy⟩ := y
  simp only at hx hy
  obtain ⟨hx1, rfl⟩ := hx
  obtain ⟨hy1, rfl⟩ := hy
  have e1 := (h.refresh a i).1 hx1
  have e2 := (h.refresh a j).1 hy1
  rw [e1] at e2
  rw [Option.some.inj e2]

theorem TimersConsistent.liveToken_le_one {w : World} (h : TimersConsistent w) (a : Agent) :
    (liveToken w a).length ≤ 1 := by
  have hnd : (liveToken w a).Nodup :=
    (List.Nodup.of_map _ h.distinct).sublist (List.filter_sublist _)
  rw [← List.toFinset_card_of_nodup hnd]
  apply Finset.card_le_one.2
  intro x hx y hy
  simp only [liveToken, List.mem_toFinset, List.mem_filter, decide_eq_true_eq] at hx hy
  obtain ⟨i, cx⟩ := x
  obtain ⟨j, cy⟩ := y
  simp only at hx hy
  obtain ⟨hx1, rfl⟩ := hx
  obtain ⟨hy1, rfl⟩ := hy
  have e1 := (h.token a i).1 hx1
  have e2 := (h.token a j).1 hy1
  rw [e1] at e2
  rw [Option.some.inj e2]

/-- C1: in every state reached from the initial state by `AppState.reset`,
`AppState.clearAllTimers` and `TimerManager.updateTimer` calls, in live or demo mode and at
any clock readings, every agent has at most one live refresh interval and at most one live
token interval, and the live ones are exactly those recorded in `agentTimers` and
`agentTokenTimers`. -/
theorem timers_unique_and_recorded (dom : Dom) (now : Nat) (ops : List TimerOp) (a : Agent) :
    (liveRefresh (runOps ops (World.initial dom now)) a).length ≤ 1
      ∧ (liveToken (runOps ops (World.initial dom now)) a).length ≤ 1
      ∧ (∀ h, (⟨h, .refresh a⟩ : Interval) ∈ (runOps ops (World.initial dom now)).live
          ↔ (runOps ops (World.initial dom now)).app.agentTimers.get a = some h)
      ∧ (∀ h, (⟨h, .token a⟩ : Interval) ∈ (runOps ops (World.initial dom now)).live
          ↔ (runOps ops (World.initial dom now)).app.agentTokenTimers.get a = some h) := by
  have inv := (TimersConsistent.initial dom now).runOps ops
  exact ⟨inv.liveRefresh_le_one a, inv.liveToken_le_one a, inv.refresh a, inv.token a⟩

/-! Reset and the reveal interval -/

/-- C2 (the code at the failing input): the reveal interval that an earlier request
started for `openAi` is live before `prepareForRequest` runs the reset and is still
live after it, and its next run writes the first character of the old text into the
response display the reset had just cleared. -/
theorem typing_interval_survives_reset :
    (⟨10, .typing .openAi "ok".toList 0⟩ : Interval) ∈ typingInFlight.live
      ∧ (⟨10, .typing .openAi "ok".toList 0⟩ : Interval)
          ∈ (RequestHandler.prepareForRequest typingInFlight).live
      ∧ ((RequestHandler.prepareForRequest typingInFlight).dom .openAi).responseDiv = some []
      ∧ ((fire (RequestHandler.prepareForRequest typingInFlight) 10 0).dom .openAi).responseDiv
          = some "o".toList := by
  decide

/-! Stopping the timers of one agent -/

theorem JSMap.delete_of_get_none {V : Type} (m : JSMap V) (k : Agent) (h : m.get k = none) :
    m.delete k = m := by
  induction m with
  | nil => rfl
  | cons e rest ih =>
    obtain ⟨k', v'⟩ := e
    by_cases hk : k' = k
    · simp [JSMap.get, hk] at h
    · simp only [JSMap.get, hk, if_false] at h
      have := ih h
      simp only [JSMap.delete] at this ⊢
      rw [List.filter_cons, this]
      simp [hk]

theorem stopTimers_agentTimers (w : World) (a : Agent) :
    (TimerManager.stopTimers w a).app.agentTimers = w.app.agentTimers.delete a := by
  unfold TimerManager.stopTimers
  cases hk : w.app.agentTimers.get a with
  | none =>
    dsimp only
    rw [JSMap.delete_of_get_none _ _ hk]
    split <;> rfl
  | some k =>
    dsimp only
    split <;> rfl

theorem stopTimers_agentTokenTimers (w : World) (a : Agent) :
    (TimerManager.stopTimers w a).app.agentTokenTimers = w.app.agentTokenTimers.delete a := by
  unfold TimerManager.stopTimers
  cases hk : w.app.agentTimers.get a with
  | none =>
    dsimp only
    split
    · rfl
    · next hn => exact (JSMap.delete_of_get_none _ _ hn).symm
  | some k =>
    dsimp only [clearInterval]
    split
    · rfl
    · next hn => exact (JSMap.delete_of_get_none _ _ hn).symm

theorem stopTimers_live (w : World) (a : Agent) :
    (TimerManager.stopTimers w a).live
      = w.live.filter (fun iv => decide (w.app.agentTimers.get a ≠ some iv.id
          ∧ w.app.agentTokenTimers.get a ≠ some iv.id)) := by
  unfold TimerManager.stopTimers
  cases hk : w.app.agentTimers.get a with
  | none =>
    dsimp only
    split
    · next j hj =>
      simp only [clearInterval, hj]
      apply List.filter_congr
      intro iv _
      simp [eq_comm]
    · next hn =>
      simp [hn]
  | some k =>
    dsimp only [clearInterval]
    split
    · next j hj =>
      simp only [List.filter_filter]
      have hj2 : w.app.agentTokenTimers.get a = some j := hj
      rw [hj2]
      apply List.filter_congr
      intro iv _
      simp [eq_comm, Bool.and_comm]
    · next hn =>
      have hn2 : w.app.agentTokenTimers.get a = none := hn
      rw [hn2]
      apply List.filter_congr
      intro iv _
      simp [eq_comm]

theorem updateTimer_terminal_agentTimers (w : World) (a : Agent) (st : Status)
    (hst : st ≠ .responding) :
    (TimerManager.updateTimer w a st).app.agentTimers = w.app.agentTimers.delete a := by
  cases st with
  | responding => exact absurd rfl hst
  | completed =>
    exact stopTimers_agentTimers
      (setStatusText (emit w (.updateTimer a .completed)) a
        (if w.app.isDemo then "Demo Complete ✨" else "Completed ✅")) a
  | error =>
    exact stopTimers_agentTimers (setStatusText (emit w (.updateTimer a .error)) a "Error ❌") a

theorem updateTimer_terminal_agentTokenTimers (w : World) (a : Agent) (st : Status)
    (hst : st ≠ .responding) :
    (TimerManager.updateTimer w a st).app.agentTokenTimers = w.app.agentTokenTimers.delete a := by
  cases st with
  | responding => exact absurd rfl hst
  | completed =>
    exact stopTimers_agentTokenTimers
      (setStatusText (emit w (.updateTimer a .completed)) a
        (if w.app.isDemo then "Demo Complete ✨" else "Completed ✅")) a
  | error =>
    exact stopTimers_agentTokenTimers
      (setStatusText (emit w (.updateTimer a .error)) a "Error ❌") a

theorem updateTimer_terminal_live (w : World) (a : Agent) (st : Status)
    (hst : st ≠ .responding) :
    (TimerManager.updateTimer w a st).live
      = w.live.filter (fun iv => decide (w.app.agentTimers.get a ≠ some iv.id
          ∧ w.app.agentTokenTimers.get a ≠ some iv.id)) := by
  cases st with
  | responding => exact absurd rfl hst
  | completed =>
    exact stopTimers_live
      (setStatusText (emit w (.updateTimer a .completed)) a
        (if w.app.isDemo then "Demo Complete ✨" else "Completed ✅")) a
  | error =>
    exact stopTimers_live (setStatusText (emit w (.updateTimer a .error)) a "Error ❌") a

/-- C3: `updateTimer(A, COMPLETED)` and `updateTimer(A, ERROR)`, in any state, leave `A`
without an entry in `agentTimers` and in `agentTokenTimers`, leave no interval live under
a handle that was recorded for `A`, and leave the entries of every other agent in both
maps as they were. -/
theorem updateTimer_terminal_stops_agent (w : World) (a : Agent) (st : Status)
    (hst : st = .completed ∨ st = .error) :
    (TimerManager.updateTimer w a st).app.agentTimers.has a = false
      ∧ (TimerManager.updateTimer w a st).app.agentTokenTimers.has a = false
      ∧ (∀ h, w.app.agentTimers.get a = some h ∨ w.app.agentTokenTimers.get a = some h →
          ∀ iv ∈ (TimerManager.updateTimer w a st).live, iv.id ≠ h)
      ∧ (∀ b, b ≠ a →
          (TimerManager.updateTimer w a st).app.agentTimers.get b = w.app.agentTimers.get b
            ∧ (TimerManager.updateTimer w a st).app.agentTokenTimers.get b
                = w.app.agentTokenTimers.get b) := by
  have hne : st ≠ .responding := by
    rcases hst with rfl | rfl <;> decide
  rw [updateTimer_terminal_agentTimers w a st hne, updateTimer_terminal_agentTokenTimers w a st hne,
    updateTimer_terminal_live w a st hne]
  refine ⟨?_, ?_, ?_, ?_⟩
  · simp [JSMap.has, JSMap.get_delete_self]
  · simp [JSMap.has, JSMap.get_delete_self]
  · intro h hrec iv hiv e
    have hd := (List.mem_filter.1 hiv).2
    simp only [decide_eq_true_eq] at hd
    rcases hrec with hr | hr
    · exact hd.1 (by rw [hr, e])
    · exact hd.2 (by rw [hr, e])
  · intro b hb
    exact ⟨JSMap.get_delete_ne _ _ _ hb, JSMap.get_delete_ne _ _ _ hb⟩

/-- C3 at a concrete state: after a request is prepared on the full page, completing
`openAi` removes its recorded refresh handle 1 and keeps the entry of `gemini`. -/
theorem updateTimer_terminal_stops_agent_witness :
    (TimerManager.updateTimer (RequestHandler.prepareForRequest (World.initial fullPage 0))
        .openAi .completed).app.agentTimers.has .openAi = false
      ∧ (TimerManager.updateTimer (RequestHandler.prepareForRequest (World.initial fullPage 0))
          .openAi .completed).app.agentTimers.get .gemini = some 3 := by
  have h := updateTimer_terminal_stops_agent
    (RequestHandler.prepareForRequest (World.initial fullPage 0)) .openAi .completed (Or.inl rfl)
  refine ⟨h.1, ?_⟩
  rw [(h.2.2.2 .gemini (by decide)).1]
  decide

/-! The reveal interval, tick by tick -/

theorem fire_typing {w : World} {h : Nat} {a : Agent} {t : JSString} {i : Nat}
    (hf : w.live.find? (fun iv => decide (iv.id = h)) = some ⟨h, .typing a t i⟩) (r : Fin 3) :
    fire w h r = TypingSimulator.typeInterval w h a t i := by
  simp only [fire, hf]

theorem typeInterval_reveal {w : World} {h : Nat} {a : Agent} {t : JSString} {i : Nat}
    (hf : w.live.find? (fun iv => decide (iv.id = h)) = some ⟨h, .typing a t i⟩)
    (hi : i < t.length) :
    (TypingSimulator.typeInterval w h a t i).live.find? (fun iv => decide (iv.id = h))
        = some ⟨h, .typing a t (i + 1)⟩
      ∧ ((TypingSimulator.typeInterval w h a t i).dom a).responseDiv
          = (w.dom a).responseDiv.map (fun content => content ++ charAt t i)
      ∧ (TypingSimulator.typeInterval w h a t i).trace = w.trace := by
  simp only [TypingSimulator.typeInterval, hi, if_true]
  refine ⟨?_, ?_, ?_⟩
  rotate_left 2
  · trivial
  · rw [List.find?_map]
    have hp : ((fun iv : Interval => decide (iv.id = h))
        ∘ fun iv : Interval => if iv.id = h then (⟨h, .typing a t (i + 1)⟩ : Interval) else iv)
        = fun iv => decide (iv.id = h) := by
      funext iv
      by_cases e : iv.id = h <;> simp [e]
    rw [hp, hf]
    simp
  · simp [Dom.put]

theorem charAt_append_take (t : JSString) (i n : Nat) :
    charAt t i ++ (t.drop (i + 1)).take n = (t.drop i).take (n + 1) := by
  induction t generalizing i with
  | nil => simp [charAt]
  | cons c cs ih =>
    cases i with
    | zero => simp [charAt]
    | succ k => simpa [charAt] using ih k

theorem fireTimes_reveal (h : Nat) (a : Agent) (t : JSString) (waits : List Nat) :
    ∀ (w : World) (i : Nat),
      w.live.find? (fun iv => decide (iv.id = h)) = some ⟨h, .typing a t i⟩ →
      i + waits.length ≤ t.length →
      (fireTimes h waits w).live.find? (fun iv => decide (iv.id = h))
          = some ⟨h, .typing a t (i + waits.length)⟩
        ∧ ((fireTimes h waits w).dom a).responseDiv
            = (w.dom a).responseDiv.map (fun content => content ++ (t.drop i).take waits.length)
        ∧ (fireTimes h waits w).trace = w.trace := by
  induction waits with
  | nil =>
    intro w i hf _
    refine ⟨by simpa [fireTimes] using hf, ?_, rfl⟩
    simp only [fireTimes, List.foldl_nil]
    cases (w.dom a).responseDiv <;> simp
  | cons dt rest ih =>
    intro w i hf hlen
    simp only [List.length_cons] at hlen
    have hi : i < t.length := by omega
    have hf0 : ({ w with now := w.now + dt } : World).live.find? (fun iv => decide (iv.id = h))
        = some ⟨h, .typing a t i⟩ := hf
    obtain ⟨s1, s2, s3⟩ := typeInterval_reveal hf0 hi
    have step : fireTimes h (dt :: rest) w
        = fireTimes h rest (TypingSimulator.typeInterval { w with now := w.now + dt } h a t i) := by
      simp only [fireTimes, List.foldl_cons, fire_typing hf0]
    obtain ⟨r1, r2, r3⟩ := ih _ (i + 1) s1 (by omega)
    rw [step]
    refine ⟨?_, ?_, ?_⟩
    · rw [r1]
      simp only [List.length_cons]
      congr 3
      omega
    · rw [r2, s2]
      cases (w.dom a).responseDiv with
      | none => rfl
      | some content =>
        simp only [Option.map_some', List.length_cons, List.append_assoc,
          charAt_append_take]
    · rw [r3, s3]

theorem stopTimers_trace (w : World) (a : Agent) :
    (TimerManager.stopTimers w a).trace = w.trace := by
  unfold TimerManager.stopTimers
  cases w.app.agentTimers.get a <;> dsimp only <;> split <;> rfl

theorem startResponding_trace (w : World) (a : Agent) :
    (TimerManager.startResponding w a).trace = w.trace := by
  unfold TimerManager.startResponding
  dsimp only
  split_ifs <;> rfl

theorem updateTimer_trace (w : World) (a : Agent) (st : Status) :
    (TimerManager.updateTimer w a st).trace = w.trace ++ [.updateTimer a st] := by
  cases st with
  | responding => exact startResponding_trace (emit w (.updateTimer a .responding)) a
  | completed =>
    exact stopTimers_trace
      (setStatusText (emit w (.updateTimer a .completed)) a
        (if w.app.isDemo then "Demo Complete ✨" else "Completed ✅")) a
  | error =>
    exact stopTimers_trace (setStatusText (emit w (.updateTimer a .error)) a "Error ❌") a

theorem simulateTyping_started (w : World) (a : Agent) (t : JSString)
    (hresp : (w.dom a).responseDiv.isSome = true)
    (hind : (w.dom a).typingIndicator.isSome = true)
    (hfresh : ∀ iv ∈ w.live, iv.id < w.nextHandle) :
    (TypingSimulator.simulateTyping w a t).live.find? (fun iv => decide (iv.id = w.nextHandle))
        = some ⟨w.nextHandle, .typing a t 0⟩
      ∧ ((TypingSimulator.simulateTyping w a t).dom a).responseDiv = some []
      ∧ (TypingSimulator.simulateTyping w a t).trace = w.trace ++ [.simulateTyping a t] := by
  have hr : ((emit w (.simulateTyping a t)).dom a).responseDiv.isNone = false := by
    cases hrd : (w.dom a).responseDiv with
    | none => rw [hrd] at hresp; cases hresp
    | some c => simp [emit, hrd]
  have hi : ((emit w (.simulateTyping a t)).dom a).typingIndicator.isNone = false := by
    cases hrd : (w.dom a).typingIndicator with
    | none => rw [hrd] at hind; cases hind
    | some c => simp [emit, hrd]
  simp only [TypingSimulator.simulateTyping, hr, hi, Bool.or_self, Bool.false_eq_true, if_false]
  refine ⟨?_, ?_, rfl⟩
  · have hnone : w.live.find? (fun iv => decide (iv.id = w.nextHandle)) = none := by
      rw [List.find?_eq_none]
      intro iv hiv
      simpa using Nat.ne_of_lt (hfresh iv hiv)
    show (w.live ++ [(⟨w.nextHandle, .typing a t 0⟩ : Interval)]).find? _ = _
    rw [List.find?_append, hnone]
    simp
  · cases hrd : (w.dom a).responseDiv with
    | none => rw [hrd] at hresp; cases hresp
    | some c => simp [setInterval, setResponseText, setTypingClass, emit, Dom.put, hrd]

/-- C4: on a page that has the response and typing elements of the agent, after `N` runs
of the interval that `simulateTyping(agent, text)` starts, `N` at most the length of the
text and whatever the waits between the runs, the response display holds exactly the
first `N` characters of the text. -/
theorem typing_shows_first_chars (w : World) (agent : Agent) (text : JSString)
    (waits : List Nat)
    (hresp : (w.dom agent).responseDiv.isSome = true)
    (hind : (w.dom agent).typingIndicator.isSome = true)
    (hfresh : ∀ iv ∈ w.live, iv.id < w.nextHandle)
    (hN : waits.length ≤ text.length) :
    ((fireTimes w.nextHandle waits (TypingSimulator.simulateTyping w agent text)).dom
        agent).responseDiv = some (text.take waits.length) := by
  obtain ⟨s1, s2, _⟩ := simulateTyping_started w agent text hresp hind hfresh
  obtain ⟨_, r2, _⟩ := fireTimes_reveal w.nextHandle agent text waits _ 0 s1 (by omega)
  rw [r2, s2]
  simp

/-- C4 at a concrete input: three runs on the text `hello` for `openAi`. -/
theorem typing_shows_first_chars_witness :
    ((fireTimes 1 [20, 35, 20]
        (TypingSimulator.simulateTyping (World.initial fullPage 0) .openAi "hello".toList)).dom
        .openAi).responseDiv = some "hel".toList :=
  typing_shows_first_chars (World.initial fullPage 0) .openAi "hello".toList [20, 35, 20]
    (by decide) (by decide) (by intro iv hiv; cases hiv) (by decide)

/-- C5 as stated fails: for the one-character text `a`, after exactly one run of the
reveal interval `updateTimer(openAi, COMPLETED)` has not run and the interval is live. -/
theorem typing_not_completed_at_length :
    Event.updateTimer .openAi .completed
        ∉ (fireTimes 1 [20]
            (TypingSimulator.simulateTyping (World.initial fullPage 0) .openAi "a".toList)).trace
      ∧ (⟨1, .typing .openAi "a".toList 1⟩ : Interval)
        ∈ (fireTimes 1 [20]
            (TypingSimulator.simulateTyping (World.initial fullPage 0) .openAi "a".toList)).live := by
  decide

/-- C5, amended: the transition happens on the run after the last character. After
exactly `length(text)` runs the only call traced since the start is `simulateTyping` itself
and the interval is live with its counter at the end of the text; after one more run
`updateTimer(agent, COMPLETED)` has run, once, the reveal interval is cleared and the
agent has no entry in `agentTimers` or `agentTokenTimers`. -/
theorem typing_completes_on_next_tick (w : World) (agent : Agent) (text : JSString)
    (waits : List Nat) (dt : Nat)
    (hresp : (w.dom agent).responseDiv.isSome = true)
    (hind : (w.dom agent).typingIndicator.isSome = true)
    (hfresh : ∀ iv ∈ w.live, iv.id < w.nextHandle)
    (hN : waits.length = text.length) :
    (fireTimes w.nextHandle waits (TypingSimulator.simulateTyping w agent text)).trace
        = w.trace ++ [.simulateTyping agent text]
      ∧ (⟨w.nextHandle, .typing agent text text.length⟩ : Interval)
          ∈ (fireTimes w.nextHandle waits (TypingSimulator.simulateTyping w agent text)).live
      ∧ (fireTimes w.nextHandle (waits ++ [dt])
            (TypingSimulator.simulateTyping w agent text)).trace
          = w.trace ++ [.simulateTyping agent text, .updateTimer agent .completed]
      ∧ (∀ iv ∈ (fireTimes w.nextHandle (waits ++ [dt])
            (TypingSimulator.simulateTyping w agent text)).live, iv.id ≠ w.nextHandle)
      ∧ (fireTimes w.nextHandle (waits ++ [dt])
            (TypingSimulator.simulateTyping w agent text)).app.agentTimers.has agent = false
      ∧ (fireTimes w.nextHandle (waits ++ [dt])
            (TypingSimulator.simulateTyping w agent text)).app.agentTokenTimers.has agent
          = false := by
  obtain ⟨s1, _, s3⟩ := simulateTyping_started w agent text hresp hind hfresh
  obtain ⟨r1, _, r3⟩ := fireTimes_reveal w.nextHandle agent text waits _ 0 s1 (by omega)
  rw [Nat.zero_add, hN] at r1
  have last : fireTimes w.nextHandle (waits ++ [dt]) (TypingSimulator.simulateTyping w agent text)
      = TimerManager.updateTimer
          (setTypingClass
            (clearInterval
              { (fireTimes w.nextHandle waits (TypingSimulator.simulateTyping w agent text)) with
                now := (fireTimes w.nextHandle waits
                  (TypingSimulator.simulateTyping w agent text)).now + dt }
              w.nextHandle)
            agent "typing-indicator")
          agent .completed := by
    have hf0 : ({ (fireTimes w.nextHandle waits (TypingSimulator.simulateTyping w agent text)) with
        now := (fireTimes w.nextHandle waits
          (TypingSimulator.simulateTyping w agent text)).now + dt } : World).live.find?
          (fun iv => decide (iv.id = w.nextHandle))
        = some ⟨w.nextHandle, .typing agent text text.length⟩ := r1
    have hstep : fireTimes w.nextHandle (waits ++ [dt])
          (TypingSimulator.simulateTyping w agent text)
        = fire { (fireTimes w.nextHandle waits (TypingSimulator.simulateTyping w agent text)) with
            now := (fireTimes w.nextHandle waits
              (TypingSimulator.simulateTyping w agent text)).now + dt } w.nextHandle 0 := by
      simp [fireTimes, List.foldl_append]
    rw [hstep, fire_typing hf0]
    simp [TypingSimulator.typeInterval]
  have hne : Status.completed ≠ Status.responding := by decide
  refine ⟨by rw [r3, s3], List.mem_of_find?_eq_some r1, ?_, ?_, ?_, ?_⟩
  · rw [last, updateTimer_trace]
    show (fireTimes w.nextHandle waits (TypingSimulator.simulateTyping w agent text)).trace
      ++ [Event.updateTimer agent .completed] = _
    rw [r3, s3]
    simp
  · rw [last, updateTimer_terminal_live _ _ _ hne]
    intro iv hiv
    have hm := List.mem_of_mem_filter hiv
    have hd := (List.mem_filter.1 (show iv ∈ (clearInterval _ w.nextHandle).live from hm)).2
    simpa using hd
  · rw [last, updateTimer_terminal_agentTimers _ _ _ hne]
    simp [JSMap.has, JSMap.get_delete_self]
  · rw [last, updateTimer_terminal_agentTokenTimers _ _ _ hne]
    simp [JSMap.has, JSMap.get_delete_self]

/-- C5, amended, at a concrete input: the text `ok` for `openAi` on the full page. -/
theorem typing_completes_on_next_tick_witness :
    (fireTimes 1 ([20, 20] ++ [20])
        (TypingSimulator.simulateTyping (World.initial fullPage 0) .openAi "ok".toList)).trace
      = [.simulateTyping .openAi "ok".toList, .updateTimer .openAi .completed] :=
  (typing_completes_on_next_tick (World.initial fullPage 0) .openAi "ok".toList [20, 20] 20
    (by decide) (by decide) (by intro iv hiv; cases hiv) (by decide)).2.2.1

/-! Session statistics: the scan for the fastest agent -/

theorem foldl_add_some (ts : List JSNumber) (hs : ∀ d ∈ ts, d.isSome = true) (acc : Int) :
    ∃ s, ts.foldl JSNumber.add (some acc) = some s := by
  induction ts generalizing acc with
  | nil => exact ⟨acc, rfl⟩
  | cons d rest ih =>
    have hd := hs d (List.mem_cons_self _ _)
    obtain ⟨x, rfl⟩ := Option.isSome_iff_exists.1 hd
    simpa [JSNumber.add] using
      ih (fun y hy => hs y (List.mem_cons_of_mem _ hy)) (acc + x)

theorem avgTime_some (ts : List JSNumber) (hne : ts ≠ [])
    (hs : ∀ d ∈ ts, d.isSome = true) : ∃ q, SessionStats.avgTime ts = some q := by
  obtain ⟨s, hsum⟩ := foldl_add_some ts hs 0
  have hlen : ts.length ≠ 0 := by
    intro h0
    exact hne (List.length_eq_zero.1 h0)
  exact ⟨(s : ℚ) / (ts.length : ℚ), by simp [SessionStats.avgTime, hsum, hlen]⟩

theorem JSMap.set_of_get_none {V : Type} (m : JSMap V) (k : Agent) (v : V)
    (h : m.get k = none) : m.set k v = m ++ [(k, v)] := by
  induction m with
  | nil => rfl
  | cons e rest ih =>
    obtain ⟨k', v'⟩ := e
    by_cases hk : k' = k
    · simp [JSMap.get, hk] at h
    · simp only [JSMap.get, hk, if_false] at h
      simp [JSMap.set, hk, ih h]

theorem JSMap.set_append_of_get_none {V : Type} (m : JSMap V) (k : Agent) (v v' : V)
    (h : m.get k = none) : (m ++ [(k, v)]).set k v' = m ++ [(k, v')] := by
  induction m with
  | nil => simp [JSMap.set]
  | cons e rest ih =>
    obtain ⟨k', x⟩ := e
    by_cases hk : k' = k
    · simp [JSMap.get, hk] at h
    · simp only [JSMap.get, hk, if_false] at h
      simp [JSMap.set, hk, ih h]

theorem JSMap.mem_of_get {V : Type} (m : JSMap V) (k : Agent) (v : V)
    (h : m.get k = some v) : (k, v) ∈ m := by
  induction m with
  | nil => simp [JSMap.get] at h
  | cons e rest ih =>
    obtain ⟨k', v'⟩ := e
    by_cases hk : k' = k
    · simp [JSMap.get, hk] at h
      simp [hk, h]
    · simp only [JSMap.get, hk, if_false] at h
      exact List.mem_cons_of_mem _ (ih h)

theorem JSMap.mem_set {V : Type} (m : JSMap V) (k : Agent) (v : V) (e : Agent × V)
    (h : e ∈ m.set k v) : e = (k, v) ∨ e ∈ m := by
  induction m with
  | nil => simpa [JSMap.set] using h
  | cons x rest ih =>
    obtain ⟨k', v'⟩ := x
    by_cases hk : k' = k
    · simp only [JSMap.set, hk, if_true, List.mem_cons] at h
      rcases h with h | h
      · exact Or.inl h
      · exact Or.inr (List.mem_cons_of_mem _ h)
    · simp only [JSMap.set, hk, if_false, List.mem_cons] at h
      rcases h with h | h
      · exact Or.inr (by simp [h])
      · rcases ih h with h' | h'
        · exact Or.inl h'
        · exact Or.inr (List.mem_cons_of_mem _ h')

theorem record_of_get_none (m : JSMap (List JSNumber)) (a : Agent) (d : JSNumber)
    (h : m.get a = none) : SessionStats.record m a d = m ++ [(a, [d])] := by
  have hhas : m.has a = false := (JSMap.has_eq_false_iff m a).2 h
  simp only [SessionStats.record, hhas, Bool.false_eq_true, if_false, JSMap.get_set_self,
    Option.getD_some, List.nil_append]
  rw [JSMap.set_of_get_none m a [] h, JSMap.set_append_of_get_none m a [] [d] h]

theorem record_of_get_some (m : JSMap (List JSNumber)) (a : Agent) (d : JSNumber)
    (ts : List JSNumber) (h : m.get a = some ts) :
    SessionStats.record m a d = m.set a (ts ++ [d]) := by
  have hhas : m.has a = true := by simp [JSMap.has, h]
  simp [SessionStats.record, hhas, h]

theorem record_numeric (m : JSMap (List JSNumber)) (a : Agent) (v : Int)
    (hnum : ∀ e ∈ m, e.2 ≠ [] ∧ ∀ d ∈ e.2, d.isSome = true) :
    (∀ e ∈ SessionStats.record m a (some v), e.2 ≠ [] ∧ ∀ d ∈ e.2, d.isSome = true)
      ∧ SessionStats.record m a (some v) ≠ [] := by
  cases hg : m.get a with
  | none =>
    rw [record_of_get_none m a _ hg]
    refine ⟨?_, by simp⟩
    intro e he
    rcases List.mem_append.1 he with he | he
    · exact hnum e he
    · rw [List.mem_singleton] at he
      subst he
      simp
  | some ts =>
    rw [record_of_get_some m a _ ts hg]
    have hts := hnum (a, ts) (JSMap.mem_of_get m a ts hg)
    constructor
    · intro e he
      rcases JSMap.mem_set m a _ e he with he | he
      · subst he
        refine ⟨by simp, ?_⟩
        intro d hd
        rcases List.mem_append.1 hd with hd | hd
        · exact hts.2 d hd
        · rw [List.mem_singleton] at hd
          subst hd
          rfl
      · exact hnum e he
    · intro hnil
      have hmem : (a, ts ++ [some v]) ∈ m.set a (ts ++ [some v]) :=
        JSMap.mem_of_get _ _ _ (JSMap.get_set_self m a _)
      rw [hnil] at hmem
      cases hmem

theorem Scan.step_fastest (s : Scan) (e : Agent × List JSNumber) (q : ℚ)
    (h : SessionStats.avgTime e.2 = some q) :
    (Scan.step s e).fastestTime = (if Scan.belowFastest q s.fastestTime then some q else s.fastestTime)
      ∧ (Scan.step s e).fastestAgent
          = (if Scan.belowFastest q s.fastestTime then some e.1 else s.fastestAgent) := by
  simp only [Scan.step, h]
  split_ifs <;> exact ⟨rfl, rfl⟩

theorem Scan.run_fastest (m : JSMap (List JSNumber))
    (hnum : ∀ e ∈ m, e.2 ≠ [] ∧ ∀ d ∈ e.2, d.isSome = true) :
    (m = [] ∧ (Scan.run m).fastestTime = none ∧ (Scan.run m).fastestAgent = none)
      ∨ ∃ pre a ts post q, m = pre ++ (a, ts) :: post
          ∧ (Scan.run m).fastestTime = some q ∧ (Scan.run m).fastestAgent = some a
          ∧ SessionStats.avgTime ts = some q
          ∧ (∀ e ∈ pre, ∃ q', SessionStats.avgTime e.2 = some q' ∧ q < q')
          ∧ (∀ e ∈ post, ∃ q', SessionStats.avgTime e.2 = some q' ∧ q ≤ q') := by
  induction m using List.reverseRecOn with
  | nil => exact Or.inl ⟨rfl, rfl, rfl⟩
  | append_singleton m e ih =>
    right
    have hm : ∀ x ∈ m, x.2 ≠ [] ∧ ∀ d ∈ x.2, d.isSome = true :=
      fun x hx => hnum x (List.mem_append_left _ hx)
    have he := hnum e (List.mem_append_right _ (List.mem_singleton_self e))
    obtain ⟨qe, hqe⟩ := avgTime_some e.2 he.1 he.2
    have hrun : Scan.run (m ++ [e]) = Scan.step (Scan.run m) e := by
      simp [Scan.run, List.foldl_append]
    obtain ⟨f1, f2⟩ := Scan.step_fastest (Scan.run m) e qe hqe
    rw [hrun, f1, f2]
    rcases ih hm with ⟨rfl, ht, _⟩ | ⟨pre, a, ts, post, q, rfl, ht, ha, hq, hpre, hpost⟩
    · refine ⟨[], e.1, e.2, [], qe, by simp, ?_, ?_, hqe, by simp, by simp⟩
      · simp [ht, Scan.belowFastest]
      · simp [ht, Scan.belowFastest]
    · by_cases hlt : qe < q
      · refine ⟨pre ++ (a, ts) :: post, e.1, e.2, [], qe, by simp, ?_, ?_, hqe, ?_, by simp⟩
        · simp [ht, Scan.belowFastest, hlt]
        · simp [ht, Scan.belowFastest, hlt]
        · intro x hx
          rcases List.mem_append.1 hx with hx | hx
          · obtain ⟨q', h1, h2⟩ := hpre x hx
            exact ⟨q', h1, lt_trans hlt h2⟩
          · rcases List.mem_cons.1 hx with hx | hx
            · subst hx
              exact ⟨q, hq, hlt⟩
            · obtain ⟨q', h1, h2⟩ := hpost x hx
              exact ⟨q', h1, lt_of_lt_of_le hlt h2⟩
      · refine ⟨pre, a, ts, post ++ [e], q, by simp, ?_, ?_, hq, hpre, ?_⟩
        · simp [ht, Scan.belowFastest, hlt]
        · simp [ht, Scan.belowFastest, hlt, ha]
        · intro x hx
          rcases List.mem_append.1 hx with hx | hx
          · exact hpost x hx
          · rw [List.mem_singleton] at hx
            subst hx
            exact ⟨qe, hqe, not_lt.1 hlt⟩

/-- C6: after `SessionStats.updateStats` with a numeric duration, on statistics whose
recorded lists are non-empty and free of `NaN`, `fastestAgent` is an agent of `agentTimes`
whose average is at most the average of every agent there, and every agent inserted
before it has a strictly greater average. -/
theorem updateStats_fastest_is_first_minimum (w : World) (agent : Agent) (v : Int)
    (hnum : ∀ e ∈ w.app.sessionStats.agentTimes, e.2 ≠ [] ∧ ∀ d ∈ e.2, d.isSome = true) :
    ∃ a, (SessionStats.updateStats w agent (some v)).app.sessionStats.fastestAgent = some a
      ∧ FirstFastest (SessionStats.updateStats w agent (some v)).app.sessionStats.agentTimes a := by
  obtain ⟨hrec, hne⟩ := record_numeric w.app.sessionStats.agentTimes agent v hnum
  rcases Scan.run_fastest _ hrec with ⟨hnil, _⟩ | ⟨pre, a, ts, post, q, hm, _, ha, hq, hpre, hpost⟩
  · exact absurd hnil hne
  · exact ⟨a, ha, pre, ts, post, q, hm, hq, hpre, hpost⟩

theorem threeCompletions_agentTimes :
    threeCompletions.app.sessionStats.agentTimes
      = [(.openAi, [some 100]), (.anthropic, [some 50]), (.gemini, [some 200])] := by
  decide

/-- C6 on the example of the specification: durations 100, 50 and 200 for three distinct
agents make the agent with 50 the fastest, and that agent is the first minimum. -/
theorem updateStats_fastest_is_first_minimum_witness :
    threeCompletions.app.sessionStats.fastestAgent = some .anthropic
      ∧ ∃ a, threeCompletions.app.sessionStats.fastestAgent = some a
          ∧ FirstFastest threeCompletions.app.sessionStats.agentTimes a := by
  constructor
  · show (Scan.run threeCompletions.app.sessionStats.agentTimes).fastestAgent = _
    rw [threeCompletions_agentTimes]
    norm_num [Scan.run, Scan.step, Scan.start, SessionStats.avgTime, JSNumber.add,
      Scan.belowFastest]
  · exact updateStats_fastest_is_first_minimum
      (SessionStats.updateStats
        (SessionStats.updateStats (World.initial fullPage 0) .openAi (some 100))
        .anthropic (some 50))
      .gemini 200 (by decide)

/-! Session statistics: the scan for the slowest agent -/

theorem sameInstantRun_agentTimes :
    sameInstantRun.app.sessionStats.agentTimes = [(.openAi, [some 0])] := by
  decide

/-- C7 (the code at the failing input): on a fresh session `updateStats(openAi, 0)`
records the duration, so that `openAi` is the only agent and its average 0 is the
greatest; the scan for the fastest agent finds it, the scan for the slowest agent, which
starts from `slowestTime = 0` and compares strictly, leaves `slowestAgent` at `null`. The
same happens in a whole request that completes at the clock reading of its reset. -/
theorem slowest_missing_for_zero_duration :
    (SessionStats.updateStats (World.initial fullPage 0) .openAi (some 0)).app.sessionStats.agentTimes
        = [(.openAi, [some 0])]
      ∧ SessionStats.avgTime [some 0] = some 0
      ∧ (SessionStats.updateStats (World.initial fullPage 0) .openAi
            (some 0)).app.sessionStats.fastestAgent = some .openAi
      ∧ (SessionStats.updateStats (World.initial fullPage 0) .openAi
            (some 0)).app.sessionStats.slowestAgent = none
      ∧ sameInstantRun.app.sessionStats.fastestAgent = some .openAi
      ∧ sameInstantRun.app.sessionStats.slowestAgent = none := by
  refine ⟨by decide, by norm_num [SessionStats.avgTime, JSNumber.add], ?_, ?_, ?_, ?_⟩
  · show (Scan.run [(.openAi, [some 0])]).fastestAgent = _
    norm_num [Scan.run, Scan.step, Scan.start, SessionStats.avgTime, JSNumber.add,
      Scan.belowFastest]
  · show (Scan.run [(.openAi, [some 0])]).slowestAgent = _
    norm_num [Scan.run, Scan.step, Scan.start, SessionStats.avgTime, JSNumber.add,
      Scan.belowFastest]
  · show (Scan.run sameInstantRun.app.sessionStats.agentTimes).fastestAgent = _
    rw [sameInstantRun_agentTimes]
    norm_num [Scan.run, Scan.step, Scan.start, SessionStats.avgTime, JSNumber.add,
      Scan.belowFastest]
  · show (Scan.run sameInstantRun.app.sessionStats.agentTimes).slowestAgent = _
    rw [sameInstantRun_agentTimes]
    norm_num [Scan.run, Scan.step, Scan.start, SessionStats.avgTime, JSNumber.add,
      Scan.belowFastest]

/-! Validation in `sendRequest` -/

/-- C8 as stated fails: with no model selected and the demo flag set (the state after
deselecting all models and pressing the demo button), `sendRequest` returns from its
validation with `isDemo` changed from true to false. -/
theorem sendRequest_validation_changes_isDemo :
    demoWithoutModels.app.activeModels = []
      ∧ demoWithoutModels.app.isDemo = true
      ∧ (RequestHandler.sendRequest demoWithoutModels
            { sessionId := none, instructions := none, prompt := some "hi".toList }).2 = none
      ∧ (RequestHandler.sendRequest demoWithoutModels
            { sessionId := none, instructions := none, prompt := some "hi".toList }).1.app
          ≠ demoWithoutModels.app := by
  decide

/-- C8, amended: when the trimmed prompt is empty or no agent is active, `sendRequest`
returns early, and the world it leaves is the one before the call with `isDemo` set to
false and one alert added to the trace (the prompt is checked first): no `fetch`, no
other field of `AppState`, no timer and no element of the page is changed. -/
theorem sendRequest_invalid_only_clears_isDemo (w : World) (form : Form)
    (h : truthy (form.prompt.map trim) = false ∨ w.app.activeModels = []) :
    RequestHandler.sendRequest w form
      = (emit { w with app := { w.app with isDemo := false } }
          (.alert (if truthy (form.prompt.map trim) then "Please select at least one AI model!"
            else "Please enter a prompt!")), none) := by
  by_cases hp : truthy (form.prompt.map trim) = true
  · have hm : w.app.activeModels = [] := by
      rcases h with h | h
      · rw [hp] at h
        cases h
      · exact h
    simp [RequestHandler.sendRequest, hp, AppState.getActiveAgents, hm]
  · simp [RequestHandler.sendRequest, hp]

/-- C8, amended, at a concrete input: a prompt of blanks on the fresh full page. -/
theorem sendRequest_invalid_only_clears_isDemo_witness :
    RequestHandler.sendRequest (World.initial fullPage 0)
        { sessionId := none, instructions := none, prompt := some "  ".toList }
      = (emit { World.initial fullPage 0 with
            app := { (World.initial fullPage 0).app with isDemo := false } }
          (.alert "Please enter a prompt!"), none) :=
  sendRequest_invalid_only_clears_isDemo (World.initial fullPage 0)
    { sessionId := none, instructions := none, prompt := some "  ".toList } (Or.inl (by decide))

/-! The two fan-outs of `sendRequest` -/

theorem stopTimers_eq (w : World) (a : Agent) :
    TimerManager.stopTimers w a
      = { w with
          live := w.live.filter (fun iv => decide (w.app.agentTimers.get a ≠ some iv.id
            ∧ w.app.agentTokenTimers.get a ≠ some iv.id))
          app := { w.app with
            agentTimers := w.app.agentTimers.delete a
            agentTokenTimers := w.app.agentTokenTimers.delete a } } := by
  have h1 := stopTimers_agentTimers w a
  have h2 := stopTimers_agentTokenTimers w a
  have h3 := stopTimers_live w a
  have h4 : (TimerManager.stopTimers w a).dom = w.dom := by
    unfold TimerManager.stopTimers
    cases w.app.agentTimers.get a <;> dsimp only <;> split <;> rfl
  have h5 : (TimerManager.stopTimers w a).timeouts = w.timeouts := by
    unfold TimerManager.stopTimers
    cases w.app.agentTimers.get a <;> dsimp only <;> split <;> rfl
  have h6 : (TimerManager.stopTimers w a).nextHandle = w.nextHandle := by
    unfold TimerManager.stopTimers
    cases w.app.agentTimers.get a <;> dsimp only <;> split <;> rfl
  have h7 : (TimerManager.stopTimers w a).now = w.now := by
    unfold TimerManager.stopTimers
    cases w.app.agentTimers.get a <;> dsimp only <;> split <;> rfl
  have h8 := stopTimers_trace w a
  have happ : (TimerManager.stopTimers w a).app
      = { w.app with
          agentTimers := w.app.agentTimers.delete a
          agentTokenTimers := w.app.agentTokenTimers.delete a } := by
    rw [← h1, ← h2]
    unfold TimerManager.stopTimers
    cases w.app.agentTimers.get a <;> dsimp only <;> split <;> rfl
  generalize TimerManager.stopTimers w a = s at *
  cases s
  simp only at h3 h4 h5 h6 h7 h8 happ
  subst h3 h4 h5 h6 h7 h8 happ
  rfl

theorem updateTimer_terminal_dom (w : World) (b : Agent) (st : Status)
    (hst : st ≠ .responding) :
    (TimerManager.updateTimer w b st).dom
      = (w.dom.put b { (w.dom b) with
          statusText := (w.dom b).statusText.map (fun _ =>
            match st with
            | .completed => if w.app.isDemo then "Demo Complete ✨" else "Completed ✅"
            | _ => "Error ❌")
          timerCard := (w.dom b).timerCard.map (fun _ =>
            ["timer-card"] ++ (if w.app.isDemo then ["demo"] else [])
              ++ [(TimerManager.statusClasses st).1])
          chatWindow := (w.dom b).chatWindow.map (fun _ =>
            ["chat-window"] ++ (if w.app.isDemo then ["demo"] else [])
              ++ [(TimerManager.statusClasses st).2]) }) := by
  cases st with
  | responding => exact absurd rfl hst
  | completed =>
    funext a
    by_cases hab : a = b
    · subst hab
      simp [TimerManager.updateTimer, TimerManager.completeResponse, stopTimers_eq,
        SessionStats.updateStats, setCardClasses, setStatusText, emit, Dom.put]
    · simp [TimerManager.updateTimer, TimerManager.completeResponse, stopTimers_eq,
        SessionStats.updateStats, setCardClasses, setStatusText, emit, Dom.put, hab]
  | error =>
    funext a
    by_cases hab : a = b
    · subst hab
      simp [TimerManager.updateTimer, TimerManager.handleError, stopTimers_eq,
        setCardClasses, setStatusText, emit, Dom.put]
    · simp [TimerManager.updateTimer, TimerManager.handleError, stopTimers_eq,
        setCardClasses, setStatusText, emit, Dom.put, hab]

theorem updateTimer_terminal_counters (w : World) (b : Agent) (st : Status)
    (hst : st ≠ .responding) :
    (TimerManager.updateTimer w b st).app.agentStartTimes = w.app.agentStartTimes
      ∧ (TimerManager.updateTimer w b st).app.agentTokenCounters = w.app.agentTokenCounters
      ∧ (TimerManager.updateTimer w b st).app.activeModels = w.app.activeModels
      ∧ (TimerManager.updateTimer w b st).app.isDemo = w.app.isDemo
      ∧ (TimerManager.updateTimer w b st).nextHandle = w.nextHandle := by
  cases st with
  | responding => exact absurd rfl hst
  | completed =>
    simp [TimerManager.updateTimer, TimerManager.completeResponse, stopTimers_eq,
      SessionStats.updateStats, setCardClasses, setStatusText, emit]
  | error =>
    simp [TimerManager.updateTimer, TimerManager.handleError, stopTimers_eq,
      setCardClasses, setStatusText, emit]

theorem updateTimer_error_stats (w : World) (b : Agent) :
    (TimerManager.updateTimer w b .error).app.sessionStats = w.app.sessionStats := by
  simp [TimerManager.updateTimer, TimerManager.handleError, stopTimers_eq,
    setCardClasses, setStatusText, emit]

theorem updateTimer_completed_agentTimes (w : World) (b : Agent) :
    (TimerManager.updateTimer w b .completed).app.sessionStats.agentTimes
      = SessionStats.record w.app.sessionStats.agentTimes b
          ((w.app.agentStartTimes.get b).map (fun start => (w.now : Int) - start)) := by
  simp [TimerManager.updateTimer, TimerManager.completeResponse, stopTimers_eq,
    SessionStats.updateStats, setCardClasses, setStatusText, emit]

theorem record_get_ne (m : JSMap (List JSNumber)) (a b : Agent) (d : JSNumber) (hab : a ≠ b) :
    (SessionStats.record m b d).get a = m.get a := by
  unfold SessionStats.record
  dsimp only
  rw [JSMap.get_set_ne _ _ _ _ hab]
  split
  · rfl
  · exact JSMap.get_set_ne _ _ _ _ hab

theorem terminal_step_dom_other (s : World) (a b : Agent) (x : JSString) (st : Status)
    (hst : st ≠ .responding) (hab : a ≠ b) :
    (TimerManager.updateTimer (setResponseText s b x) b st).dom a = s.dom a := by
  rw [updateTimer_terminal_dom _ _ _ hst]
  simp [Dom.put, setResponseText, hab]

theorem terminal_step_response (s : World) (b : Agent) (x : JSString) (st : Status)
    (hst : st ≠ .responding) :
    ((TimerManager.updateTimer (setResponseText s b x) b st).dom b).responseDiv
      = (s.dom b).responseDiv.map (fun _ => x) := by
  rw [updateTimer_terminal_dom _ _ _ hst]
  simp [Dom.put, setResponseText]

theorem terminal_step_typingIndicator (s : World) (b : Agent) (x : JSString) (st : Status)
    (hst : st ≠ .responding) :
    ((TimerManager.updateTimer (setResponseText s b x) b st).dom b).typingIndicator
      = (s.dom b).typingIndicator := by
  rw [updateTimer_terminal_dom _ _ _ hst]
  simp [Dom.put, setResponseText]

theorem error_step_status (s : World) (b : Agent) (x : JSString) :
    ((TimerManager.updateTimer (setResponseText s b x) b .error).dom b).statusText
      = (s.dom b).statusText.map (fun _ => "Error ❌") := by
  rw [updateTimer_terminal_dom _ _ _ (by decide)]
  simp [Dom.put, setResponseText]

theorem handleFailure_snoc (w : World) (l : List Agent) (b : Agent) :
    RequestHandler.handleFailure w (l ++ [b])
      = TimerManager.updateTimer
          (setResponseText (RequestHandler.handleFailure w l) b
            "CORS blocked - try demo mode or deploy to Netlify".toList) b .error := by
  simp [RequestHandler.handleFailure, List.foldl_append]

theorem handleFailure_spec (w : World) (l : List Agent) :
    (RequestHandler.handleFailure w l).trace = w.trace ++ l.map (fun a => Event.updateTimer a .error)
      ∧ ∀ a,
          ((RequestHandler.handleFailure w l).dom a).responseDiv
              = (if a ∈ l then (w.dom a).responseDiv.map
                  (fun _ => "CORS blocked - try demo mode or deploy to Netlify".toList)
                else (w.dom a).responseDiv)
            ∧ ((RequestHandler.handleFailure w l).dom a).statusText
              = (if a ∈ l then (w.dom a).statusText.map (fun _ => "Error ❌")
                else (w.dom a).statusText)
            ∧ (a ∈ l → (RequestHandler.handleFailure w l).app.agentTimers.has a = false
                ∧ (RequestHandler.handleFailure w l).app.agentTokenTimers.has a = false) := by
  induction l using List.reverseRecOn with
  | nil =>
    refine ⟨by simp [RequestHandler.handleFailure], ?_⟩
    intro a
    simp [RequestHandler.handleFailure]
  | append_singleton l b ih =>
    obtain ⟨iht, ihd⟩ := ih
    have hne : Status.error ≠ Status.responding := by decide
    rw [handleFailure_snoc]
    refine ⟨?_, ?_⟩
    · rw [updateTimer_trace]
      show (RequestHandler.handleFailure w l).trace ++ _ = _
      rw [iht]
      simp
    · intro a
      obtain ⟨ih1, ih2, ih3⟩ := ihd a
      by_cases hab : a = b
      · subst hab
        refine ⟨?_, ?_, ?_⟩
        · rw [terminal_step_response _ _ _ _ hne, ih1,
            if_pos (List.mem_append_right l (List.mem_singleton_self a))]
          by_cases hm : a ∈ l
          · rw [if_pos hm]
            cases (w.dom a).responseDiv <;> rfl
          · rw [if_neg hm]
        · rw [error_step_status, ih2,
            if_pos (List.mem_append_right l (List.mem_singleton_self a))]
          by_cases hm : a ∈ l
          · rw [if_pos hm]
            cases (w.dom a).statusText <;> rfl
          · rw [if_neg hm]
        · intro _
          rw [updateTimer_terminal_agentTimers _ _ _ hne,
            updateTimer_terminal_agentTokenTimers _ _ _ hne]
          simp [JSMap.has, JSMap.get_delete_self]
      · have hmem : a ∈ l ++ [b] ↔ a ∈ l := by simp [hab]
        refine ⟨?_, ?_, ?_⟩
        · rw [terminal_step_dom_other _ _ _ _ _ hne hab, ih1]
          simp [hab]
        · rw [terminal_step_dom_other _ _ _ _ _ hne hab, ih2]
          simp [hab]
        · intro hm
          obtain ⟨t1, t2⟩ := ih3 (hmem.1 hm)
          rw [updateTimer_terminal_agentTimers _ _ _ hne,
            updateTimer_terminal_agentTokenTimers _ _ _ hne]
          simp only [JSMap.has, JSMap.get_delete_ne _ _ _ hab]
          exact ⟨t1, t2⟩

theorem sendRequest_pending (w : World) (form : Form) (w1 : World) (p : Pending)
    (h : RequestHandler.sendRequest w form = (w1, some p)) :
    p.activeAgents = w.app.activeModels := by
  unfold RequestHandler.sendRequest at h
  dsimp only at h
  by_cases hp : (!truthy (form.prompt.map trim)) = true
  · rw [if_pos hp] at h
    have := congrArg Prod.snd h
    simp at this
  · rw [if_neg hp] at h
    by_cases ha : (AppState.getActiveAgents
        ({ w with app := { w.app with isDemo := false } } : World)).length = 0
    · rw [if_pos ha] at h
      have := congrArg Prod.snd h
      simp at this
    · rw [if_neg ha] at h
      have := congrArg Prod.snd h
      simp only [Option.some.injEq] at this
      rw [← this]
      rfl

/-- C10: when the network call of a request fails (`fetch` rejects, or answers with a
status that is not `ok`), then, whatever happened on the page while the call was pending,
the handler runs `updateTimer(agent, ERROR)` for exactly the agents that were active when
the request started, in order; for each of them the response display, if the page has
one, holds the fixed CORS message, the status line reads `Error`, and the agent has no
entry in `agentTimers` or `agentTokenTimers` when the handler is done. -/
theorem failed_request_marks_agents_error (w : World) (form : Form) (w1 : World)
    (p : Pending) (hstart : RequestHandler.sendRequest w form = (w1, some p))
    (w2 : World) (outcome : FetchOutcome)
    (hfail : outcome = .rejected ∨ ∃ body, outcome = .responded false body) :
    (RequestHandler.sendRequestSettled w2 p outcome).trace
        = w2.trace ++ w.app.activeModels.map (fun a => Event.updateTimer a .error)
      ∧ ∀ a ∈ w.app.activeModels,
          ((RequestHandler.sendRequestSettled w2 p outcome).dom a).responseDiv
              = (w2.dom a).responseDiv.map
                  (fun _ => "CORS blocked - try demo mode or deploy to Netlify".toList)
            ∧ ((RequestHandler.sendRequestSettled w2 p outcome).dom a).statusText
              = (w2.dom a).statusText.map (fun _ => "Error ❌")
            ∧ (RequestHandler.sendRequestSettled w2 p outcome).app.agentTimers.has a = false
            ∧ (RequestHandler.sendRequestSettled w2 p outcome).app.agentTokenTimers.has a
                = false := by
  have hp := sendRequest_pending w form w1 p hstart
  have hs : RequestHandler.sendRequestSettled w2 p outcome
      = RequestHandler.handleFailure w2 w.app.activeModels := by
    rw [← hp]
    rcases hfail with rfl | ⟨body, rfl⟩
    · rfl
    · rfl
  rw [hs]
  obtain ⟨ht, hd⟩ := handleFailure_spec w2 w.app.activeModels
  refine ⟨ht, ?_⟩
  intro a ha
  obtain ⟨d1, d2, d3⟩ := hd a
  exact ⟨by rw [d1, if_pos ha], by rw [d2, if_pos ha], d3 ha⟩

/-- C10 at a concrete input: a request from the fresh full page whose `fetch` rejects
300 ms later leaves `gemini` with the CORS message and without a refresh timer. -/
theorem failed_request_marks_agents_error_witness :
    ((RequestHandler.sendRequestSettled
        { (RequestHandler.sendRequest (World.initial fullPage 0)
            { sessionId := none, instructions := none, prompt := some "hi".toList }).1 with
          now := 300 }
        { activeAgents := CONFIG.AI_AGENTS } .rejected).dom .gemini).responseDiv
        = some "CORS blocked - try demo mode or deploy to Netlify".toList
      ∧ (RequestHandler.sendRequestSettled
          { (RequestHandler.sendRequest (World.initial fullPage 0)
              { sessionId := none, instructions := none, prompt := some "hi".toList }).1 with
            now := 300 }
          { activeAgents := CONFIG.AI_AGENTS } .rejected).app.agentTimers.has .gemini = false := by
  have h := (failed_request_marks_agents_error (World.initial fullPage 0)
    { sessionId := none, instructions := none, prompt := some "hi".toList }
    (RequestHandler.sendRequest (World.initial fullPage 0)
      { sessionId := none, instructions := none, prompt := some "hi".toList }).1
    { activeAgents := CONFIG.AI_AGENTS } (Prod.ext rfl (by decide))
    { (RequestHandler.sendRequest (World.initial fullPage 0)
        { sessionId := none, instructions := none, prompt := some "hi".toList }).1 with
      now := 300 }
    .rejected (Or.inl rfl)).2 .gemini (by decide)
  refine ⟨?_, h.2.2.1⟩
  rw [h.1]
  decide


theorem simulateTyping_trace (w : World) (b : Agent) (t : JSString) :
    (TypingSimulator.simulateTyping w b t).trace = w.trace ++ [.simulateTyping b t] := by
  unfold TypingSimulator.simulateTyping
  dsimp only
  split <;> rfl

theorem simulateTyping_app (w : World) (b : Agent) (t : JSString) :
    (TypingSimulator.simulateTyping w b t).app = w.app := by
  unfold TypingSimulator.simulateTyping
  dsimp only
  split <;> rfl

theorem simulateTyping_dom_other (w : World) (a b : Agent) (t : JSString) (hab : a ≠ b) :
    (TypingSimulator.simulateTyping w b t).dom a = w.dom a := by
  unfold TypingSimulator.simulateTyping
  dsimp only
  split
  · rfl
  · simp [setInterval, setResponseText, setTypingClass, emit, Dom.put, hab]

theorem simulateTyping_isSome (w : World) (a b : Agent) (t : JSString) :
    ((TypingSimulator.simulateTyping w b t).dom a).responseDiv.isSome
        = (w.dom a).responseDiv.isSome
      ∧ ((TypingSimulator.simulateTyping w b t).dom a).typingIndicator.isSome
        = (w.dom a).typingIndicator.isSome := by
  by_cases hab : a = b
  · subst hab
    unfold TypingSimulator.simulateTyping
    dsimp only
    split
    · exact ⟨rfl, rfl⟩
    · simp [setInterval, setResponseText, setTypingClass, emit, Dom.put]
  · rw [simulateTyping_dom_other w a b t hab]
    exact ⟨rfl, rfl⟩

theorem simulateTyping_live_mono (w : World) (b : Agent) (t : JSString) (iv : Interval)
    (h : iv ∈ w.live) : iv ∈ (TypingSimulator.simulateTyping w b t).live := by
  unfold TypingSimulator.simulateTyping
  dsimp only
  split
  · exact h
  · exact List.mem_append_left _ h

theorem simulateTyping_new_interval (w : World) (b : Agent) (t : JSString)
    (hresp : (w.dom b).responseDiv.isSome = true)
    (hind : (w.dom b).typingIndicator.isSome = true) :
    (⟨w.nextHandle, .typing b t 0⟩ : Interval) ∈ (TypingSimulator.simulateTyping w b t).live := by
  have hc : (((emit w (.simulateTyping b t)).dom b).responseDiv.isNone
      || ((emit w (.simulateTyping b t)).dom b).typingIndicator.isNone) = false := by
    cases hr : (w.dom b).responseDiv with
    | none => rw [hr] at hresp; cases hresp
    | some c =>
      cases hi : (w.dom b).typingIndicator with
      | none => rw [hi] at hind; cases hind
      | some d => simp [emit, hr, hi]
  unfold TypingSimulator.simulateTyping
  dsimp only
  rw [if_neg (by rw [hc]; exact Bool.false_ne_true)]
  exact List.mem_append_right _ (List.mem_singleton_self _)

theorem TimersConsistent.simulateTyping {w : World} (h : TimersConsistent w) (b : Agent)
    (t : JSString) : TimersConsistent (TypingSimulator.simulateTyping w b t) := by
  unfold TypingSimulator.simulateTyping
  dsimp only
  split
  · exact h.of_timerPart rfl
  · refine ⟨?_, ?_, ?_, ?_⟩
    · intro iv hiv
      simp only [setInterval, setResponseText, setTypingClass, emit, List.mem_append,
        List.mem_singleton] at hiv ⊢
      rcases hiv with hiv | rfl
      · exact Nat.lt_succ_of_lt (h.fresh iv hiv)
      · exact Nat.lt_succ_self _
    · simp only [setInterval, setResponseText, setTypingClass, emit, List.map_append,
        List.map_cons, List.map_nil]
      refine List.Nodup.append h.distinct (List.nodup_singleton _) ?_
      intro x hx hx2
      rw [List.mem_singleton] at hx2
      obtain ⟨iv, hiv, rfl⟩ := List.mem_map.1 hx
      exact absurd hx2 (Nat.ne_of_lt (h.fresh iv hiv))
    · intro a k
      simp only [setInterval, setResponseText, setTypingClass, emit, List.mem_append,
        List.mem_singleton, Interval.mk.injEq]
      rw [← h.refresh a k]
      constructor
      · rintro (hm | ⟨_, e⟩)
        · exact hm
        · cases e
      · exact fun hm => Or.inl hm
    · intro a k
      simp only [setInterval, setResponseText, setTypingClass, emit, List.mem_append,
        List.mem_singleton, Interval.mk.injEq]
      rw [← h.token a k]
      constructor
      · rintro (hm | ⟨_, e⟩)
        · exact hm
        · cases e
      · exact fun hm => Or.inl hm

theorem TimersConsistent.typing_survives_terminal {w : World} (h : TimersConsistent w)
    (b : Agent) (st : Status) (hst : st ≠ .responding) (k : Nat) (a : Agent) (t : JSString)
    (i : Nat) (hm : (⟨k, .typing a t i⟩ : Interval) ∈ w.live) :
    (⟨k, .typing a t i⟩ : Interval) ∈ (TimerManager.updateTimer w b st).live := by
  rw [updateTimer_terminal_live w b st hst, List.mem_filter]
  refine ⟨hm, ?_⟩
  simp only [decide_eq_true_eq]
  constructor
  · intro e
    have := h.same_of_id ((h.refresh b k).2 e) hm rfl
    simp at this
  · intro e
    have := h.same_of_id ((h.token b k).2 e) hm rfl
    simp at this

theorem TimersConsistent.processResponse {w : World} (h : TimersConsistent w)
    (result : Response) (b : Agent) :
    TimersConsistent (RequestHandler.processResponse result w b) := by
  unfold RequestHandler.processResponse
  split
  · exact h.simulateTyping b _
  · have h1 : TimersConsistent (setResponseText w b "No response from this agent".toList) :=
      h.of_timerPart rfl
    exact h1.updateTimer b .completed

theorem processResponses_snoc (w : World) (l : List Agent) (b : Agent) (result : Response) :
    RequestHandler.processResponses w (l ++ [b]) result
      = RequestHandler.processResponse result (RequestHandler.processResponses w l result) b := by
  simp [RequestHandler.processResponses, List.foldl_append]

theorem TimersConsistent.processResponses {w : World} (h : TimersConsistent w)
    (result : Response) (l : List Agent) :
    TimersConsistent (RequestHandler.processResponses w l result) := by
  induction l using List.reverseRecOn with
  | nil => exact h
  | append_singleton l b ih =>
    rw [processResponses_snoc]
    exact ih.processResponse result b

theorem processResponse_other (result : Response) (s : World) (a b : Agent) (hab : a ≠ b) :
    (RequestHandler.processResponse result s b).dom a = s.dom a
      ∧ (RequestHandler.processResponse result s b).app.agentTimers.get a
          = s.app.agentTimers.get a
      ∧ (RequestHandler.processResponse result s b).app.agentTokenTimers.get a
          = s.app.agentTokenTimers.get a
      ∧ (RequestHandler.processResponse result s b).app.agentStartTimes.get a
          = s.app.agentStartTimes.get a
      ∧ (RequestHandler.processResponse result s b).app.agentTokenCounters.get a
          = s.app.agentTokenCounters.get a
      ∧ (RequestHandler.processResponse result s b).app.sessionStats.agentTimes.get a
          = s.app.sessionStats.agentTimes.get a := by
  have hne : Status.completed ≠ Status.responding := by decide
  unfold RequestHandler.processResponse
  split
  · rw [simulateTyping_dom_other _ _ _ _ hab, simulateTyping_app]
    exact ⟨rfl, rfl, rfl, rfl, rfl, rfl⟩
  · obtain ⟨c1, c2, _⟩ := updateTimer_terminal_counters
      (setResponseText s b "No response from this agent".toList) b .completed hne
    rw [terminal_step_dom_other _ _ _ _ _ hne hab, updateTimer_terminal_agentTimers _ _ _ hne,
      updateTimer_terminal_agentTokenTimers _ _ _ hne, c1, c2,
      updateTimer_completed_agentTimes, record_get_ne _ _ _ _ hab]
    exact ⟨rfl, JSMap.get_delete_ne _ _ _ hab, JSMap.get_delete_ne _ _ _ hab, rfl, rfl, rfl⟩

theorem processResponse_isSome (result : Response) (s : World) (a b : Agent) :
    ((RequestHandler.processResponse result s b).dom a).responseDiv.isSome
        = (s.dom a).responseDiv.isSome
      ∧ ((RequestHandler.processResponse result s b).dom a).typingIndicator.isSome
        = (s.dom a).typingIndicator.isSome := by
  have hne : Status.completed ≠ Status.responding := by decide
  unfold RequestHandler.processResponse
  split
  · exact simulateTyping_isSome s a b _
  · by_cases hab : a = b
    · subst hab
      rw [terminal_step_response _ _ _ _ hne, terminal_step_typingIndicator _ _ _ _ hne]
      refine ⟨?_, rfl⟩
      cases (s.dom a).responseDiv <;> rfl
    · rw [terminal_step_dom_other _ _ _ _ _ hne hab]
      exact ⟨rfl, rfl⟩

theorem processResponses_isSome (result : Response) (w : World) (l : List Agent) (a : Agent) :
    ((RequestHandler.processResponses w l result).dom a).responseDiv.isSome
        = (w.dom a).responseDiv.isSome
      ∧ ((RequestHandler.processResponses w l result).dom a).typingIndicator.isSome
        = (w.dom a).typingIndicator.isSome := by
  induction l using List.reverseRecOn with
  | nil => exact ⟨rfl, rfl⟩
  | append_singleton l b ih =>
    rw [processResponses_snoc]
    obtain ⟨h1, h2⟩ := processResponse_isSome result (RequestHandler.processResponses w l result) a b
    rw [h1, h2]
    exact ih

theorem processResponses_trace (w : World) (l : List Agent) (result : Response) :
    (RequestHandler.processResponses w l result).trace
      = w.trace ++ l.map (fun a =>
          if truthy (result a) then Event.simulateTyping a ((result a).getD [])
          else Event.updateTimer a .completed) := by
  induction l using List.reverseRecOn with
  | nil => simp [RequestHandler.processResponses]
  | append_singleton l b ih =>
    rw [processResponses_snoc]
    unfold RequestHandler.processResponse
    split
    · next hb => rw [simulateTyping_trace, ih]; simp [hb]
    · next hb =>
      rw [updateTimer_trace]
      show (RequestHandler.processResponses w l result).trace ++ _ = _
      rw [ih]
      simp [hb]

theorem processResponses_frame (w : World) (l : List Agent) (result : Response) (a : Agent)
    (ha : a ∉ l) :
    (RequestHandler.processResponses w l result).dom a = w.dom a
      ∧ (RequestHandler.processResponses w l result).app.agentTimers.get a
          = w.app.agentTimers.get a
      ∧ (RequestHandler.processResponses w l result).app.agentTokenTimers.get a
          = w.app.agentTokenTimers.get a
      ∧ (RequestHandler.processResponses w l result).app.agentStartTimes.get a
          = w.app.agentStartTimes.get a
      ∧ (RequestHandler.processResponses w l result).app.agentTokenCounters.get a
          = w.app.agentTokenCounters.get a
      ∧ (RequestHandler.processResponses w l result).app.sessionStats.agentTimes.get a
          = w.app.sessionStats.agentTimes.get a := by
  induction l using List.reverseRecOn with
  | nil => exact ⟨rfl, rfl, rfl, rfl, rfl, rfl⟩
  | append_singleton l b ih =>
    have hl : a ∉ l := fun h => ha (List.mem_append_left _ h)
    have hab : a ≠ b := fun h => ha (by simp [h])
    obtain ⟨i1, i2, i3, i4, i5, i6⟩ := ih hl
    obtain ⟨s1, s2, s3, s4, s5, s6⟩ :=
      processResponse_other result (RequestHandler.processResponses w l result) a b hab
    rw [processResponses_snoc, s1, s2, s3, s4, s5, s6]
    exact ⟨i1, i2, i3, i4, i5, i6⟩

theorem processResponses_missing (w : World) (l : List Agent) (result : Response) (a : Agent)
    (ha : a ∈ l) (hr : truthy (result a) = false) :
    ((RequestHandler.processResponses w l result).dom a).responseDiv
        = (w.dom a).responseDiv.map (fun _ => "No response from this agent".toList)
      ∧ (RequestHandler.processResponses w l result).app.agentTimers.has a = false
      ∧ (RequestHandler.processResponses w l result).app.agentTokenTimers.has a = false := by
  have hne : Status.completed ≠ Status.responding := by decide
  induction l using List.reverseRecOn with
  | nil => cases ha
  | append_singleton l b ih =>
    rw [processResponses_snoc]
    by_cases hab : a = b
    · subst hab
      have hstep : RequestHandler.processResponse result
            (RequestHandler.processResponses w l result) a
          = TimerManager.updateTimer
              (setResponseText (RequestHandler.processResponses w l result) a
                "No response from this agent".toList) a .completed := by
        simp [RequestHandler.processResponse, hr]
      rw [hstep, terminal_step_response _ _ _ _ hne, updateTimer_terminal_agentTimers _ _ _ hne,
        updateTimer_terminal_agentTokenTimers _ _ _ hne]
      refine ⟨?_, by simp [JSMap.has, JSMap.get_delete_self],
        by simp [JSMap.has, JSMap.get_delete_self]⟩
      by_cases hl : a ∈ l
      · rw [(ih hl).1]
        cases (w.dom a).responseDiv <;> rfl
      · rw [(processResponses_frame w l result a hl).1]
    · have hl : a ∈ l := by
        rcases List.mem_append.1 ha with h | h
        · exact h
        · exact absurd (List.mem_singleton.1 h) hab
      obtain ⟨i1, i2, i3⟩ := ih hl
      obtain ⟨s1, s2, s3, _⟩ :=
        processResponse_other result (RequestHandler.processResponses w l result) a b hab
      simp only [JSMap.has] at i2 i3 ⊢
      rw [s1, s2, s3]
      exact ⟨i1, i2, i3⟩

theorem processResponses_typing (w : World) (hw : TimersConsistent w) (l : List Agent)
    (result : Response) (a : Agent) (ha : a ∈ l) (hr : truthy (result a) = true)
    (hresp : (w.dom a).responseDiv.isSome = true)
    (hind : (w.dom a).typingIndicator.isSome = true) :
    ∃ k, (⟨k, .typing a ((result a).getD []) 0⟩ : Interval)
      ∈ (RequestHandler.processResponses w l result).live := by
  have hne : Status.completed ≠ Status.responding := by decide
  induction l using List.reverseRecOn with
  | nil => cases ha
  | append_singleton l b ih =>
    rw [processResponses_snoc]
    by_cases hl : a ∈ l
    · obtain ⟨k, hk⟩ := ih hl
      refine ⟨k, ?_⟩
      unfold RequestHandler.processResponse
      split
      · exact simulateTyping_live_mono _ _ _ _ hk
      · have hc : TimersConsistent
            (setResponseText (RequestHandler.processResponses w l result) b
              "No response from this agent".toList) :=
          (hw.processResponses result l).of_timerPart rfl
        exact hc.typing_survives_terminal b .completed hne k a _ 0 hk
    · have hab : a = b := by
        rcases List.mem_append.1 ha with h | h
        · exact absurd h hl
        · exact List.mem_singleton.1 h
      subst hab
      obtain ⟨e1, e2⟩ := processResponses_isSome result w l a
      refine ⟨(RequestHandler.processResponses w l result).nextHandle, ?_⟩
      have hstep : RequestHandler.processResponse result
            (RequestHandler.processResponses w l result) a
          = TypingSimulator.simulateTyping (RequestHandler.processResponses w l result) a
              ((result a).getD []) := by
        simp [RequestHandler.processResponse, hr]
      rw [hstep]
      exact simulateTyping_new_interval _ a _ (by rw [e1]; exact hresp) (by rw [e2]; exact hind)

/-- C9 as stated fails: when the response holds the empty text under the key of the
only active agent `openAi`, the handler never calls the typing simulator for it; it shows
the placeholder and runs `updateTimer(openAi, COMPLETED)`, as for a missing key. -/
theorem empty_text_is_not_typed :
    emptyAnswerRun.trace
        = [.updateTimer .openAi .responding,
            .fetch (some "session_0".toList) none (some "hi".toList),
            .updateTimer .openAi .completed]
      ∧ (emptyAnswerRun.dom .openAi).responseDiv = some "No response from this agent".toList := by
  decide

/-- C9, amended: for a response object `result`, the handler makes exactly one call per
agent that was active at the start, in order: `simulateTyping` with exactly the text under
the agent's key when that text is present and not empty, and `updateTimer(agent,
COMPLETED)` otherwise. In the second case the response display, if the page has one, holds
`No response from this agent` and the agent has no timer entry left. For an agent that was
not active, the page elements and the entries of every per-agent map are unchanged. When
the timer bookkeeping is consistent and the page has the agent's response and typing
elements, the first case leaves a live reveal interval for that text at position 0. -/
theorem responses_fan_out (w : World) (p : Pending) (result : Response) :
    (RequestHandler.sendRequestSettled w p (.responded true (some result))).trace
        = w.trace ++ p.activeAgents.map (fun a =>
            if truthy (result a) then Event.simulateTyping a ((result a).getD [])
            else Event.updateTimer a .completed)
      ∧ (∀ a ∈ p.activeAgents, truthy (result a) = false →
          ((RequestHandler.sendRequestSettled w p (.responded true (some result))).dom
              a).responseDiv
              = (w.dom a).responseDiv.map (fun _ => "No response from this agent".toList)
            ∧ (RequestHandler.sendRequestSettled w p
                (.responded true (some result))).app.agentTimers.has a = false
            ∧ (RequestHandler.sendRequestSettled w p
                (.responded true (some result))).app.agentTokenTimers.has a = false)
      ∧ (∀ a, a ∉ p.activeAgents →
          (RequestHandler.sendRequestSettled w p (.responded true (some result))).dom a = w.dom a
            ∧ (RequestHandler.sendRequestSettled w p
                (.responded true (some result))).app.agentTimers.get a = w.app.agentTimers.get a
            ∧ (RequestHandler.sendRequestSettled w p
                (.responded true (some result))).app.agentTokenTimers.get a
                = w.app.agentTokenTimers.get a
            ∧ (RequestHandler.sendRequestSettled w p
                (.responded true (some result))).app.agentStartTimes.get a
                = w.app.agentStartTimes.get a
            ∧ (RequestHandler.sendRequestSettled w p
                (.responded true (some result))).app.agentTokenCounters.get a
                = w.app.agentTokenCounters.get a
            ∧ (RequestHandler.sendRequestSettled w p
                (.responded true (some result))).app.sessionStats.agentTimes.get a
                = w.app.sessionStats.agentTimes.get a)
      ∧ (TimersConsistent w → ∀ a ∈ p.activeAgents, truthy (result a) = true →
          (w.dom a).responseDiv.isSome = true → (w.dom a).typingIndicator.isSome = true →
          ∃ k, (⟨k, .typing a ((result a).getD []) 0⟩ : Interval)
            ∈ (RequestHandler.sendRequestSettled w p (.responded true (some result))).live) := by
  have hs : RequestHandler.sendRequestSettled w p (.responded true (some result))
      = RequestHandler.processResponses w p.activeAgents result := rfl
  rw [hs]
  exact ⟨processResponses_trace w _ result,
    fun a ha hr => processResponses_missing w _ result a ha hr,
    fun a ha => processResponses_frame w _ result a ha,
    fun hw a ha hr h1 h2 => processResponses_typing w hw _ result a ha hr h1 h2⟩

/-- C9, amended, on the scenario of the specification: the call returns the text `text`
for `openAi` only while `openAi` and `anthropic` are active. `anthropic` shows the
placeholder, and `gemini`, which is not active, keeps its display. -/
theorem responses_fan_out_witness :
    ((RequestHandler.sendRequestSettled (World.initial fullPage 0)
        { activeAgents := [.openAi, .anthropic] }
        (.responded true (some (fun a => if a = .openAi then some "text".toList else none)))).dom
        .anthropic).responseDiv = some "No response from this agent".toList
      ∧ (RequestHandler.sendRequestSettled (World.initial fullPage 0)
          { activeAgents := [.openAi, .anthropic] }
          (.responded true (some (fun a => if a = .openAi then some "text".toList else none)))).dom
          .gemini = fullPage .gemini
      ∧ ∃ k, (⟨k, .typing .openAi "text".toList 0⟩ : Interval)
          ∈ (RequestHandler.sendRequestSettled (World.initial fullPage 0)
              { activeAgents := [.openAi, .anthropic] }
              (.responded true
                (some (fun a => if a = .openAi then some "text".toList else none)))).live := by
  have h := responses_fan_out (World.initial fullPage 0) { activeAgents := [.openAi, .anthropic] }
    (fun a => if a = .openAi then some "text".toList else none)
  refine ⟨?_, (h.2.2.1 .gemini (by decide)).1, ?_⟩
  · rw [(h.2.1 .anthropic (by decide) (by decide)).1]
    decide
  · exact h.2.2.2 (TimersConsistent.initial fullPage 0) .openAi (by decide) (by decide)
      (by decide) (by decide)

/-! Aggregation on the terminal transitions -/

/-- C11: `updateTimer(agent, ERROR)`, in any state, leaves `sessionStats` as it was:
`totalRequests`, `totalResponseTime`, `agentTimes`, `fastestAgent` and `slowestAgent`. -/
theorem updateTimer_error_no_aggregation (w : World) (agent : Agent) :
    (TimerManager.updateTimer w agent .error).app.sessionStats = w.app.sessionStats
      ∧ (TimerManager.updateTimer w agent .error).app.sessionStats.totalRequests
          = w.app.sessionStats.totalRequests
      ∧ (TimerManager.updateTimer w agent .error).app.sessionStats.totalResponseTime
          = w.app.sessionStats.totalResponseTime
      ∧ (TimerManager.updateTimer w agent .error).app.sessionStats.agentTimes
          = w.app.sessionStats.agentTimes
      ∧ (TimerManager.updateTimer w agent .error).app.sessionStats.fastestAgent
          = w.app.sessionStats.fastestAgent
      ∧ (TimerManager.updateTimer w agent .error).app.sessionStats.slowestAgent
          = w.app.sessionStats.slowestAgent := by
  have h := updateTimer_error_stats w agent
  refine ⟨h, ?_, ?_, ?_, ?_, ?_⟩ <;> rw [h]

theorem record_get_self (m : JSMap (List JSNumber)) (a : Agent) (d : JSNumber) :
    (SessionStats.record m a d).get a = some ((m.get a).getD [] ++ [d]) := by
  cases hg : m.get a with
  | none => 
    rw [record_of_get_none m a d hg]
    have : (m ++ [(a, [d])]) = m.set a [d] := (JSMap.set_of_get_none m a [d] hg).symm
    rw [this, JSMap.get_set_self]
    rfl
  | some ts =>
    rw [record_of_get_some m a d ts hg, JSMap.get_set_self]
    rfl

theorem updateTimer_completed_total (w : World) (b : Agent) :
    (TimerManager.updateTimer w b .completed).app.sessionStats.totalResponseTime
      = JSNumber.add w.app.sessionStats.totalResponseTime
          ((w.app.agentStartTimes.get b).map (fun start => (w.now : Int) - start)) := by
  simp [TimerManager.updateTimer, TimerManager.completeResponse, stopTimers_eq,
    SessionStats.updateStats, setCardClasses, setStatusText, emit]

/-- C12: when the agent has the start time `start`, `updateTimer(agent, COMPLETED)` at
clock reading `now` reports `now - start` once: the list of the agent in `agentTimes` is
its earlier list, or the empty list if it had none, followed by that one value;
`totalResponseTime` is the earlier total plus that value; and the list of every other
agent is the one it had. -/
theorem updateTimer_completed_reports_elapsed (w : World) (agent : Agent) (start : Nat)
    (hstart : w.app.agentStartTimes.get agent = some start) :
    (TimerManager.updateTimer w agent .completed).app.sessionStats.agentTimes.get agent
        = some ((w.app.sessionStats.agentTimes.get agent).getD []
            ++ [some ((w.now : Int) - start)])
      ∧ (TimerManager.updateTimer w agent .completed).app.sessionStats.totalResponseTime
          = JSNumber.add w.app.sessionStats.totalResponseTime (some ((w.now : Int) - start))
      ∧ (∀ total : Int, w.app.sessionStats.totalResponseTime = some total →
          (TimerManager.updateTimer w agent .completed).app.sessionStats.totalResponseTime
            = some (total + ((w.now : Int) - start)))
      ∧ (∀ other, other ≠ agent →
          (TimerManager.updateTimer w agent .completed).app.sessionStats.agentTimes.get other
            = w.app.sessionStats.agentTimes.get other) := by
  rw [updateTimer_completed_agentTimes, updateTimer_completed_total, hstart]
  refine ⟨record_get_self _ _ _, rfl, ?_, ?_⟩
  · intro total ht
    rw [ht]
    rfl
  · intro other ho
    exact record_get_ne _ _ _ _ ho

/-- C12 at a concrete input: on the full page a request is prepared at time 0 and `gemini`
completes at time 250, first completion of the session. -/
theorem updateTimer_completed_reports_elapsed_witness :
    (TimerManager.updateTimer
        { (RequestHandler.prepareForRequest (World.initial fullPage 0)) with now := 250 }
        .gemini .completed).app.sessionStats.agentTimes.get .gemini = some [some 250]
      ∧ (TimerManager.updateTimer
          { (RequestHandler.prepareForRequest (World.initial fullPage 0)) with now := 250 }
          .gemini .completed).app.sessionStats.totalResponseTime = some 250 := by
  have h := updateTimer_completed_reports_elapsed
    { (RequestHandler.prepareForRequest (World.initial fullPage 0)) with now := 250 }
    .gemini 0 (by decide)
  exact ⟨h.1, h.2.2.1 0 (by decide)⟩

/-! The reset -/

theorem reset_fold_eq (agents : List Agent) (s : World) :
    agents.foldl
        (fun (s : World) agent =>
          ({ s with app := { s.app with
              agentStartTimes := s.app.agentStartTimes.set agent s.now
              agentTokenCounters := s.app.agentTokenCounters.set agent 0 } } : World)) s
      = { s with app := { s.app with
          agentStartTimes := agents.foldl (fun m a => m.set a s.now) s.app.agentStartTimes
          agentTokenCounters :=
            agents.foldl (fun m a => m.set a 0) s.app.agentTokenCounters } } := by
  induction agents generalizing s with
  | nil => rfl
  | cons a rest ih => rw [List.foldl_cons, ih]; rfl

theorem reset_eq (w : World) :
    AppState.reset w
      = { AppState.clearAllTimers w with
          app := { w.app with
            agentTimers := []
            agentTokenTimers := []
            agentStartTimes := w.app.activeModels.foldl (fun m a => m.set a w.now) []
            agentTokenCounters := w.app.activeModels.foldl (fun m a => m.set a 0) [] } } := by
  unfold AppState.reset
  dsimp only
  rw [reset_fold_eq, clearAllTimers_eq]
  rfl

theorem foldl_set_get {V : Type} (agents : List Agent) (v : V) (m : JSMap V) (a : Agent) :
    (agents.foldl (fun m b => m.set b v) m).get a
      = if a ∈ agents then some v else m.get a := by
  induction agents generalizing m with
  | nil => simp
  | cons b rest ih =>
    rw [List.foldl_cons, ih]
    by_cases hr : a ∈ rest
    · simp [hr]
    · by_cases hab : a = b
      · subst hab
        simp [hr, JSMap.get_set_self]
      · simp [hr, hab, JSMap.get_set_ne _ _ _ _ hab]

/-- C15: right after `AppState.reset`, in any state, `agentStartTimes` and
`agentTokenCounters` have an entry for an agent exactly when the agent is active; the
start time of an active agent is the clock reading of the reset and its token counter is
0; `agentTimers` and `agentTokenTimers` are empty; `activeModels` and `sessionStats` are
unchanged. -/
theorem reset_reinitialises_active_agents (w : World) :
    (∀ a, (AppState.reset w).app.agentStartTimes.get a
        = if a ∈ w.app.activeModels then some w.now else none)
      ∧ (∀ a, (AppState.reset w).app.agentTokenCounters.get a
        = if a ∈ w.app.activeModels then some 0 else none)
      ∧ (∀ a, (AppState.reset w).app.agentStartTimes.has a = true ↔ a ∈ w.app.activeModels)
      ∧ (∀ a, (AppState.reset w).app.agentTokenCounters.has a = true ↔ a ∈ w.app.activeModels)
      ∧ (AppState.reset w).app.agentTimers = []
      ∧ (AppState.reset w).app.agentTokenTimers = []
      ∧ (AppState.reset w).app.activeModels = w.app.activeModels
      ∧ (AppState.reset w).app.sessionStats = w.app.sessionStats := by
  rw [reset_eq]
  refine ⟨?_, ?_, ?_, ?_, rfl, rfl, rfl, rfl⟩
  · intro a
    simpa [JSMap.get] using foldl_set_get w.app.activeModels w.now [] a
  · intro a
    simpa [JSMap.get] using foldl_set_get w.app.activeModels 0 [] a
  · intro a
    have h := foldl_set_get w.app.activeModels w.now [] a
    simp only [JSMap.has]
    rw [h]
    by_cases hm : a ∈ w.app.activeModels <;> simp [hm, JSMap.get]
  · intro a
    have h := foldl_set_get w.app.activeModels 0 [] a
    simp only [JSMap.has]
    rw [h]
    by_cases hm : a ∈ w.app.activeModels <;> simp [hm, JSMap.get]

/-! Preparing a request -/

theorem startResponding_sessionPart (w : World) (a : Agent) :
    (TimerManager.startResponding w a).sessionPart = w.sessionPart := by
  unfold TimerManager.startResponding
  dsimp only
  split_ifs <;> rfl

theorem updateTimer_responding_sessionPart (w : World) (a : Agent) :
    (TimerManager.updateTimer w a .responding).sessionPart = w.sessionPart :=
  startResponding_sessionPart (emit w (.updateTimer a .responding)) a

theorem foldl_responding (agents : List Agent) (s : World) :
    (agents.foldl (fun s agent => TimerManager.updateTimer s agent .responding) s).sessionPart
        = s.sessionPart
      ∧ (agents.foldl (fun s agent => TimerManager.updateTimer s agent .responding) s).trace
        = s.trace ++ agents.map (fun a => Event.updateTimer a .responding) := by
  induction agents generalizing s with
  | nil => simp
  | cons a rest ih =>
    obtain ⟨h1, h2⟩ := ih (TimerManager.updateTimer s a .responding)
    rw [List.foldl_cons, h1, h2, updateTimer_responding_sessionPart, updateTimer_trace]
    simp

theorem resetInterface_frame (w : World) :
    (UIManager.resetInterface w).app = w.app
      ∧ (UIManager.resetInterface w).trace = w.trace
      ∧ (UIManager.resetInterface w).timeouts = w.timeouts
      ∧ (UIManager.resetInterface w).now = w.now
      ∧ (UIManager.resetInterface w).live = w.live
      ∧ (UIManager.resetInterface w).nextHandle = w.nextHandle := by
  unfold UIManager.resetInterface
  generalize AppState.getActiveAgents w = agents
  induction agents generalizing w with
  | nil => exact ⟨rfl, rfl, rfl, rfl, rfl, rfl⟩
  | cons a rest ih =>
    rw [List.foldl_cons]
    exact ih _

theorem prepareForRequest_frame (w : World) :
    (RequestHandler.prepareForRequest w).trace
        = w.trace ++ w.app.activeModels.map (fun a => Event.updateTimer a .responding)
      ∧ (RequestHandler.prepareForRequest w).app.currentSessionId = w.app.currentSessionId
      ∧ (RequestHandler.prepareForRequest w).app.isDemo = w.app.isDemo
      ∧ (RequestHandler.prepareForRequest w).app.activeModels = w.app.activeModels
      ∧ (RequestHandler.prepareForRequest w).app.sessionStats = w.app.sessionStats
      ∧ (RequestHandler.prepareForRequest w).timeouts = w.timeouts
      ∧ (RequestHandler.prepareForRequest w).now = w.now := by
  obtain ⟨r1, r2, r3, r4, _, _⟩ := resetInterface_frame (AppState.reset w)
  have hreset := reset_eq w
  have hclear := clearAllTimers_eq w
  unfold RequestHandler.prepareForRequest
  dsimp only
  obtain ⟨f1, f2⟩ := foldl_responding
    (AppState.getActiveAgents
      ({ UIManager.resetInterface (AppState.reset w) with
          app := { (UIManager.resetInterface (AppState.reset w)).app with
            requestStartTime := some (UIManager.resetInterface (AppState.reset w)).now } } : World))
    ({ UIManager.resetInterface (AppState.reset w) with
        app := { (UIManager.resetInterface (AppState.reset w)).app with
          requestStartTime := some (UIManager.resetInterface (AppState.reset w)).now } } : World)
  simp only [World.sessionPart, Prod.mk.injEq] at f1
  obtain ⟨g1, g2, g3, _, _, g6, _, g8, g9⟩ := f1
  have hact : AppState.getActiveAgents
      ({ UIManager.resetInterface (AppState.reset w) with
          app := { (UIManager.resetInterface (AppState.reset w)).app with
            requestStartTime := some (UIManager.resetInterface (AppState.reset w)).now } } : World)
      = w.app.activeModels := by
    show (UIManager.resetInterface (AppState.reset w)).app.activeModels = _
    rw [r1, hreset]
  refine ⟨?_, ?_, ?_, ?_, ?_, ?_, ?_⟩
  · rw [f2, hact]
    show (UIManager.resetInterface (AppState.reset w)).trace ++ _ = _
    rw [r2, hreset, hclear]
  · rw [g1]
    show (UIManager.resetInterface (AppState.reset w)).app.currentSessionId = _
    rw [r1, hreset]
  · rw [g2]
    show (UIManager.resetInterface (AppState.reset w)).app.isDemo = _
    rw [r1, hreset]
  · rw [g3]
    show (UIManager.resetInterface (AppState.reset w)).app.activeModels = _
    rw [r1, hreset]
  · rw [g6]
    show (UIManager.resetInterface (AppState.reset w)).app.sessionStats = _
    rw [r1, hreset]
  · rw [g8]
    show (UIManager.resetInterface (AppState.reset w)).timeouts = _
    rw [r3, hreset, hclear]
  · rw [g9]
    show (UIManager.resetInterface (AppState.reset w)).now = _
    rw [r4, hreset, hclear]

theorem truthy_iff (v : Option JSString) :
    truthy v = true ↔ ∃ s, v = some s ∧ s ≠ [] := by
  cases v with
  | none => simp [truthy]
  | some s => cases s <;> simp [truthy]

theorem keepTruthy_ne_empty (v : Option JSString) : keepTruthy v ≠ some [] := by
  unfold keepTruthy
  split
  · next h =>
    obtain ⟨s, rfl, hs⟩ := (truthy_iff v).1 h
    simpa using hs
  · simp

/-- C14: for a request that passes the validation (trimmed prompt not empty, at least one
active agent), the calls `sendRequest` makes up to its `await` are the `updateTimer(agent,
RESPONDING)` of the preparation and then one `fetch`, whose payload, an object with at
most the keys `sessionId`, `instructions` and `prompt`, holds the trimmed prompt, holds
the session id (the trimmed input, or the generated one), holds `instructions` exactly when
the trimmed instructions are not empty, and holds no empty value. -/
theorem sendRequest_payload (w : World) (form : Form)
    (hprompt : truthy (form.prompt.map trim) = true) (hactive : w.app.activeModels ≠ []) :
    ∃ session instructions prompt,
      (RequestHandler.sendRequest w form).1.trace
          = w.trace ++ w.app.activeModels.map (fun a => Event.updateTimer a .responding)
            ++ [Event.fetch session instructions prompt]
        ∧ prompt = form.prompt.map trim
        ∧ (∃ p, prompt = some p ∧ p ≠ [])
        ∧ session = some (if truthy (form.sessionId.map trim) then (form.sessionId.map trim).getD []
            else "session_".toList ++ Nat.toDigits 10 w.now)
        ∧ (instructions.isSome = true ↔ truthy (form.instructions.map trim) = true)
        ∧ (∀ i, instructions = some i → form.instructions.map trim = some i)
        ∧ session ≠ some [] ∧ instructions ≠ some [] ∧ prompt ≠ some [] := by
  have hlen : ¬ (AppState.getActiveAgents
      ({ w with app := { w.app with isDemo := false } } : World)).length = 0 := by
    intro h0
    exact hactive (List.length_eq_zero.1 h0)
  obtain ⟨p, hp, hpne⟩ := (truthy_iff _).1 hprompt
  obtain ⟨f1, f2, _⟩ := prepareForRequest_frame
    ({ w with app := { w.app with
        isDemo := false
        currentSessionId := some (if truthy (form.sessionId.map trim)
          then (form.sessionId.map trim).getD []
          else "session_".toList ++ Nat.toDigits 10 w.now)
        sessionStats := { w.app.sessionStats with
          totalRequests := w.app.sessionStats.totalRequests + 1 } } } : World)
  refine ⟨keepTruthy (some (if truthy (form.sessionId.map trim)
      then (form.sessionId.map trim).getD []
      else "session_".toList ++ Nat.toDigits 10 w.now)),
    keepTruthy (form.instructions.map trim), keepTruthy (form.prompt.map trim),
    ?_, ?_, ?_, ?_, ?_, ?_, keepTruthy_ne_empty _, keepTruthy_ne_empty _, keepTruthy_ne_empty _⟩
  · unfold RequestHandler.sendRequest
    dsimp only
    rw [if_neg (by simp [hprompt]), if_neg hlen]
    show (RequestHandler.prepareForRequest _).trace ++ [_] = _
    rw [f1]
    congr 2
    show Event.fetch (keepTruthy (RequestHandler.prepareForRequest _).app.currentSessionId) _ _ = _
    rw [f2]
  · unfold keepTruthy
    rw [if_pos hprompt]
  · refine ⟨p, ?_, hpne⟩
    unfold keepTruthy
    rw [if_pos hprompt, hp]
  · have hs : truthy (some (if truthy (form.sessionId.map trim)
        then (form.sessionId.map trim).getD []
        else "session_".toList ++ Nat.toDigits 10 w.now)) = true := by
      by_cases hsid : truthy (form.sessionId.map trim) = true
      · obtain ⟨s, hs1, hs2⟩ := (truthy_iff _).1 hsid
        rw [if_pos hsid, hs1]
        exact (truthy_iff _).2 ⟨s, rfl, hs2⟩
      · rw [if_neg hsid]
        exact (truthy_iff _).2 ⟨_, rfl, by simp⟩
    unfold keepTruthy
    rw [if_pos hs]
  · by_cases hi : truthy (form.instructions.map trim) = true
    · obtain ⟨s, hs1, _⟩ := (truthy_iff _).1 hi
      simp [keepTruthy, hi, hs1]
    · simp [keepTruthy, hi]
  · intro i hi
    unfold keepTruthy at hi
    split at hi
    · exact hi
    · cases hi

/-- C14 at a concrete input: session id left blank, instructions of blanks, the prompt
`hi` with a trailing blank, sent from the fresh full page at time 7; the payload is the
generated session id and the trimmed prompt, without instructions. -/
theorem sendRequest_payload_witness :
    (RequestHandler.sendRequest (World.initial fullPage 7)
        { sessionId := some [], instructions := some "  ".toList,
          prompt := some "hi ".toList }).1.trace.getLast?
      = some (.fetch (some "session_7".toList) none (some "hi".toList)) := by
  obtain ⟨s, i, p, h1, h2, _, h4, h5, _⟩ := sendRequest_payload (World.initial fullPage 7)
    { sessionId := some [], instructions := some "  ".toList, prompt := some "hi ".toList }
    (by decide) (by decide)
  rw [h1, List.getLast?_append, h2, h4]
  have hi : i = none := by
    cases i with
    | none => rfl
    | some x =>
      have := h5.1 rfl
      exact absurd this (by decide)
  rw [hi]
  decide

/-! Session statistics: the running total -/

theorem JSNumber.add_right_comm (z x y : JSNumber) :
    JSNumber.add (JSNumber.add z x) y = JSNumber.add (JSNumber.add z y) x := by
  cases z <;> cases x <;> cases y <;> simp [JSNumber.add]
  omega

theorem JSNumber.sum_perm {l₁ l₂ : List JSNumber} (p : l₁.Perm l₂) :
    JSNumber.sum l₁ = JSNumber.sum l₂ :=
  p.foldl_eq' (fun x _ y _ z => JSNumber.add_right_comm z x y) (some 0)

theorem JSNumber.sum_concat (l : List JSNumber) (d : JSNumber) :
    JSNumber.sum (l ++ [d]) = JSNumber.add (JSNumber.sum l) d := by
  simp [JSNumber.sum, List.foldl_append]

theorem foldl_add_numeric (ds : List JSNumber) (hs : ∀ d ∈ ds, d.isSome = true) (acc : Int) :
    ds.foldl JSNumber.add (some acc) = some (acc + (ds.map (fun d => d.getD 0)).sum) := by
  induction ds generalizing acc with
  | nil => simp
  | cons d rest ih =>
    have hd := hs d (List.mem_cons_self _ _)
    obtain ⟨x, rfl⟩ := Option.isSome_iff_exists.1 hd
    rw [List.foldl_cons]
    show List.foldl JSNumber.add (some (acc + x)) rest = _
    rw [ih (fun y hy => hs y (List.mem_cons_of_mem _ hy))]
    simp [add_assoc]

theorem durations_set_perm (m : JSMap (List JSNumber)) (a : Agent) (ts : List JSNumber)
    (d : JSNumber) (h : m.get a = some ts) :
    (((m.set a (ts ++ [d])).map Prod.snd).flatten).Perm ((m.map Prod.snd).flatten ++ [d]) := by
  induction m with
  | nil => simp [JSMap.get] at h
  | cons e rest ih =>
    obtain ⟨k, v⟩ := e
    by_cases hk : k = a
    · simp only [JSMap.get, hk, if_true, Option.some.injEq] at h
      subst h
      simp only [JSMap.set, hk, if_true, List.map_cons, List.flatten_cons, List.append_assoc]
      exact List.Perm.append_left _ List.perm_append_comm
    · simp only [JSMap.get, hk, if_false] at h
      simp only [JSMap.set, hk, if_false, List.map_cons, List.flatten_cons, List.append_assoc]
      exact List.Perm.append_left _ (ih h)

theorem sum_record (m : JSMap (List JSNumber)) (a : Agent) (d : JSNumber) :
    JSNumber.sum (((SessionStats.record m a d).map Prod.snd).flatten)
      = JSNumber.add (JSNumber.sum ((m.map Prod.snd).flatten)) d := by
  cases hg : m.get a with
  | none =>
    rw [record_of_get_none m a d hg, ← JSNumber.sum_concat]
    simp
  | some ts =>
    rw [record_of_get_some m a d ts hg, ← JSNumber.sum_concat]
    exact JSNumber.sum_perm (durations_set_perm m a ts d hg)

theorem updateStats_total (w : World) (a : Agent) (d : JSNumber)
    (h : w.app.sessionStats.totalResponseTime = JSNumber.sum w.app.sessionStats.allDurations) :
    (SessionStats.updateStats w a d).app.sessionStats.totalResponseTime
      = JSNumber.sum (SessionStats.updateStats w a d).app.sessionStats.allDurations := by
  show JSNumber.add w.app.sessionStats.totalResponseTime d
    = JSNumber.sum (((SessionStats.record w.app.sessionStats.agentTimes a d).map Prod.snd).flatten)
  rw [sum_record, h]
  rfl

theorem updateTimer_stats_cases (w : World) (a : Agent) (st : Status) :
    (TimerManager.updateTimer w a st).app.sessionStats = w.app.sessionStats
      ∨ ∃ d, (TimerManager.updateTimer w a st).app.sessionStats
          = (SessionStats.updateStats w a d).app.sessionStats := by
  cases st with
  | responding =>
    left
    have h := updateTimer_responding_sessionPart w a
    simp only [World.sessionPart, Prod.mk.injEq] at h
    exact h.2.2.2.2.2.1
  | error => exact Or.inl (updateTimer_error_stats w a)
  | completed =>
    right
    refine ⟨(w.app.agentStartTimes.get a).map (fun start => (w.now : Int) - start), ?_⟩
    simp [TimerManager.updateTimer, TimerManager.completeResponse, stopTimers_eq,
      SessionStats.updateStats, setCardClasses, setStatusText, emit]

theorem sessionOp_stats_cases (w : World) (op : SessionOp) :
    (op.apply w).app.sessionStats = w.app.sessionStats
      ∨ ∃ a d, (op.apply w).app.sessionStats = (SessionStats.updateStats w a d).app.sessionStats := by
  cases op with
  | updateStats a v => exact Or.inr ⟨a, some v, rfl⟩
  | timer t =>
    cases t with
    | reset => left; show (AppState.reset w).app.sessionStats = _; rw [reset_eq]
    | clearAllTimers =>
      left; show (AppState.clearAllTimers w).app.sessionStats = _; rw [clearAllTimers_eq]
    | setDemo b => exact Or.inl rfl
    | setClock t => exact Or.inl rfl
    | updateTimer a st =>
      rcases updateTimer_stats_cases w a st with h | ⟨d, h⟩
      · exact Or.inl h
      · exact Or.inr ⟨a, d, h⟩

theorem sessionOp_total (w : World) (op : SessionOp)
    (h : w.app.sessionStats.totalResponseTime = JSNumber.sum w.app.sessionStats.allDurations) :
    (op.apply w).app.sessionStats.totalResponseTime
      = JSNumber.sum (op.apply w).app.sessionStats.allDurations := by
  rcases sessionOp_stats_cases w op with e | ⟨a, d, e⟩
  · rw [e]; exact h
  · rw [e]; exact updateStats_total w a d h

theorem runSession_total (ops : List SessionOp) (w : World)
    (h : w.app.sessionStats.totalResponseTime = JSNumber.sum w.app.sessionStats.allDurations) :
    (runSession ops w).app.sessionStats.totalResponseTime
      = JSNumber.sum (runSession ops w).app.sessionStats.allDurations := by
  induction ops generalizing w with
  | nil => exact h
  | cons op rest ih => exact ih _ (sessionOp_total w op h)

theorem sessionOp_keeps_durations (w : World) (op : SessionOp) (a : Agent)
    (ts : List JSNumber) (h : w.app.sessionStats.agentTimes.get a = some ts) :
    ∃ extra, (op.apply w).app.sessionStats.agentTimes.get a = some (ts ++ extra) := by
  rcases sessionOp_stats_cases w op with e | ⟨b, d, e⟩
  · exact ⟨[], by rw [e, h, List.append_nil]⟩
  · rw [e]
    show ∃ extra, (SessionStats.record w.app.sessionStats.agentTimes b d).get a = _
    by_cases hab : a = b
    · subst hab
      exact ⟨[d], by rw [record_get_self, h]; rfl⟩
    · exact ⟨[], by rw [record_get_ne _ _ _ _ hab, h, List.append_nil]⟩

/-- C17: in every state reached from the initial state by calls of `reset`,
`clearAllTimers`, `updateTimer` and `updateStats` with numeric durations (in either mode,
at any clock readings), `totalResponseTime` is the sum of all durations stored in the lists
of `agentTimes`; when those durations are all numbers it is the number that is their sum
(otherwise the sum, and the total, are `NaN`); and the next call, whichever it is, leaves
every recorded list as it was or appends to it. -/
theorem total_is_sum_of_recorded_durations (dom : Dom) (now : Nat) (ops : List SessionOp) :
    (runSession ops (World.initial dom now)).app.sessionStats.totalResponseTime
        = JSNumber.sum (runSession ops (World.initial dom now)).app.sessionStats.allDurations
      ∧ ((∀ d ∈ (runSession ops (World.initial dom now)).app.sessionStats.allDurations,
            d.isSome = true) →
          (runSession ops (World.initial dom now)).app.sessionStats.totalResponseTime
            = some (((runSession ops (World.initial dom now)).app.sessionStats.allDurations.map
                (fun d => d.getD 0)).sum))
      ∧ ∀ (op : SessionOp) (a : Agent) (ts : List JSNumber),
          (runSession ops (World.initial dom now)).app.sessionStats.agentTimes.get a = some ts →
          ∃ extra, (op.apply (runSession ops (World.initial dom now))).app.sessionStats.agentTimes.get
            a = some (ts ++ extra) := by
  have inv := runSession_total ops (World.initial dom now) rfl
  refine ⟨inv, ?_, fun op a ts h => sessionOp_keeps_durations _ op a ts h⟩
  intro hnum
  rw [inv, JSNumber.sum, foldl_add_numeric _ hnum 0, Int.zero_add]

/-- C17 at a concrete run: a reset at time 0, `openAi` completes at time 120, then
`updateStats(gemini, 30)`: the total is 150. -/
theorem total_is_sum_of_recorded_durations_witness :
    (runSession [.timer .reset, .timer (.setClock 120),
        .timer (.updateTimer .openAi .completed), .updateStats .gemini 30]
      (World.initial fullPage 0)).app.sessionStats.totalResponseTime = some 150 := by
  have h := (total_is_sum_of_recorded_durations fullPage 0
    [.timer .reset, .timer (.setClock 120), .timer (.updateTimer .openAi .completed),
      .updateStats .gemini 30]).2.1 (by decide)
  rw [h]
  decide

/-! Doubles: rounding -/

theorem roundHalfEven_le (y : ℚ) (n : ℤ) (h : y ≤ n) : roundHalfEven y ≤ n := by
  have hf : ⌊y⌋ ≤ n := by
    have := Int.floor_le y
    exact_mod_cast le_trans this h
  unfold roundHalfEven
  have key : ¬ (y - ⌊y⌋ < 1 / 2) → ⌊y⌋ + 1 ≤ n := by
    intro hfr
    have hlt : (⌊y⌋ : ℚ) < n := by
      have : (⌊y⌋ : ℚ) < y := by linarith
      exact lt_of_lt_of_le this h
    have : ⌊y⌋ < n := by exact_mod_cast hlt
    omega
  split_ifs with h1 h2 h3
  · exact hf
  · exact key h1
  · exact hf
  · exact key h1

theorem le_roundHalfEven (y : ℚ) (n : ℤ) (h : (n : ℚ) ≤ y) : n ≤ roundHalfEven y := by
  have hf : n ≤ ⌊y⌋ := Int.le_floor.2 h
  unfold roundHalfEven
  split_ifs <;> omega

theorem roundHalfEven_intCast (n : ℤ) : roundHalfEven (n : ℚ) = n :=
  le_antisymm (roundHalfEven_le _ n le_rfl) (le_roundHalfEven _ n le_rfl)

theorem sub_half_le_roundHalfEven (y : ℚ) : y - 1 / 2 ≤ (roundHalfEven y : ℚ) := by
  have h1 := Int.floor_le y
  have h2 := Int.lt_floor_add_one y
  unfold roundHalfEven
  split_ifs with a b c
  · linarith
  · push_cast; linarith
  · linarith
  · push_cast; linarith

theorem roundHalfEven_eq_of_near (y : ℚ) (n : ℤ) (h1 : (n : ℚ) ≤ y) (h2 : y < n + 1 / 2) :
    roundHalfEven y = n := by
  have hf : ⌊y⌋ = n := by
    rw [Int.floor_eq_iff]
    exact ⟨h1, by linarith⟩
  unfold roundHalfEven
  rw [hf, if_pos (by linarith)]

/-! Doubles: the exponent -/

theorem two_zpow_pos (z : ℤ) : (0 : ℚ) < (2 : ℚ) ^ z :=
  zpow_pos (by norm_num) z

theorem exponent_le (x : ℚ) (hx : x < (2 : ℚ) ^ (53 : ℤ)) : Double.exponent x ≤ 52 := by
  unfold Double.exponent
  apply max_le _ (by norm_num)
  by_cases h0 : 0 < x
  · have := (Int.lt_zpow_iff_log_lt (b := 2) (by norm_num) h0 (x := 53)).1 (by exact_mod_cast hx)
    omega
  · rw [Int.log_of_right_le_zero 2 (not_lt.1 h0)]
    norm_num

theorem exponent_of_one_le (x : ℚ) (hx : 1 ≤ x) : Double.exponent x = Int.log 2 x := by
  unfold Double.exponent
  apply max_eq_left
  have h : (0 : ℤ) ≤ Int.log 2 x :=
    (Int.zpow_le_iff_le_log (b := 2) (by norm_num) (lt_of_lt_of_le one_pos hx) (x := 0)).1
      (by simpa using hx)
  omega

/-- The scale `2 ^ (52 - e)` of a number below `2 ^ 53` is a positive natural number. -/
theorem scale_natural (x : ℚ) (hx : x < (2 : ℚ) ^ (53 : ℤ)) :
    ∃ N : ℕ, 0 < N ∧ (2 : ℚ) ^ (52 - Double.exponent x) = (N : ℚ) := by
  have he := exponent_le x hx
  obtain ⟨n, hn⟩ := Int.eq_ofNat_of_zero_le (show 0 ≤ 52 - Double.exponent x by omega)
  refine ⟨2 ^ n, by positivity, ?_⟩
  rw [hn, zpow_natCast]
  push_cast
  rfl

theorem round_eq_div (x : ℚ) :
    Double.round x
      = (roundHalfEven (x * (2 : ℚ) ^ (52 - Double.exponent x)) : ℚ)
          / (2 : ℚ) ^ (52 - Double.exponent x) := by
  unfold Double.round
  rw [div_eq_mul_inv, ← zpow_neg]
  congr 2
  ring

theorem round_le_natCast (x : ℚ) (K : ℕ) (hK : (K : ℚ) < (2 : ℚ) ^ (53 : ℤ)) (h : x ≤ K) :
    Double.round x ≤ K := by
  obtain ⟨N, hN, hT⟩ := scale_natural x (lt_of_le_of_lt h hK)
  rw [round_eq_div, hT, div_le_iff₀ (by exact_mod_cast hN)]
  have : roundHalfEven (x * (N : ℚ)) ≤ ((K * N : ℕ) : ℤ) := by
    apply roundHalfEven_le
    push_cast
    exact mul_le_mul_of_nonneg_right h (by positivity)
  have h2 : ((roundHalfEven (x * (N : ℚ)) : ℤ) : ℚ) ≤ (((K * N : ℕ) : ℤ) : ℚ) := by
    exact_mod_cast this
  simpa using h2

theorem natCast_le_round (x : ℚ) (K : ℕ) (hx : x < (2 : ℚ) ^ (53 : ℤ)) (h : (K : ℚ) ≤ x) :
    (K : ℚ) ≤ Double.round x := by
  obtain ⟨N, hN, hT⟩ := scale_natural x hx
  rw [round_eq_div, hT, le_div_iff₀ (by exact_mod_cast hN)]
  have : ((K * N : ℕ) : ℤ) ≤ roundHalfEven (x * (N : ℚ)) := by
    apply le_roundHalfEven
    push_cast
    exact mul_le_mul_of_nonneg_right h (by positivity)
  have h2 : (((K * N : ℕ) : ℤ) : ℚ) ≤ ((roundHalfEven (x * (N : ℚ)) : ℤ) : ℚ) := by
    exact_mod_cast this
  simpa using h2

theorem round_natCast (K : ℕ) (hK : (K : ℚ) < (2 : ℚ) ^ (53 : ℤ)) :
    Double.round (K : ℚ) = K :=
  le_antisymm (round_le_natCast _ K hK le_rfl) (natCast_le_round _ K hK le_rfl)

theorem log_eq_of_bounds (x : ℚ) (e : ℤ) (hlo : (2 : ℚ) ^ e ≤ x) (hhi : x < (2 : ℚ) ^ (e + 1)) :
    Int.log 2 x = e := by
  have hx : 0 < x := lt_of_lt_of_le (two_zpow_pos e) hlo
  have h1 : e ≤ Int.log 2 x :=
    (Int.zpow_le_iff_le_log (b := 2) (by norm_num) hx).1 (by exact_mod_cast hlo)
  have h2 : Int.log 2 x < e + 1 :=
    (Int.lt_zpow_iff_log_lt (b := 2) (by norm_num) hx).1 (by exact_mod_cast hhi)
  omega

theorem round_eval (x : ℚ) (e n : ℤ) (hlo : (2 : ℚ) ^ e ≤ x) (hhi : x < (2 : ℚ) ^ (e + 1))
    (he : -1022 ≤ e) (hr : roundHalfEven (x * (2 : ℚ) ^ (52 - e)) = n) :
    Double.round x = (n : ℚ) * (2 : ℚ) ^ (e - 52) := by
  have hexp : Double.exponent x = e := by
    unfold Double.exponent
    rw [log_eq_of_bounds x e hlo hhi]
    exact max_eq_left he
  unfold Double.round
  rw [hexp, hr]

theorem roundHalfEven_tie_odd (y : ℚ) (n : ℤ) (hy : y = n + 1 / 2) (hn : n % 2 = 1) :
    roundHalfEven y = n + 1 := by
  have hf : ⌊y⌋ = n := by
    rw [Int.floor_eq_iff]
    constructor <;> rw [hy] <;> linarith
  unfold roundHalfEven
  rw [hf, if_neg (by rw [hy]; norm_num), if_neg (by rw [hy]; norm_num), if_neg (by omega)]

theorem roundHalfEven_eq_of_below (y : ℚ) (n : ℤ) (h1 : (n : ℚ) - 1 / 2 < y) (h2 : y < n) :
    roundHalfEven y = n := by
  have hf : ⌊y⌋ = n - 1 := by
    rw [Int.floor_eq_iff]
    push_cast
    constructor <;> linarith
  unfold roundHalfEven
  rw [hf, if_neg (by push_cast; linarith), if_pos (by push_cast; linarith)]
  ring

/-! The delays of the demo -/

theorem responseDelay_bounds (rnd : ℚ) (h0 : 0 ≤ rnd) (h1 : rnd < 1) (i : ℕ) (hi : i ≤ 8) :
    (1000 : ℚ) + 200 * i ≤ RequestHandler.responseDelay rnd i
      ∧ RequestHandler.responseDelay rnd i ≤ 4000 + 200 * i := by
  have hiq : (i : ℚ) ≤ 8 := by exact_mod_cast hi
  have hiq0 : (0 : ℚ) ≤ i := by positivity
  have big : (2 : ℚ) ^ (53 : ℤ) = 9007199254740992 := by norm_num
  have ha : Double.sub CONFIG.DEMO_DELAYS.MAX CONFIG.DEMO_DELAYS.MIN = 3000 := by
    have := round_natCast 3000 (by rw [big]; norm_num)
    unfold Double.sub CONFIG.DEMO_DELAYS.MAX CONFIG.DEMO_DELAYS.MIN
    norm_num at this ⊢
    exact this
  have hm1 : Double.mul rnd 3000 ≤ 3000 := by
    have := round_le_natCast (rnd * 3000) 3000 (by rw [big]; norm_num)
      (by push_cast; nlinarith)
    simpa [Double.mul] using this
  have hm0 : 0 ≤ Double.mul rnd 3000 := by
    have := natCast_le_round (rnd * 3000) 0 (by rw [big]; nlinarith) (by push_cast; nlinarith)
    simpa [Double.mul] using this
  have hs1 : Double.add 1000 (Double.mul rnd 3000) ≤ 4000 := by
    have := round_le_natCast (1000 + Double.mul rnd 3000) 4000 (by rw [big]; norm_num)
      (by push_cast; linarith)
    simpa [Double.add] using this
  have hs0 : 1000 ≤ Double.add 1000 (Double.mul rnd 3000) := by
    have := natCast_le_round (1000 + Double.mul rnd 3000) 1000 (by rw [big]; linarith)
      (by push_cast; linarith)
    simpa [Double.add] using this
  have ht : Double.mul (i : ℚ) CONFIG.DEMO_DELAYS.STAGGER = 200 * i := by
    have := round_natCast (i * 200) (by rw [big]; push_cast; linarith)
    unfold Double.mul CONFIG.DEMO_DELAYS.STAGGER
    push_cast at this
    rw [this]
    ring
  unfold RequestHandler.responseDelay
  rw [ha, ht]
  show (1000 : ℚ) + 200 * i ≤ Double.add (Double.add 1000 (Double.mul rnd 3000)) (200 * i)
    ∧ Double.add (Double.add 1000 (Double.mul rnd 3000)) (200 * i) ≤ 4000 + 200 * i
  constructor
  · have := natCast_le_round (Double.add 1000 (Double.mul rnd 3000) + 200 * i) (1000 + 200 * i)
      (by rw [big]; linarith) (by push_cast; linarith)
    simpa [Double.add] using this
  · have := round_le_natCast (Double.add 1000 (Double.mul rnd 3000) + 200 * i) (4000 + 200 * i)
      (by rw [big]; push_cast; linarith) (by push_cast; linarith)
    simpa [Double.add] using this

theorem responseDelay_extreme_draw :
    RequestHandler.responseDelay (1 - 1 / 2 ^ 52) 1 = 4200 := by
  have big : (2 : ℚ) ^ (53 : ℤ) = 9007199254740992 := by norm_num
  have ha : Double.sub CONFIG.DEMO_DELAYS.MAX CONFIG.DEMO_DELAYS.MIN = 3000 := by
    have := round_natCast 3000 (by rw [big]; norm_num)
    unfold Double.sub CONFIG.DEMO_DELAYS.MAX CONFIG.DEMO_DELAYS.MIN
    norm_num at this ⊢
    exact this
  have ht : Double.mul ((1 : ℕ) : ℚ) CONFIG.DEMO_DELAYS.STAGGER = 200 := by
    have := round_natCast 200 (by rw [big]; norm_num)
    unfold Double.mul CONFIG.DEMO_DELAYS.STAGGER
    norm_num at this ⊢
    exact this
  have hm : Double.mul (1 - 1 / 2 ^ 52) 3000 = 6597069766655999 / 2199023255552 := by
    unfold Double.mul
    rw [round_eval ((1 - 1 / 2 ^ 52) * 3000) 11 6597069766655999 (by norm_num) (by norm_num)
      (by norm_num)
      (roundHalfEven_eq_of_below _ _ (by norm_num) (by norm_num))]
    norm_num
  have hs : Double.add 1000 (6597069766655999 / 2199023255552)
      = 8796093022207999 / 2199023255552 := by
    unfold Double.add
    rw [round_eval (1000 + 6597069766655999 / 2199023255552) 11 8796093022207999
      (by norm_num) (by norm_num) (by norm_num)
      (roundHalfEven_eq_of_near _ _ (by norm_num) (by norm_num))]
    norm_num
  have hd : Double.add (8796093022207999 / 2199023255552) 200 = 4200 := by
    unfold Double.add
    rw [round_eval (8796093022207999 / 2199023255552 + 200) 12 4617948836659200
      (by norm_num) (by norm_num) (by norm_num)
      (by
        have := roundHalfEven_tie_odd
          ((8796093022207999 / 2199023255552 + 200) * (2 : ℚ) ^ ((52 : ℤ) - 12))
          4617948836659199 (by norm_num) (by norm_num)
        rw [this]
        norm_num)]
    norm_num
  unfold RequestHandler.responseDelay
  rw [ha, ht]
  show Double.add (Double.add 1000 (Double.mul (1 - 1 / 2 ^ 52) 3000)) 200 = 4200
  rw [hm, hs, hd]


theorem foldl_setTimeout {α : Type} (l : List α) (f : α → TimeoutAction) (g : α → ℚ)
    (s : World) :
    (l.foldl (fun s e => setTimeout s (f e) (g e)) s).timeouts.map
        (fun t => (t.delay, t.action))
      = s.timeouts.map (fun t => (t.delay, t.action)) ++ l.map (fun e => (g e, f e)) := by
  induction l generalizing s with
  | nil => simp
  | cons e rest ih =>
    rw [List.foldl_cons, ih]
    simp [setTimeout]

theorem setTimeout_timeouts (s : World) (a : TimeoutAction) (d : ℚ) :
    (setTimeout s a d).timeouts = s.timeouts ++ [⟨s.nextHandle, d, a⟩] := rfl

theorem runDemo_schedule (w : World) (hactive : w.app.activeModels ≠ []) :
    (RequestHandler.runDemo w).timeouts.map (fun t => (t.delay, t.action))
      = w.timeouts.map (fun t => (t.delay, t.action))
        ++ w.app.activeModels.enum.map
            (fun e => (Double.mul (e.1 : ℚ) 100, TimeoutAction.demoRespond e.2 e.1))
        ++ [(8000, .demoEnd)] := by
  have hlen : ¬ (AppState.getActiveAgents
      ({ w with app := { w.app with isDemo := true } } : World)).length = 0 := by
    intro h0
    exact hactive (List.length_eq_zero.1 h0)
  unfold RequestHandler.runDemo
  dsimp only
  rw [if_neg hlen, setTimeout_timeouts, List.map_append, foldl_setTimeout,
    (prepareForRequest_frame _).2.2.2.2.2.1]
  rfl

theorem fireTimeout_demoRespond (s : World) (h : Nat) (dl : ℚ) (a : Agent) (i : Nat) (rnd : ℚ)
    (hf : s.timeouts.find? (fun t => decide (t.id = h)) = some ⟨h, dl, .demoRespond a i⟩) :
    ∃ k, (fireTimeout s h rnd).timeouts
        = s.timeouts.filter (fun u => decide (u.id ≠ h))
          ++ [⟨k, RequestHandler.responseDelay rnd i, .demoType a⟩]
      ∧ (fireTimeout s h rnd).trace = s.trace ++ [.updateTimer a .responding] := by
  have hs := updateTimer_responding_sessionPart
    ({ s with timeouts := s.timeouts.filter (fun u => decide (u.id ≠ h)) } : World) a
  simp only [World.sessionPart, Prod.mk.injEq] at hs
  refine ⟨(TimerManager.updateTimer
    ({ s with timeouts := s.timeouts.filter (fun u => decide (u.id ≠ h)) } : World)
    a .responding).nextHandle, ?_, ?_⟩
  · simp only [fireTimeout, hf, setTimeout]
    rw [hs.2.2.2.2.2.2.2.1]
  · simp only [fireTimeout, hf, setTimeout]
    rw [updateTimer_trace]

theorem double_index_delay (i : ℕ) (hi : i ≤ 8) : Double.mul (i : ℚ) 100 = 100 * i := by
  have big : (2 : ℚ) ^ (53 : ℤ) = 9007199254740992 := by norm_num
  have hiq : (i : ℚ) ≤ 8 := by exact_mod_cast hi
  have := round_natCast (i * 100) (by rw [big]; push_cast; linarith)
  unfold Double.mul
  push_cast at this
  rw [this]
  ring

/-- C16 as stated fails: for the draw `1 - 2 ^ -52`, a double in `[0, 1)` that is a multiple
of `2 ^ -52`, and the agent at index 1, the further delay the source computes is
`4000 + 200 * 1` itself, not a smaller number: `3000 * (1 - 2 ^ -52)` rounds to
`3000 - 2 ^ -41`, and `4200 - 2 ^ -41` lies halfway between two doubles and rounds to the
even one, 4200. In the demo on the full page the
callback of `anthropic` (index 1, handle 20) then schedules the typing with delay 4200. -/
theorem demo_delay_reaches_upper_bound :
    (0 : ℚ) ≤ 1 - 1 / 2 ^ 52 ∧ (1 : ℚ) - 1 / 2 ^ 52 < 1
      ∧ RequestHandler.responseDelay (1 - 1 / 2 ^ 52) 1 = 4000 + 200 * 1
      ∧ ∃ k, (⟨k, 4200, .demoType .anthropic⟩ : Timeout)
          ∈ (fireTimeout (RequestHandler.runDemo (World.initial fullPage 0)) 20
              (1 - 1 / 2 ^ 52)).timeouts := by
  refine ⟨by norm_num, by norm_num, by rw [responseDelay_extreme_draw]; norm_num, ?_⟩
  obtain ⟨k, hk, _⟩ := fireTimeout_demoRespond (RequestHandler.runDemo (World.initial fullPage 0))
    20 (Double.mul ((1 : ℕ) : ℚ) 100) .anthropic 1 (1 - 1 / 2 ^ 52) rfl
  refine ⟨k, ?_⟩
  rw [hk, responseDelay_extreme_draw]
  exact List.mem_append_right _ (List.mem_singleton_self _)

/-- C16, amended: `runDemo` with at least one active agent adds, to the pending timeouts,
one for each active agent, with delay `100 * i` for the agent at index `i` (at most nine
agents), and last the one that clears the demo flag, with the fixed delay 8000. When the
timeout of the agent at index `i <= 8` fires, in whatever state, with a draw `rnd` in
`[0, 1)`, the callback runs `updateTimer(agent, RESPONDING)` and schedules the typing after
the further delay `d` the source computes in doubles, and `1000 + 200 * i <= d <= 4000 +
200 * i`, so that `100 * i + d < 8000`. -/
theorem demo_delay_envelope (w : World) (hactive : w.app.activeModels ≠ [])
    (hnine : w.app.activeModels.length ≤ 9) :
    (RequestHandler.runDemo w).timeouts.map (fun t => (t.delay, t.action))
        = w.timeouts.map (fun t => (t.delay, t.action))
          ++ w.app.activeModels.enum.map
              (fun e => ((100 : ℚ) * e.1, TimeoutAction.demoRespond e.2 e.1))
          ++ [(8000, .demoEnd)]
      ∧ ∀ (s : World) (h : Nat) (dl : ℚ) (a : Agent) (i : Nat) (rnd : ℚ),
          s.timeouts.find? (fun t => decide (t.id = h)) = some ⟨h, dl, .demoRespond a i⟩ →
          0 ≤ rnd → rnd < 1 → i ≤ 8 →
          (∃ k, (fireTimeout s h rnd).timeouts
              = s.timeouts.filter (fun u => decide (u.id ≠ h))
                ++ [⟨k, RequestHandler.responseDelay rnd i, .demoType a⟩])
            ∧ (fireTimeout s h rnd).trace = s.trace ++ [.updateTimer a .responding]
            ∧ (1000 : ℚ) + 200 * i ≤ RequestHandler.responseDelay rnd i
            ∧ RequestHandler.responseDelay rnd i ≤ 4000 + 200 * i
            ∧ (100 : ℚ) * i + RequestHandler.responseDelay rnd i < 8000 := by
  constructor
  · rw [runDemo_schedule w hactive]
    congr 2
    apply List.map_congr_left
    intro e he
    have hi : e.1 < w.app.activeModels.length := by
      obtain ⟨i, a⟩ := e
      exact (List.mem_enum he).1
    rw [double_index_delay e.1 (by omega)]
  · intro s h dl a i rnd hf h0 h1 hi
    obtain ⟨k, hk, ht⟩ := fireTimeout_demoRespond s h dl a i rnd hf
    obtain ⟨b1, b2⟩ := responseDelay_bounds rnd h0 h1 i hi
    have hiq : (i : ℚ) ≤ 8 := by exact_mod_cast hi
    exact ⟨⟨k, hk⟩, ht, b1, b2, by linarith⟩

/-- C16, amended, at a concrete input: the demo on the fresh full page; the timeout of
`anthropic` (index 1, handle 20) fires with the draw 1/2. -/
theorem demo_delay_envelope_witness :
    (100 : ℚ) * (1 : ℕ) + RequestHandler.responseDelay (1 / 2) 1 < 8000 :=
  ((demo_delay_envelope (World.initial fullPage 0) (by decide) (by decide)).2
    (RequestHandler.runDemo (World.initial fullPage 0)) 20 (Double.mul ((1 : ℕ) : ℚ) 100)
    .anthropic 1 (1 / 2) rfl (by norm_num) (by norm_num) (by norm_num)).2.2.2.2


theorem round_thirteen_tenths :
    Double.round (13 / 10) = 5854679515581645 / 4503599627370496 := by
  rw [round_eval (13 / 10) 0 5854679515581645 (by norm_num) (by norm_num) (by norm_num)
    (roundHalfEven_eq_of_below _ _ (by norm_num) (by norm_num))]
  norm_num

theorem scale_spec (x : ℚ) (hx1 : 1 ≤ x) (hx : x < (2 : ℚ) ^ (53 : ℤ)) :
    ∃ N : ℕ, 0 < N ∧ (2 : ℚ) ^ (52 - Double.exponent x) = (N : ℚ)
      ∧ (4503599627370496 : ℚ) ≤ x * N ∧ x * N < 9007199254740992 := by
  obtain ⟨N, hN, hNe⟩ := scale_natural x hx
  refine ⟨N, hN, hNe, ?_, ?_⟩
  · rw [← hNe, exponent_of_one_le x hx1]
    have hlo : (2 : ℚ) ^ (Int.log 2 x) ≤ x := Int.zpow_log_le_self (by norm_num) (by linarith)
    have hP := two_zpow_pos (52 - Int.log 2 x)
    have h2 : (2 : ℚ) ^ (Int.log 2 x) * 2 ^ (52 - Int.log 2 x) = 4503599627370496 := by
      rw [← zpow_add₀ (by norm_num)]
      have : Int.log 2 x + (52 - Int.log 2 x) = 52 := by ring
      rw [this]
      norm_num
    rw [← h2]
    exact mul_le_mul_of_nonneg_right hlo hP.le
  · rw [← hNe, exponent_of_one_le x hx1]
    have hhi : x < (2 : ℚ) ^ (Int.log 2 x + 1) := Int.lt_zpow_succ_log_self (by norm_num) x
    have hP := two_zpow_pos (52 - Int.log 2 x)
    have h2 : (2 : ℚ) ^ (Int.log 2 x + 1) * 2 ^ (52 - Int.log 2 x) = 9007199254740992 := by
      rw [← zpow_add₀ (by norm_num)]
      have : Int.log 2 x + 1 + (52 - Int.log 2 x) = 53 := by ring
      rw [this]
      norm_num
    rw [← h2]
    exact mul_lt_mul_of_pos_right hhi hP

theorem sub_ulp_le_round (x : ℚ) (hx1 : 1 ≤ x) (hx : x < (2 : ℚ) ^ (53 : ℤ)) :
    x - x / 9007199254740992 ≤ Double.round x := by
  obtain ⟨N, hN, hNe, hlo, _⟩ := scale_spec x hx1 hx
  have hNq : (0 : ℚ) < N := by exact_mod_cast hN
  rw [round_eq_div, hNe, le_div_iff₀ hNq]
  have h1 := sub_half_le_roundHalfEven (x * N)
  have h2 : (x - x / 9007199254740992) * N = x * N - x * N / 9007199254740992 := by ring
  rw [h2]
  linarith

theorem tokenEstimate_eq (w : ℕ) : tokenEstimate w = (13 * w + 9) / 10 := by
  unfold tokenEstimate
  rcases Nat.eq_zero_or_pos w with h0 | hpos
  · subst h0
    simp
  · have hne : (13 * w + 9) / 10 ≠ 0 := by omega
    rw [Nat.ceil_eq_iff hne]
    have h1 : (13 * w + 9) / 10 - 1 + 1 = (13 * w + 9) / 10 := by omega
    have h2 : 10 * ((13 * w + 9) / 10 - 1) < 13 * w := by omega
    have h3 : 13 * w ≤ 10 * ((13 * w + 9) / 10) := by omega
    have h2q : (10 : ℚ) * (((13 * w + 9) / 10 - 1 : ℕ) : ℚ) < 13 * w := by exact_mod_cast h2
    have h3q : (13 : ℚ) * w ≤ 10 * (((13 * w + 9) / 10 : ℕ) : ℚ) := by exact_mod_cast h3
    constructor
    · rw [lt_div_iff₀ (by norm_num)]
      linarith
    · rw [div_le_iff₀ (by norm_num)]
      linarith

theorem tokenCount_eq_tokenEstimate (w : ℕ) (hw : w ≤ 2 ^ 49) :
    TypingSimulator.tokenCount w = tokenEstimate w := by
  rw [tokenEstimate_eq]
  unfold TypingSimulator.tokenCount Double.mul
  rw [round_thirteen_tenths]
  have big : (2 : ℚ) ^ (53 : ℤ) = 9007199254740992 := by norm_num
  rcases Nat.eq_zero_or_pos w with h0 | hpos
  · subst h0
    have h := round_natCast 0 (by norm_num)
    simp only [Nat.cast_zero, zero_mul] at h ⊢
    rw [h]
    simp
  · have hwq : (1 : ℚ) ≤ w := by exact_mod_cast hpos
    have hwq2 : (w : ℚ) ≤ 562949953421312 := by exact_mod_cast hw
    obtain ⟨q, f, hqf, hf⟩ : ∃ q f : ℕ, 13 * w = 10 * q + f ∧ f < 10 :=
      ⟨13 * w / 10, 13 * w % 10, by omega, by omega⟩
    have hqfq : (13 : ℚ) * w = 10 * q + f := by exact_mod_cast hqf
    have hfq : (f : ℚ) ≤ 9 := by
      have : f ≤ 9 := by omega
      exact_mod_cast this
    have hf0 : (0 : ℚ) ≤ f := Nat.cast_nonneg f
    have hq0 : (0 : ℚ) ≤ q := Nat.cast_nonneg q
    generalize hx : (w : ℚ) * (5854679515581645 / 4503599627370496) = x
    have hxq : x = q + f / 10 + w / 22517998136852480 := by
      rw [← hx]
      linarith
    have hx1 : 1 ≤ x := by rw [← hx]; linarith
    have hxbig : x < (2 : ℚ) ^ (53 : ℤ) := by rw [big, ← hx]; linarith
    rcases Nat.eq_zero_or_pos f with hfz | hfpos
    · subst hfz
      have hround : Double.round x = q := by
        obtain ⟨N, hN, hNe, _, hhi⟩ := scale_spec x hx1 hxbig
        have hNq : (0 : ℚ) < N := by exact_mod_cast hN
        have hwN : (0 : ℚ) ≤ w * N := by positivity
        have hxN : x * N = q * N + w * N / 22517998136852480 := by rw [hxq]; ring
        have hwx : (13 : ℚ) * (w * N) ≤ 10 * (x * N) := by
          have : (13 : ℚ) * w ≤ 10 * x := by rw [hxq]; simp at hqfq ⊢; linarith
          nlinarith
        have hr : roundHalfEven (x * N) = ((q * N : ℕ) : ℤ) :=
          roundHalfEven_eq_of_near _ _ (by push_cast; rw [hxN]; linarith)
            (by push_cast; rw [hxN]; linarith)
        rw [round_eq_div, hNe, hr, div_eq_iff hNq.ne']
        push_cast
        ring
      rw [hround, Nat.ceil_natCast]
      omega
    · have hf1 : (1 : ℚ) ≤ f := by exact_mod_cast hfpos
      have hlow := sub_ulp_le_round x hx1 hxbig
      have hup : Double.round x ≤ ((q + 1 : ℕ) : ℚ) :=
        round_le_natCast x (q + 1) (by rw [big]; push_cast; linarith)
          (by push_cast; rw [hxq]; linarith)
      have hres : ⌈Double.round x⌉₊ = q + 1 := by
        rw [Nat.ceil_eq_iff (by omega)]
        refine ⟨?_, hup⟩
        simp only [Nat.add_sub_cancel]
        have : (q : ℚ) < x - x / 9007199254740992 := by rw [hxq]; linarith
        linarith
      rw [hres]
      omega

theorem splitSpace_length (s : JSString) :
    1 ≤ (splitSpace s).length ∧ (splitSpace s).length ≤ s.length + 1 := by
  induction s with
  | nil => simp [splitSpace]
  | cons c cs ih =>
    unfold splitSpace
    split_ifs
    · simp only [List.length_cons]
      omega
    · cases hsp : splitSpace cs with
      | nil => simp
      | cons piece pieces =>
        rw [hsp] at ih
        simp only [List.length_cons] at ih ⊢
        omega

theorem typeInterval_tokens {w : World} {h : Nat} {a : Agent} {t : JSString} {i : Nat}
    (hi : i < t.length) :
    (TypingSimulator.typeInterval w h a t i).app.agentTokenCounters.get a
      = some (TypingSimulator.tokenCount
          (splitSpace (((w.dom a).responseDiv.map
            (fun content => content ++ charAt t i)).getD [])).length) := by
  simp only [TypingSimulator.typeInterval, hi, if_true]
  exact JSMap.get_set_self _ _ _

theorem take_append_charAt (t : JSString) (i : Nat) :
    t.take i ++ charAt t i = t.take (i + 1) := by
  rw [List.take_succ]
  simp [charAt]

/-- C13: on a page that has the response and typing elements of the agent, for a text of
fewer than `2 ^ 49` characters (far above the longest string an engine holds) and
`1 <= N <= length(text)`, after the `N`-th run of the interval that
`simulateTyping(agent, text)` starts, whatever the waits between the runs, the display holds
the first `N` characters and the token counter of the agent, which the source computes in
doubles as `Math.ceil(wordCount * 1.3)`, is exactly `ceil(13 * wordCount / 10)`, with
`wordCount` the number of pieces of the displayed text split at the spaces. Here
`N = waits.length + 1`. -/
theorem typing_token_counter (w : World) (agent : Agent) (text : JSString)
    (waits : List Nat) (dt : Nat)
    (hresp : (w.dom agent).responseDiv.isSome = true)
    (hind : (w.dom agent).typingIndicator.isSome = true)
    (hfresh : ∀ iv ∈ w.live, iv.id < w.nextHandle)
    (hN : waits.length + 1 ≤ text.length)
    (hlen : text.length < 2 ^ 49) :
    ((fireTimes w.nextHandle (waits ++ [dt])
        (TypingSimulator.simulateTyping w agent text)).dom agent).responseDiv
        = some (text.take (waits.length + 1))
      ∧ (fireTimes w.nextHandle (waits ++ [dt])
          (TypingSimulator.simulateTyping w agent text)).app.agentTokenCounters.get agent
        = some (tokenEstimate (splitSpace (text.take (waits.length + 1))).length)
      ∧ tokenEstimate (splitSpace (text.take (waits.length + 1))).length
        = ⌈(13 * ((splitSpace (text.take (waits.length + 1))).length : ℚ)) / 10⌉₊ := by
  obtain ⟨s1, s2, _⟩ := simulateTyping_started w agent text hresp hind hfresh
  obtain ⟨r1, r2, _⟩ := fireTimes_reveal w.nextHandle agent text waits _ 0 s1 (by omega)
  rw [Nat.zero_add] at r1
  rw [s2] at r2
  simp only [Option.map_some', List.nil_append, List.drop_zero] at r2
  have hi : waits.length < text.length := by omega
  have hf0 : ({ (fireTimes w.nextHandle waits (TypingSimulator.simulateTyping w agent text)) with
      now := (fireTimes w.nextHandle waits
        (TypingSimulator.simulateTyping w agent text)).now + dt } : World).live.find?
        (fun iv => decide (iv.id = w.nextHandle))
      = some ⟨w.nextHandle, .typing agent text waits.length⟩ := r1
  have hstep : fireTimes w.nextHandle (waits ++ [dt])
        (TypingSimulator.simulateTyping w agent text)
      = TypingSimulator.typeInterval
          { (fireTimes w.nextHandle waits (TypingSimulator.simulateTyping w agent text)) with
            now := (fireTimes w.nextHandle waits
              (TypingSimulator.simulateTyping w agent text)).now + dt }
          w.nextHandle agent text waits.length := by
    rw [← fire_typing hf0 0]
    simp [fireTimes, List.foldl_append]
  have hdom : ((({ (fireTimes w.nextHandle waits
      (TypingSimulator.simulateTyping w agent text)) with
      now := (fireTimes w.nextHandle waits
        (TypingSimulator.simulateTyping w agent text)).now + dt } : World).dom
        agent).responseDiv.map (fun content => content ++ charAt text waits.length))
      = some (text.take (waits.length + 1)) := by
    show ((fireTimes w.nextHandle waits (TypingSimulator.simulateTyping w agent text)).dom
      agent).responseDiv.map _ = _
    rw [r2]
    simp only [Option.map_some', take_append_charAt]
  have hwords : (splitSpace (text.take (waits.length + 1))).length ≤ 2 ^ 49 := by
    have h1 := (splitSpace_length (text.take (waits.length + 1))).2
    have h2 : (text.take (waits.length + 1)).length ≤ text.length := by
      rw [List.length_take]
      exact Nat.min_le_right _ _
    omega
  refine ⟨?_, ?_, rfl⟩
  · rw [hstep, (typeInterval_reveal hf0 hi).2.1]
    exact hdom
  · rw [hstep, typeInterval_tokens hi, hdom]
    simp only [Option.getD_some]
    rw [tokenCount_eq_tokenEstimate _ hwords]

/-- C13 at a concrete input: four runs on the text `a b c` for `openAi` display `a b ` and
leave the counter at `ceil(13 * 3 / 10) = 4`, the text `a b ` splitting into three pieces. -/
theorem typing_token_counter_witness :
    (fireTimes 1 ([20, 35, 20] ++ [20])
        (TypingSimulator.simulateTyping (World.initial fullPage 0) .openAi
          "a b c".toList)).app.agentTokenCounters.get .openAi
      = some (tokenEstimate 3) :=
  (typing_token_counter (World.initial fullPage 0) .openAi "a b c".toList [20, 35, 20] 20
    (by decide) (by decide) (by intro iv hiv; cases hiv) (by decide) (by decide)).2.1


/-- C18 fails in the code. In `staleDemoCallback` a timeout that the demo scheduled for
`anthropic` fires after the reset of a later request for which `anthropic` is no longer
selected: its `updateTimer(anthropic, RESPONDING)` is traced last and registers the
display-refresh callback of `anthropic` (handle 37), which is live while `agentStartTimes`
has no entry for `anthropic`, and the typing of `anthropic` is still to come. In
`staleReveal` the reveal of a first answer outlives the reset of a second request in the
same way: its last run calls `completeResponse(anthropic)` with no start time, and the
duration handed to `updateStats` is `NaN`, which is recorded for `anthropic` and turns the
session total into `NaN`. -/
theorem stale_callbacks_find_no_start_time :
    staleDemoCallback.trace.getLast? = some (.updateTimer .anthropic .responding)
      ∧ (⟨37, .refresh .anthropic⟩ : Interval) ∈ staleDemoCallback.live
      ∧ staleDemoCallback.app.agentTimers.get .anthropic = some 37
      ∧ staleDemoCallback.app.agentStartTimes.get .anthropic = none
      ∧ staleDemoCallback.app.activeModels.contains .anthropic = false
      ∧ (38, TimeoutAction.demoType .anthropic)
          ∈ staleDemoCallback.timeouts.map (fun t => (t.id, t.action))
      ∧ staleReveal.trace.getLast? = some (.updateTimer .anthropic .completed)
      ∧ staleReveal.app.agentStartTimes.get .anthropic = none
      ∧ staleReveal.app.sessionStats.agentTimes.get .anthropic = some [none]
      ∧ staleReveal.app.sessionStats.totalResponseTime = none := by
  decide

end AIPanel
